import Mathlib

/-!
Package wire of bbld: the block and relay codecs with attached data.

A shallow embedding of wire/msgblock.go, wire/msgtxdata.go and
wire/commitmentconst.go.

* A reader is the list of bytes it still holds (a bytes.Reader or a
  bytes.Buffer); every decoding function returns the reader it leaves behind,
  on success and on error.
* A writer never fails (a bytes.Buffer); every encoding function returns the
  bytes it wrote.
* A method with a pointer receiver takes the receiver and returns it as the
  call leaves it.
* A nil slice and an empty slice are both the empty list.
-/

namespace wire

/-- One octet of a stream. -/
abbrev Byte := Fin 256

/-- The transaction encoding selector passed through to the transaction codec. -/
inductive MessageEncoding
  | BaseEncoding
  | WitnessEncoding
  deriving DecidableEq, Repr

/-- The description of a MessageError, with the values that the format string
of the source interpolates. -/
inductive ErrDesc
  /-- The text "too many transactions to fit into a block [count %d, max %d]". -/
  | tooManyTx (count max : Nat)
  /-- The text "Number of data slices different that transactions which carry
  data [dataCount %d, txCount %d]". -/
  | dataCountMismatch (dataCount txCount : Nat)
  /-- The text "txdata size too large for message [size %v, max %v]". -/
  | txDataTooLarge (size max : Nat)
  /-- The text "%s is larger than the max allowed size [count %d, max %d]". -/
  | tooLarge (fieldName : String) (count max : Nat)
  /-- The text "non-canonical varint %x - discriminant %x must encode a value
  greater than %x". -/
  | nonCanonicalVarInt (rv discriminant min : Nat)
  /-- A commitment whose presence flag or protection level is not 0 or 1. -/
  | malformedCommitment (value : Nat)
  deriving DecidableEq, Repr

/-- The error values that the codecs return. -/
inductive WireError
  /-- The value io.EOF. -/
  | EOF
  /-- The value io.ErrUnexpectedEOF. -/
  | ErrUnexpectedEOF
  /-- A value of type MessageError, as built by messageError(f, desc). -/
  | MessageError (func : String) (desc : ErrDesc)
  /-- Any other error value of the header or transaction codec. -/
  | Other (code : Nat)
  deriving DecidableEq, Repr

/-- The constructor messageError of the package. -/
def messageError (f : String) (desc : ErrDesc) : WireError :=
  WireError.MessageError f desc

/-- The test of the relay test suite: the dynamic type of the error is
MessageError. -/
def WireError.isMessageError : WireError → Bool
  | WireError.MessageError _ _ => true
  | _ => false

/-! ## Constants of commitmentconst.go and msgblock.go -/

/-- Maximal size of tag stored in commitment. -/
def TagSize : Nat := 32

/-- The maximal size of one attached payload. -/
def MaxPosDataSize : Nat := 50000

/-- Maximum size of Proof of stake chain signature. -/
def MaxPosSigSize : Nat := 128

/-- The commitment format version. -/
def CurrentCommitmentVersion : Nat := 0

/-- The default capacity of the transaction slice. -/
def defaultTransactionAlloc : Nat := 2048

/-- The maximum bytes a block message can be. -/
def MaxBlockPayload : Nat := 4000000

/-! ## Readers and the variable length integer (wire/common.go) -/

/-- The value of a little-endian byte string. -/
def uintLE : List Byte → Nat
  | [] => 0
  | b :: bs => b.val + 256 * uintLE bs

/-- The k low bytes of v, least significant first. -/
def putUintLE : Nat → Nat → List Byte
  | 0, _ => []
  | k + 1, v => (⟨v % 256, Nat.mod_lt v (by decide)⟩ : Byte) :: putUintLE k (v / 256)

/-- Modelled from the spec: io.ReadFull over an in-memory reader, used by every
read of wire/common.go (a file that is not among the sources). It reads exactly
n bytes; with no byte left it fails with io.EOF, with fewer than n bytes left
it consumes them and fails with io.ErrUnexpectedEOF; n = 0 reads nothing and
succeeds. The result is (bytes read, error, reader left). -/
def readFull : Nat → List Byte → List Byte × Option WireError × List Byte
  | 0, r => ([], none, r)
  | _ + 1, [] => ([], some .EOF, [])
  | n + 1, b :: r =>
    if (r.take n).length = n then (b :: r.take n, none, r.drop n)
    else ([], some .ErrUnexpectedEOF, [])

/-- Modelled from the spec: ReadVarInt of wire/common.go (a file that is not
among the sources), the protocol variable length integer of section 6: one
discriminant byte, then for 0xfd, 0xfe, 0xff a little-endian value of 2, 4, 8
bytes, rejected with a MessageError when it would have fitted a shorter form.
The result is (value, error, reader left), the value being 0 on error. -/
def ReadVarInt (r : List Byte) (_pver : Nat) : Nat × Option WireError × List Byte :=
  match readFull 1 r with
  | (_, some e, r1) => (0, some e, r1)
  | (d, none, r1) =>
    let discriminant := uintLE d
    if discriminant = 0xff then
      match readFull 8 r1 with
      | (_, some e, r2) => (0, some e, r2)
      | (sv, none, r2) =>
        let rv := uintLE sv
        let min := 0x100000000
        if rv < min then
          (0, some (messageError "ReadVarInt" (.nonCanonicalVarInt rv discriminant min)), r2)
        else (rv, none, r2)
    else if discriminant = 0xfe then
      match readFull 4 r1 with
      | (_, some e, r2) => (0, some e, r2)
      | (sv, none, r2) =>
        let rv := uintLE sv
        let min := 0x10000
        if rv < min then
          (0, some (messageError "ReadVarInt" (.nonCanonicalVarInt rv discriminant min)), r2)
        else (rv, none, r2)
    else if discriminant = 0xfd then
      match readFull 2 r1 with
      | (_, some e, r2) => (0, some e, r2)
      | (sv, none, r2) =>
        let rv := uintLE sv
        let min := 0xfd
        if rv < min then
          (0, some (messageError "ReadVarInt" (.nonCanonicalVarInt rv discriminant min)), r2)
        else (rv, none, r2)
    else (discriminant, none, r1)

/-- Modelled from the spec: WriteVarInt of wire/common.go (a file that is not
among the sources), the shortest form of the variable length integer; val is a
uint64. -/
def WriteVarInt (_pver : Nat) (val : Nat) : List Byte :=
  if val < 0xfd then putUintLE 1 val
  else if val ≤ 0xffff then (0xfd : Byte) :: putUintLE 2 val
  else if val ≤ 0xffffffff then (0xfe : Byte) :: putUintLE 4 val
  else (0xff : Byte) :: putUintLE 8 val

/-- Modelled from the spec: VarIntSerializeSize of wire/common.go (a file that
is not among the sources), the number of bytes WriteVarInt writes. -/
def VarIntSerializeSize (val : Nat) : Nat :=
  if val < 0xfd then 1
  else if val ≤ 0xffff then 3
  else if val ≤ 0xffffffff then 5
  else 9

/-- Modelled from the spec: ReadVarBytes of wire/common.go (a file that is not
among the sources), a length-prefixed byte sequence bounded to maxAllowed
bytes; a larger declared length is rejected with a MessageError before any
byte of the sequence is read. The result is (bytes, error, reader left), the
bytes being nil on error. -/
def ReadVarBytes (r : List Byte) (pver : Nat) (maxAllowed : Nat) (fieldName : String) :
    List Byte × Option WireError × List Byte :=
  match ReadVarInt r pver with
  | (_, some e, r1) => ([], some e, r1)
  | (count, none, r1) =>
    if count > maxAllowed then
      ([], some (messageError "ReadVarBytes" (.tooLarge fieldName count maxAllowed)), r1)
    else
      match readFull count r1 with
      | (_, some e, r2) => ([], some e, r2)
      | (b, none, r2) => (b, none, r2)

/-- Modelled from the spec: WriteVarBytes of wire/common.go (a file that is not
among the sources), the length as a variable length integer followed by the
bytes. -/
def WriteVarBytes (pver : Nat) (bytes : List Byte) : List Byte :=
  WriteVarInt pver bytes.length ++ bytes

/-! ## The parts of the package that are not among the sources -/

/-- The declarations of package wire that msgblock.go and msgtxdata.go use and
that live in files that are not among the sources (blockheader.go, msgtx.go):
the two record types, two constants and the header and transaction codecs.
Every decoder takes the receiver and the reader and returns (error, receiver
left, reader left); every encoder returns (error, bytes written). -/
structure Env where
  /-- The type MsgTx. -/
  MsgTx : Type
  /-- The type BlockHeader. -/
  BlockHeader : Type
  /-- The constant blockHeaderLen. -/
  blockHeaderLen : Nat
  /-- The constant minTxPayload. -/
  minTxPayload : Nat
  /-- The zero value MsgTx{}. -/
  zeroTx : MsgTx
  /-- The function readBlockHeader(r, pver, bh). -/
  readBlockHeader :
    List Byte → Nat → BlockHeader → Option WireError × BlockHeader × List Byte
  /-- The function writeBlockHeader(w, pver, bh). -/
  writeBlockHeader : Nat → BlockHeader → Option WireError × List Byte
  /-- The method MsgTx.BtcDecode(r, pver, enc). -/
  txBtcDecode :
    MsgTx → List Byte → Nat → MessageEncoding → Option WireError × MsgTx × List Byte
  /-- The method MsgTx.Deserialize(r). -/
  txDeserialize : MsgTx → List Byte → Option WireError × MsgTx × List Byte
  /-- The method MsgTx.BtcEncode(w, pver, enc). -/
  txBtcEncode : MsgTx → Nat → MessageEncoding → Option WireError × List Byte
  /-- The method MsgTx.HasAttachedData(). -/
  HasAttachedData : MsgTx → Bool
  /-- The method MsgTx.SerializeSize(). -/
  txSerializeSize : MsgTx → Nat
  /-- The method MsgTx.SerializeSizeStripped(). -/
  txSerializeSizeStripped : MsgTx → Nat
  /-- The method MsgTx.MaxPayloadLength(pver), a uint32. -/
  txMaxPayloadLength : MsgTx → Nat → Nat

/-- The maximum number of transactions that could possibly fit into a block. -/
def maxTxPerBlock (W : Env) : Nat := (MaxBlockPayload / W.minTxPayload) + 1

/-! ## msgblock.go -/

/-- The locator of a transaction within a MsgBlock data buffer. -/
structure TxLoc where
  TxStart : Int
  TxLen : Int
  deriving DecidableEq, Repr

/-- All additional pos data which a block is carrying. -/
abbrev Data := List (List Byte)

/-- The number of bytes it takes to serialize the data carried by the block. -/
def Data.SerializeSize (t : Data) : Nat :=
  t.foldl (fun n dataItem => n + VarIntSerializeSize dataItem.length + dataItem.length)
    (VarIntSerializeSize t.length)

/-- The block message: a header, the transactions and the attached data. -/
structure MsgBlock (W : Env) where
  Header : W.BlockHeader
  Transactions : List W.MsgTx
  PosData : Data

/-- What a decoding method leaves behind: the error it returns (none for nil),
the receiver and the reader. -/
structure Decoded (α : Type) where
  err : Option WireError
  msg : α
  r : List Byte

/-- What DeserializeTxLoc leaves behind: the returned locations (nil on error),
the returned error, the receiver and the reader. -/
structure DecodedTxLoc (α : Type) where
  txLocs : List TxLoc
  err : Option WireError
  msg : α
  r : List Byte

namespace MsgBlock

variable {W : Env}

/-- AddTransaction adds a transaction to the message. -/
def AddTransaction (msg : MsgBlock W) (tx : W.MsgTx) : Option WireError × MsgBlock W :=
  (none, { msg with Transactions := msg.Transactions ++ [tx] })

/-- AddData adds additional data to the message. -/
def AddData (msg : MsgBlock W) (data : List Byte) : Option WireError × MsgBlock W :=
  (none, { msg with PosData := msg.PosData ++ [data] })

/-- AddTransactionWithData adds a transaction to the message with attached
data. -/
def AddTransactionWithData (msg : MsgBlock W) (tx : W.MsgTx) (data : List Byte) :
    Option WireError × MsgBlock W :=
  (none, { msg with Transactions := msg.Transactions ++ [tx],
                    PosData := msg.PosData ++ [data] })

/-- ClearTransactions removes all transactions from the message. -/
def ClearTransactions (msg : MsgBlock W) : MsgBlock W :=
  { msg with Transactions := [] }

/-- The transaction loop of BtcDecode (lines 125 to 137), run for the n
iterations that are left on the state (msg.Transactions, numOfTxWithData, r);
it stops at the first transaction that fails to decode. -/
def decodeTxLoop (W : Env) (pver : Nat) (enc : MessageEncoding) :
    Nat → List W.MsgTx → Nat → List Byte →
      Option WireError × List W.MsgTx × Nat × List Byte
  | 0, txs, numOfTxWithData, r => (none, txs, numOfTxWithData, r)
  | n + 1, txs, numOfTxWithData, r =>
    match W.txBtcDecode W.zeroTx r pver enc with
    | (some err, _, r1) => (some err, txs, numOfTxWithData, r1)
    | (none, tx, r1) =>
      decodeTxLoop W pver enc n (txs ++ [tx])
        (if W.HasAttachedData tx then numOfTxWithData + 1 else numOfTxWithData) r1

/-- The payload loop of BtcDecode and DeserializeTxLoc (lines 155 to 161 and
261 to 267), run for the n iterations that are left on the state
(msg.PosData, r); it stops at the first payload that fails to decode. -/
def readPosDataLoop (pver : Nat) :
    Nat → Data → List Byte → Option WireError × Data × List Byte
  | 0, posData, r => (none, posData, r)
  | n + 1, posData, r =>
    match ReadVarBytes r pver MaxPosDataSize "block pos data" with
    | (_, some err, r1) => (some err, posData, r1)
    | (data, none, r1) => readPosDataLoop pver n (posData ++ [data]) r1

/-- BtcDecode decodes r using the bitcoin protocol encoding into the receiver. -/
def BtcDecode (msg : MsgBlock W) (r : List Byte) (pver : Nat) (enc : MessageEncoding) :
    Decoded (MsgBlock W) :=
  match W.readBlockHeader r pver msg.Header with
  | (some err, h, r1) => ⟨some err, { msg with Header := h }, r1⟩
  | (none, h, r1) =>
    let msg := { msg with Header := h }
    match ReadVarInt r1 pver with
    | (_, some err, r2) => ⟨some err, msg, r2⟩
    | (txCount, none, r2) =>
      if txCount > maxTxPerBlock W then
        ⟨some (messageError "MsgBlock.BtcDecode" (.tooManyTx txCount (maxTxPerBlock W))),
          msg, r2⟩
      else
        match decodeTxLoop W pver enc txCount [] 0 r2 with
        | (some err, txs, _, r3) => ⟨some err, { msg with Transactions := txs }, r3⟩
        | (none, txs, numOfTxWithData, r3) =>
          let msg := { msg with Transactions := txs }
          match ReadVarInt r3 pver with
          | (_, some err, r4) => ⟨some err, msg, r4⟩
          | (dataCount, none, r4) =>
            if dataCount ≠ numOfTxWithData then
              ⟨some (messageError "MsgBlock.BtcDecode"
                (.dataCountMismatch dataCount numOfTxWithData)), msg, r4⟩
            else
              match readPosDataLoop pver dataCount [] r4 with
              | (some err, posData, r5) => ⟨some err, { msg with PosData := posData }, r5⟩
              | (none, posData, r5) => ⟨none, { msg with PosData := posData }, r5⟩

/-- Deserialize decodes a block from r into the receiver using the long-term
storage format. -/
def Deserialize (msg : MsgBlock W) (r : List Byte) : Decoded (MsgBlock W) :=
  msg.BtcDecode r 0 .WitnessEncoding

/-- DeserializeNoWitness decodes a block from r into the receiver similar to
Deserialize. -/
def DeserializeNoWitness (msg : MsgBlock W) (r : List Byte) : Decoded (MsgBlock W) :=
  msg.BtcDecode r 0 .WitnessEncoding

/-- The transaction loop of DeserializeTxLoc (lines 231 to 243), run for the n
iterations that are left, i being the loop index, on the state
(msg.Transactions, txLocs, numOfTxWithData, r). -/
def deserializeTxLoop (W : Env) (fullLen : Nat) :
    Nat → Nat → List W.MsgTx → List TxLoc → Nat → List Byte →
      Option WireError × List W.MsgTx × List TxLoc × Nat × List Byte
  | 0, _, txs, txLocs, numOfTxWithData, r => (none, txs, txLocs, numOfTxWithData, r)
  | n + 1, i, txs, txLocs, numOfTxWithData, r =>
    let txStart : Int := (fullLen : Int) - (r.length : Int)
    match W.txDeserialize W.zeroTx r with
    | (some err, _, r1) => (some err, txs, txLocs, numOfTxWithData, r1)
    | (none, tx, r1) =>
      deserializeTxLoop W fullLen n (i + 1) (txs ++ [tx])
        (txLocs.set i ⟨txStart, ((fullLen : Int) - (r1.length : Int)) - txStart⟩)
        (if W.HasAttachedData tx then numOfTxWithData + 1 else numOfTxWithData) r1

/-- DeserializeTxLoc decodes r in the same manner Deserialize does, and returns
the start and length of each transaction within the raw data. -/
def DeserializeTxLoc (msg : MsgBlock W) (r : List Byte) : DecodedTxLoc (MsgBlock W) :=
  let fullLen := r.length
  match W.readBlockHeader r 0 msg.Header with
  | (some err, h, r1) => ⟨[], some err, { msg with Header := h }, r1⟩
  | (none, h, r1) =>
    let msg := { msg with Header := h }
    match ReadVarInt r1 0 with
    | (_, some err, r2) => ⟨[], some err, msg, r2⟩
    | (txCount, none, r2) =>
      if txCount > maxTxPerBlock W then
        ⟨[], some (messageError "MsgBlock.DeserializeTxLoc"
          (.tooManyTx txCount (maxTxPerBlock W))), msg, r2⟩
      else
        match deserializeTxLoop W fullLen txCount 0 [] (List.replicate txCount ⟨0, 0⟩) 0 r2 with
        | (some err, txs, _, _, r3) => ⟨[], some err, { msg with Transactions := txs }, r3⟩
        | (none, txs, txLocs, numOfTxWithData, r3) =>
          let msg := { msg with Transactions := txs }
          match ReadVarInt r3 0 with
          | (_, some err, r4) => ⟨[], some err, msg, r4⟩
          | (dataCount, none, r4) =>
            if dataCount ≠ numOfTxWithData then
              ⟨[], some (messageError "MsgBlock.BtcDecode"
                (.dataCountMismatch dataCount numOfTxWithData)), msg, r4⟩
            else
              match readPosDataLoop 0 dataCount [] r4 with
              | (some err, posData, r5) => ⟨[], some err, { msg with PosData := posData }, r5⟩
              | (none, posData, r5) => ⟨txLocs, none, { msg with PosData := posData }, r5⟩

/-- The transaction loop of BtcEncode (lines 287 to 292): the error it stops
at, if any, and the bytes written until then. -/
def encodeTxLoop (W : Env) (pver : Nat) (enc : MessageEncoding) :
    List W.MsgTx → Option WireError × List Byte
  | [] => (none, [])
  | tx :: txs =>
    match W.txBtcEncode tx pver enc with
    | (some err, out) => (some err, out)
    | (none, out) =>
      match encodeTxLoop W pver enc txs with
      | (err, out1) => (err, out ++ out1)

/-- The payload loop of BtcEncode (lines 300 to 305); WriteVarBytes fails only
when the writer does. -/
def writePosDataLoop (pver : Nat) : Data → List Byte
  | [] => []
  | data :: rest => WriteVarBytes pver data ++ writePosDataLoop pver rest

/-- BtcEncode encodes the receiver to w using the bitcoin protocol encoding:
the error it returns and the bytes it wrote. -/
def BtcEncode (msg : MsgBlock W) (pver : Nat) (enc : MessageEncoding) :
    Option WireError × List Byte :=
  match W.writeBlockHeader pver msg.Header with
  | (some err, out) => (some err, out)
  | (none, out) =>
    let out := out ++ WriteVarInt pver msg.Transactions.length
    match encodeTxLoop W pver enc msg.Transactions with
    | (some err, out1) => (some err, out ++ out1)
    | (none, out1) =>
      (none, out ++ out1 ++ WriteVarInt pver msg.PosData.length
        ++ writePosDataLoop pver msg.PosData)

/-- Serialize encodes the block to w using the long-term storage format. -/
def Serialize (msg : MsgBlock W) : Option WireError × List Byte :=
  msg.BtcEncode 0 .WitnessEncoding

/-- SerializeNoWitness encodes a block to w using an identical format to
Serialize. -/
def SerializeNoWitness (msg : MsgBlock W) : Option WireError × List Byte :=
  msg.BtcEncode 0 .WitnessEncoding

/-- SerializeSize returns the number of bytes it would take to serialize the
block, factoring in any witness data within transaction. -/
def SerializeSize (msg : MsgBlock W) : Nat :=
  (msg.Transactions.foldl (fun n tx => n + W.txSerializeSize tx)
    (W.blockHeaderLen + VarIntSerializeSize msg.Transactions.length))
    + Data.SerializeSize msg.PosData

/-- SerializeSizeStripped returns the number of bytes it would take to
serialize the block, excluding any witness data. -/
def SerializeSizeStripped (msg : MsgBlock W) : Nat :=
  (msg.Transactions.foldl (fun n tx => n + W.txSerializeSizeStripped tx)
    (W.blockHeaderLen + VarIntSerializeSize msg.Transactions.length))
    + Data.SerializeSize msg.PosData

/-- MaxPayloadLength returns the maximum length the payload can be for the
receiver. -/
def MaxPayloadLength (_msg : MsgBlock W) (_pver : Nat) : Nat := MaxBlockPayload

end MsgBlock

/-- NewMsgBlock returns a new bitcoin block message. -/
def NewMsgBlock (W : Env) (blockHeader : W.BlockHeader) : MsgBlock W :=
  { Header := blockHeader, Transactions := [], PosData := [] }

/-! ## msgtxdata.go -/

/-- The relay message: one transaction and its payload. -/
structure MsgTxData (W : Env) where
  Tx : W.MsgTx
  Data : List Byte

/-- What MsgTxData.BtcDecode leaves behind: the error it returns, the receiver,
the reader, and the lines it printed on the standard output. -/
structure DecodedTxData (W : Env) where
  err : Option WireError
  msg : MsgTxData W
  r : List Byte
  stdout : List String

namespace MsgTxData

variable {W : Env}

/-- BtcDecode decodes the transaction into msg.Tx, then the payload into
msg.Data. -/
def BtcDecode (msg : MsgTxData W) (r : List Byte) (pver : Nat) (enc : MessageEncoding) :
    DecodedTxData W :=
  match W.txBtcDecode msg.Tx r pver enc with
  | (some err, tx, r1) => ⟨some err, { msg with Tx := tx }, r1, ["Err decoding tx"]⟩
  | (none, tx, r1) =>
    match ReadVarBytes r1 pver MaxPosDataSize "txdata data" with
    | (data, err, r2) => ⟨err, { Tx := tx, Data := data }, r2, []⟩

/-- BtcEncode checks the payload size, then writes the transaction and the
payload: the error it returns and the bytes it wrote. -/
def BtcEncode (msg : MsgTxData W) (pver : Nat) (enc : MessageEncoding) :
    Option WireError × List Byte :=
  let size := msg.Data.length
  if size > MaxPosDataSize then
    (some (messageError "MsgTxData.BtcEncode" (.txDataTooLarge size MaxPosDataSize)), [])
  else
    match W.txBtcEncode msg.Tx pver enc with
    | (some err, out) => (some err, out)
    | (none, out) => (none, out ++ WriteVarBytes pver msg.Data)

/-- MaxPayloadLength returns the maximum length the payload can be for the
receiver; the sum is a uint32. -/
def MaxPayloadLength (msg : MsgTxData W) (pver : Nat) : Nat :=
  (W.txMaxPayloadLength msg.Tx pver + VarIntSerializeSize MaxPosDataSize % 2 ^ 32
    + MaxPosDataSize) % 2 ^ 32

end MsgTxData

/-- NewMsgTxData returns a new relay message. -/
def NewMsgTxData (W : Env) (tx : W.MsgTx) (data : List Byte) : MsgTxData W :=
  { Tx := tx, Data := data }

/-! ## A transaction and header codec after section 6 of the spec

The codecs of msgtx.go and blockheader.go are parameters of everything above.
The instance below follows the wire layout that the spec gives for them; it
serves to evaluate the block and relay codecs on concrete streams. -/

/-- Modelled from the spec: the commitment record of section 3 (the type
wire.Commitmment of msgtx.go, a file that is not among the sources). -/
structure Commitmment where
  Tag : List Byte
  ProtectionLevel : Nat
  DataSize : Nat
  HashCommitment : List Byte
  Nonce : Nat
  PosSig : List Byte
  deriving DecidableEq, Repr

/-- Modelled from the spec: the transaction of section 3 (the type MsgTx of
msgtx.go, a file that is not among the sources), restricted to the
transactions without inputs and outputs: the version, the lock time and the
optional commitment. -/
structure SpecTx where
  Version : Nat
  LockTime : Nat
  PosCommitment : Option Commitmment
  deriving DecidableEq, Repr

/-- Modelled from the spec: HasAttachedData of section 3, true iff a commitment
is present, regardless of protection level. -/
def SpecTx.HasAttachedData (tx : SpecTx) : Bool := tx.PosCommitment.isSome

/-- Modelled from the spec: the commitment layout of section 6,
Tag[32] | ProtectionLevel(1 byte) | DataSize(4 bytes) | HashCommitment[32] |
Nonce(4 bytes) | VarBytes(PosSig, max 128). -/
def Commitmment.encode (c : Commitmment) (pver : Nat) : List Byte :=
  c.Tag ++ putUintLE 1 c.ProtectionLevel ++ putUintLE 4 c.DataSize ++ c.HashCommitment
    ++ putUintLE 4 c.Nonce ++ WriteVarBytes pver c.PosSig

/-- Modelled from the spec: the decoder of the commitment layout of section 6;
a protection level other than 0 or 1 and a signature of more than 128 bytes
are decode errors. -/
def Commitmment.decode (r : List Byte) (pver : Nat) :
    Option Commitmment × Option WireError × List Byte :=
  match readFull TagSize r with
  | (_, some err, r1) => (none, some err, r1)
  | (tag, none, r1) =>
    match readFull 1 r1 with
    | (_, some err, r2) => (none, some err, r2)
    | (lvl, none, r2) =>
      if uintLE lvl > 1 then
        (none, some (messageError "MsgTx.BtcDecode" (.malformedCommitment (uintLE lvl))), r2)
      else
        match readFull 4 r2 with
        | (_, some err, r3) => (none, some err, r3)
        | (size, none, r3) =>
          match readFull 32 r3 with
          | (_, some err, r4) => (none, some err, r4)
          | (hash, none, r4) =>
            match readFull 4 r4 with
            | (_, some err, r5) => (none, some err, r5)
            | (nonce, none, r5) =>
              match ReadVarBytes r5 pver MaxPosSigSize "pos signature" with
              | (_, some err, r6) => (none, some err, r6)
              | (sig, none, r6) =>
                (some ⟨tag, uintLE lvl, uintLE size, hash, uintLE nonce, sig⟩, none, r6)

/-- Modelled from the spec: the transaction layout of section 6,
standard transaction fields | CommitmentPresenceFlag | [Commitment], for a
transaction without inputs and outputs: Version(4 bytes) | VarInt(0) |
VarInt(0) | LockTime(4 bytes), then a zero byte for an absent commitment or a
one byte and the commitment. -/
def SpecTx.BtcEncode (tx : SpecTx) (pver : Nat) (_enc : MessageEncoding) :
    Option WireError × List Byte :=
  (none, putUintLE 4 tx.Version ++ WriteVarInt pver 0 ++ WriteVarInt pver 0
    ++ putUintLE 4 tx.LockTime ++
    (match tx.PosCommitment with
     | none => putUintLE 1 0
     | some c => putUintLE 1 1 ++ c.encode pver))

/-- Modelled from the spec: the decoder of the transaction layout of section 6
into the receiver. A stream that declares inputs or outputs is outside this
model and is refused with an error that is not a MessageError. -/
def SpecTx.BtcDecode (msg : SpecTx) (r : List Byte) (pver : Nat) (_enc : MessageEncoding) :
    Option WireError × SpecTx × List Byte :=
  match readFull 4 r with
  | (_, some err, r1) => (some err, msg, r1)
  | (version, none, r1) =>
    let msg := { msg with Version := uintLE version }
    match ReadVarInt r1 pver with
    | (_, some err, r2) => (some err, msg, r2)
    | (inCount, none, r2) =>
      if inCount ≠ 0 then (some (.Other 1), msg, r2)
      else
        match ReadVarInt r2 pver with
        | (_, some err, r3) => (some err, msg, r3)
        | (outCount, none, r3) =>
          if outCount ≠ 0 then (some (.Other 2), msg, r3)
          else
            match readFull 4 r3 with
            | (_, some err, r4) => (some err, msg, r4)
            | (lockTime, none, r4) =>
              let msg := { msg with LockTime := uintLE lockTime }
              match readFull 1 r4 with
              | (_, some err, r5) => (some err, msg, r5)
              | (flag, none, r5) =>
                if uintLE flag = 0 then (none, { msg with PosCommitment := none }, r5)
                else if uintLE flag = 1 then
                  match Commitmment.decode r5 pver with
                  | (_, some err, r6) => (some err, msg, r6)
                  | (c, none, r6) => (none, { msg with PosCommitment := c }, r6)
                else
                  (some (messageError "MsgTx.BtcDecode" (.malformedCommitment (uintLE flag))),
                    msg, r5)

/-- Modelled from the spec: the block header (blockheader.go is not among the
sources), which the spec leaves opaque: 80 bytes, read and written as they
are. -/
abbrev SpecHeader := { raw : List Byte // raw.length = 80 }

/-- Modelled from the spec: readBlockHeader, which fills the header with the
next 80 bytes of the reader. -/
def SpecHeader.read (r : List Byte) (_pver : Nat) (bh : SpecHeader) :
    Option WireError × SpecHeader × List Byte :=
  match readFull 80 r with
  | (_, some err, r1) => (some err, bh, r1)
  | (raw, none, r1) =>
    if h : raw.length = 80 then (none, ⟨raw, h⟩, r1) else (some .ErrUnexpectedEOF, bh, r1)

/-- Modelled from the spec: the header and transaction codecs of the spec as
the environment of the block and relay codecs. -/
@[reducible] def specEnv : Env where
  MsgTx := SpecTx
  BlockHeader := SpecHeader
  blockHeaderLen := 80
  minTxPayload := 10
  zeroTx := ⟨0, 0, none⟩
  readBlockHeader := SpecHeader.read
  writeBlockHeader := fun _ bh => (none, bh.val)
  txBtcDecode := SpecTx.BtcDecode
  txDeserialize := fun msg r => SpecTx.BtcDecode msg r 0 .WitnessEncoding
  txBtcEncode := SpecTx.BtcEncode
  HasAttachedData := SpecTx.HasAttachedData
  txSerializeSize := fun tx => (SpecTx.BtcEncode tx 0 .WitnessEncoding).2.length
  txSerializeSizeStripped := fun tx => (SpecTx.BtcEncode tx 0 .BaseEncoding).2.length
  txMaxPayloadLength := fun _ _ => MaxBlockPayload

/-- The 11 bytes of the empty transaction of TestTxDataWireTooLargeData. -/
def noTxEncoded : List Byte :=
  [0x01, 0x00, 0x00, 0x00, 0x00, 0x00, 0x00, 0x00, 0x00, 0x00, 0x00]

/-- The transaction NewMsgTx(1) of TestTxDataWireTooLargeData. -/
def noTx : SpecTx := ⟨1, 0, none⟩

/-- The payload "hello" of the end-to-end scenario. -/
def helloData : List Byte := [0x68, 0x65, 0x6c, 0x6c, 0x6f]

/-- The SHA-256 digest of "hello". -/
def helloHash : List Byte :=
  [0x2c, 0xf2, 0x4d, 0xba, 0x5f, 0xb0, 0xa3, 0x0e, 0x26, 0xe8, 0x3b, 0x2a, 0xc5, 0xb9, 0xe2, 0x9e,
   0x1b, 0x16, 0x1e, 0x5c, 0x1f, 0xa7, 0x42, 0x5e, 0x73, 0x04, 0x33, 0x62, 0x93, 0x8b, 0x98, 0x24]

/-- A transaction with a level-1 commitment over "hello". -/
def helloTx : SpecTx :=
  ⟨1, 0, some ⟨List.replicate 32 7, 1, 5, helloHash, 0, [0xaa, 0xbb, 0xcc]⟩⟩

/-- A second transaction without commitment. -/
def plainTx : SpecTx := ⟨2, 5, none⟩

/-- A block header of 80 bytes. -/
def headerH : SpecHeader := ⟨List.replicate 80 9, by decide⟩

/-- The block of the end-to-end scenario: two plain transactions, then the
transaction over "hello", and the one payload. -/
def helloBlock : MsgBlock specEnv :=
  { Header := headerH, Transactions := [noTx, plainTx, helloTx], PosData := [helloData] }

/-- The three transactions of the end-to-end scenario on the wire. -/
def helloTxBytes : List Byte :=
  (SpecTx.BtcEncode noTx 0 .WitnessEncoding).2 ++ (SpecTx.BtcEncode plainTx 0 .WitnessEncoding).2
    ++ (SpecTx.BtcEncode helloTx 0 .WitnessEncoding).2

/-- The stream of the end-to-end block with the payload count 2 in place of 1,
followed by the payload "hello". -/
def badCountStream : List Byte :=
  headerH.val ++ [0x03] ++ helloTxBytes ++ [0x02] ++ ([0x05] ++ helloData)

/-- The stream of the end-to-end block with a payload prefix fd 51 c3, which
declares 50001 bytes, followed by two bytes. -/
def bigPayloadStream : List Byte :=
  headerH.val ++ [0x03] ++ helloTxBytes ++ [0x01] ++ [0xfd, 0x51, 0xc3, 0x01, 0x02]

/-- An empty block message on the header of zeros, as a receiver. -/
def emptyBlock : MsgBlock specEnv :=
  NewMsgBlock specEnv ⟨List.replicate 80 0, by decide⟩

/-- A stream with a header and the transaction count 400002 = 0x061a82, one
more than maxTxPerBlock when minTxPayload is 10, followed by one byte. -/
def bigCountStream : List Byte :=
  headerH.val ++ [0xfe, 0x82, 0x1a, 0x06, 0x00] ++ [0x01]

/-- A stream with a header, the transaction count 400001 = maxTxPerBlock when
minTxPayload is 10, that many empty transactions and the payload count 0. -/
def maxCountStream : List Byte :=
  headerH.val ++ (WriteVarInt 0 (List.replicate 400001 noTx).length
    ++ (((List.replicate 400001 noTx).map
          (fun tx => (specEnv.txBtcEncode tx 0 .WitnessEncoding).2)).flatten
      ++ (WriteVarInt 0 0 ++ [])))

/-- A block with one transaction with a commitment and a payload of exactly
50000 bytes. -/
def fullPayloadBlock : MsgBlock specEnv :=
  { Header := headerH, Transactions := [helloTx], PosData := [List.replicate 50000 0x5a] }

/-- The stream of the block with a payload of exactly 50000 bytes. -/
def fullPayloadStream : List Byte :=
  headerH.val ++ (WriteVarInt 0 fullPayloadBlock.Transactions.length
    ++ ((fullPayloadBlock.Transactions.map
          (fun tx => (specEnv.txBtcEncode tx 0 .WitnessEncoding).2)).flatten
      ++ (WriteVarInt 0 fullPayloadBlock.PosData.length
        ++ (MsgBlock.writePosDataLoop 0 fullPayloadBlock.PosData ++ []))))

/-! ## Streams that decode -/

/-- The reader r holds the encodings of the transactions txs, one after the
other, and then leaves r1: the decoder dec, started on a fresh receiver,
returns each of them in turn without error. -/
def DecodesTxs {T : Type} (dec : List Byte → Option WireError × T × List Byte) :
    List Byte → List T → List Byte → Prop
  | r, [], r1 => r1 = r
  | r, tx :: txs, r1 =>
    (dec r).1 = none ∧ (dec r).2.1 = tx ∧ DecodesTxs dec (dec r).2.2 txs r1

/-- The predicate DecodesTxs is decidable: it runs the decoder. -/
instance DecodesTxs.decidable {T : Type} [DecidableEq T]
    (dec : List Byte → Option WireError × T × List Byte) :
    ∀ (r : List Byte) (txs : List T) (r1 : List Byte), Decidable (DecodesTxs dec r txs r1)
  | r, [], r1 => inferInstanceAs (Decidable (r1 = r))
  | r, tx :: txs, r1 =>
    have := DecodesTxs.decidable dec (dec r).2.2 txs r1
    inferInstanceAs (Decidable ((dec r).1 = none ∧ (dec r).2.1 = tx ∧
      DecodesTxs dec (dec r).2.2 txs r1))

/-- The number of transactions of a list that carry a commitment. -/
def numWithData (W : Env) (txs : List W.MsgTx) : Nat :=
  txs.countP W.HasAttachedData

/-- The locations that a caller of DeserializeTxLoc expects for n transactions
read from r, in a buffer that held fullLen bytes at call time: entry i starts
at the offset at which the decoding of transaction i began, and its length is
the number of bytes that decoding consumed. -/
def txLocsOf (W : Env) (fullLen : Nat) : Nat → List Byte → List TxLoc
  | 0, _ => []
  | n + 1, r =>
    ⟨(fullLen : Int) - (r.length : Int),
      (r.length : Int) - ((W.txDeserialize W.zeroTx r).2.2.length : Int)⟩
      :: txLocsOf W fullLen n (W.txDeserialize W.zeroTx r).2.2

/-- A transaction with a level-0 (hash-only) commitment: DataSize 0 and a hash
that the committer supplies. -/
def levelZeroTx : SpecTx :=
  ⟨1, 0, some ⟨List.replicate 32 3, 0, 0, helloHash, 7, [0xdd]⟩⟩

/-- The payload "world". -/
def worldData : List Byte := [0x77, 0x6f, 0x72, 0x6c, 0x64]

/-- One call of a builder that follows the discipline of section 3: a
transaction added alone with AddTransaction, or a transaction added together
with its payload with AddTransactionWithData. -/
inductive BuildStep (W : Env)
  | plain (tx : W.MsgTx)
  | withData (tx : W.MsgTx) (data : List Byte)

namespace BuildStep

variable {W : Env}

/-- The call that the step stands for, on the receiver msg. -/
def run (msg : MsgBlock W) : BuildStep W → MsgBlock W
  | plain tx => (msg.AddTransaction tx).2
  | withData tx data => (msg.AddTransactionWithData tx data).2

/-- The step follows the discipline: AddTransaction is used for a transaction
without a commitment, AddTransactionWithData for one with a commitment. -/
def disciplined : BuildStep W → Bool
  | plain tx => !W.HasAttachedData tx
  | withData tx _ => W.HasAttachedData tx

/-- The transaction that the step adds. -/
def tx : BuildStep W → W.MsgTx
  | plain t => t
  | withData t _ => t

/-- The transaction and the payload that the step supplies together, if any. -/
def pair : BuildStep W → Option (W.MsgTx × List Byte)
  | plain _ => none
  | withData t data => some (t, data)

end BuildStep

/-- The block obtained from NewMsgBlock(h) by the calls of steps, in order. -/
def buildBlock (W : Env) (h : W.BlockHeader) (steps : List (BuildStep W)) : MsgBlock W :=
  steps.foldl BuildStep.run (NewMsgBlock W h)

/-- The calls of the positional example: a transaction with a commitment added
with "hello", a plain transaction, a transaction with a commitment added with
"world". -/
def exampleSteps : List (BuildStep specEnv) :=
  [.withData helloTx helloData, .plain plainTx, .withData levelZeroTx worldData]

/-- A stream with a header, one transaction with a level-0 commitment and the
payload count 0. -/
def levelZeroNoPayloadStream : List Byte :=
  headerH.val ++ [0x01] ++ (SpecTx.BtcEncode levelZeroTx 0 .WitnessEncoding).2 ++ [0x00]

/-- A stream with a header, one transaction with a level-0 commitment, the
payload count 1 and one payload of length 0. -/
def levelZeroEmptyPayloadStream : List Byte :=
  headerH.val ++ [0x01] ++ (SpecTx.BtcEncode levelZeroTx 0 .WitnessEncoding).2 ++ [0x01, 0x00]

/-! ## SHA-256 and the commitment validator -/

/-- The k low bytes of v, most significant first. -/
def putUintBE : Nat → Nat → List Byte
  | 0, _ => []
  | k + 1, v => (⟨v / 256 ^ k % 256, Nat.mod_lt _ (by decide)⟩ : Byte) :: putUintBE k v

/-- The value of a big-endian byte string. -/
def uintBE (bs : List Byte) : Nat := bs.foldl (fun acc b => acc * 256 + b.val) 0

namespace sha256

/-- Rotation of a 32-bit word to the right. -/
def rotr (n x : Nat) : Nat := (x >>> n ||| x <<< (32 - n)) % 2 ^ 32

/-- The function Ch of FIPS 180-4. -/
def ch (x y z : Nat) : Nat := (x &&& y) ^^^ ((x ^^^ 0xffffffff) &&& z)

/-- The function Maj of FIPS 180-4. -/
def maj (x y z : Nat) : Nat := (x &&& y) ^^^ (x &&& z) ^^^ (y &&& z)

/-- The function capital sigma 0 of FIPS 180-4. -/
def bigSigma0 (x : Nat) : Nat := rotr 2 x ^^^ rotr 13 x ^^^ rotr 22 x

/-- The function capital sigma 1 of FIPS 180-4. -/
def bigSigma1 (x : Nat) : Nat := rotr 6 x ^^^ rotr 11 x ^^^ rotr 25 x

/-- The function small sigma 0 of FIPS 180-4. -/
def smallSigma0 (x : Nat) : Nat := rotr 7 x ^^^ rotr 18 x ^^^ (x >>> 3)

/-- The function small sigma 1 of FIPS 180-4. -/
def smallSigma1 (x : Nat) : Nat := rotr 17 x ^^^ rotr 19 x ^^^ (x >>> 10)

/-- The 64 round constants, in eight rows of eight. -/
def K : List Nat := List.flatten [
  [0x428a2f98, 0x71374491, 0xb5c0fbcf, 0xe9b5dba5, 0x3956c25b, 0x59f111f1, 0x923f82a4, 0xab1c5ed5],
  [0xd807aa98, 0x12835b01, 0x243185be, 0x550c7dc3, 0x72be5d74, 0x80deb1fe, 0x9bdc06a7, 0xc19bf174],
  [0xe49b69c1, 0xefbe4786, 0x0fc19dc6, 0x240ca1cc, 0x2de92c6f, 0x4a7484aa, 0x5cb0a9dc, 0x76f988da],
  [0x983e5152, 0xa831c66d, 0xb00327c8, 0xbf597fc7, 0xc6e00bf3, 0xd5a79147, 0x06ca6351, 0x14292967],
  [0x27b70a85, 0x2e1b2138, 0x4d2c6dfc, 0x53380d13, 0x650a7354, 0x766a0abb, 0x81c2c92e, 0x92722c85],
  [0xa2bfe8a1, 0xa81a664b, 0xc24b8b70, 0xc76c51a3, 0xd192e819, 0xd6990624, 0xf40e3585, 0x106aa070],
  [0x19a4c116, 0x1e376c08, 0x2748774c, 0x34b0bcb5, 0x391c0cb3, 0x4ed8aa4a, 0x5b9cca4f, 0x682e6ff3],
  [0x748f82ee, 0x78a5636f, 0x84c87814, 0x8cc70208, 0x90befffa, 0xa4506ceb, 0xbef9a3f7, 0xc67178f2]]

/-- The eight working words of the hash. -/
structure State where
  a : Nat
  b : Nat
  c : Nat
  d : Nat
  e : Nat
  f : Nat
  g : Nat
  h : Nat
  deriving DecidableEq, Repr

/-- The initial hash value. -/
def iv : State :=
  ⟨0x6a09e667, 0xbb67ae85, 0x3c6ef372, 0xa54ff53a,
    0x510e527f, 0x9b05688c, 0x1f83d9ab, 0x5be0cd19⟩

/-- The message schedule: n more words in front of the words so far, the
latest word first. -/
def schedule : Nat → List Nat → List Nat
  | 0, ws => ws
  | n + 1, ws =>
    schedule n (((smallSigma1 (ws.getD 1 0) + ws.getD 6 0 + smallSigma0 (ws.getD 14 0)
      + ws.getD 15 0) % 2 ^ 32) :: ws)

/-- One round, on a round constant and a schedule word. -/
def round (s : State) (kw : Nat × Nat) : State :=
  let t1 := (s.h + bigSigma1 s.e + ch s.e s.f s.g + kw.1 + kw.2) % 2 ^ 32
  let t2 := (bigSigma0 s.a + maj s.a s.b s.c) % 2 ^ 32
  ⟨(t1 + t2) % 2 ^ 32, s.a, s.b, s.c, (s.d + t1) % 2 ^ 32, s.e, s.f, s.g⟩

/-- The big-endian 32-bit words of a block. -/
def words : List Byte → List Nat
  | b0 :: b1 :: b2 :: b3 :: rest => uintBE [b0, b1, b2, b3] :: words rest
  | _ => []

/-- The compression of one block of 64 bytes into the hash value. -/
def compress (s : State) (block : List Byte) : State :=
  let w := (schedule 48 (words block).reverse).reverse
  let t := (K.zip w).foldl round s
  ⟨(s.a + t.a) % 2 ^ 32, (s.b + t.b) % 2 ^ 32, (s.c + t.c) % 2 ^ 32, (s.d + t.d) % 2 ^ 32,
    (s.e + t.e) % 2 ^ 32, (s.f + t.f) % 2 ^ 32, (s.g + t.g) % 2 ^ 32, (s.h + t.h) % 2 ^ 32⟩

/-- The padded message: a bit 1, zero bits, and the length in bits on 8 bytes,
up to a multiple of 64 bytes. -/
def pad (msg : List Byte) : List Byte :=
  msg ++ [(0x80 : Byte)] ++ List.replicate ((64 - (msg.length + 9) % 64) % 64) (0 : Byte)
    ++ putUintBE 8 (8 * msg.length)

/-- The compression of the n blocks of bs, one after the other. -/
def blocks : Nat → List Byte → State → State
  | 0, _, s => s
  | n + 1, bs, s => blocks n (bs.drop 64) (compress s (bs.take 64))

/-- The function Sum256 of package crypto/sha256 of the Go standard library:
the SHA-256 digest of FIPS 180-4, 32 bytes. -/
def Sum256 (data : List Byte) : List Byte :=
  let s := blocks ((pad data).length / 64) (pad data) iv
  putUintBE 4 s.a ++ putUintBE 4 s.b ++ putUintBE 4 s.c ++ putUintBE 4 s.d
    ++ putUintBE 4 s.e ++ putUintBE 4 s.f ++ putUintBE 4 s.g ++ putUintBE 4 s.h

end sha256

/-- Modelled from the spec: the payload descriptor that a caller presents to
the validator of section 4.5, either an explicit byte payload or a
pre-computed hash plus length. -/
inductive PayloadClaim
  | payload (data : List Byte)
  | hashAndSize (hash : List Byte) (size : Nat)
  deriving DecidableEq, Repr

/-- Modelled from the spec: the hash that a payload descriptor declares, the
SHA-256 digest of an explicit payload. -/
def PayloadClaim.hash : PayloadClaim → List Byte
  | payload data => sha256.Sum256 data
  | hashAndSize h _ => h

/-- Modelled from the spec: the size that a payload descriptor declares, the
length of an explicit payload. -/
def PayloadClaim.size : PayloadClaim → Nat
  | payload data => data.length
  | hashAndSize _ n => n

/-- Modelled from the spec: the validator of section 4.5 (its code is not among
the sources). Level 0 accepts iff the declared hash is HashCommitment and the
declared size is 0; level 1 accepts iff the payload hashes (SHA-256) to
HashCommitment and its length is DataSize; any other level is rejected. -/
def Commitmment.Validate (c : Commitmment) (claim : PayloadClaim) : Bool :=
  if c.ProtectionLevel = 0 then
    decide (claim.hash = c.HashCommitment) && decide (claim.size = 0)
  else if c.ProtectionLevel = 1 then
    decide (claim.hash = c.HashCommitment) && decide (claim.size = c.DataSize)
  else false

/-- Modelled from the spec: BuildCommitment(tag, protectionLevel, payloadOrHash,
nonce, signature) of section 6 (its code is not among the sources), with the
invariants of section 3: at level 1 DataSize is the length of the payload and
HashCommitment its SHA-256 digest; at level 0 DataSize is 0 and HashCommitment
is the supplied hash of 32 bytes; the tag has 32 bytes and the signature at
most 128, anything else is an error. Sizes are naturals. -/
def BuildCommitment (tag : List Byte) (protectionLevel : Nat) (payloadOrHash : List Byte)
    (nonce : Nat) (signature : List Byte) : Option Commitmment :=
  if tag.length ≠ TagSize ∨ signature.length > MaxPosSigSize then none
  else if protectionLevel = 0 then
    if payloadOrHash.length = 32 then
      some ⟨tag, 0, 0, payloadOrHash, nonce, signature⟩
    else none
  else if protectionLevel = 1 then
    some ⟨tag, 1, payloadOrHash.length, sha256.Sum256 payloadOrHash, nonce, signature⟩
  else none

/-- The stream of a relay message: the transaction over "hello" followed by the
payload prefix fd 51 c3, which declares 50001 bytes. -/
def bigRelayStream : List Byte :=
  (SpecTx.BtcEncode helloTx 0 .WitnessEncoding).2 ++ [0xfd, 0x51, 0xc3]

/-- The commitment of the transaction over "hello": protection level 1, DataSize
5 and the SHA-256 digest of "hello". -/
def helloCommitment : Commitmment :=
  ⟨List.replicate 32 7, 1, 5, helloHash, 0, [0xaa, 0xbb, 0xcc]⟩

/-- A block with one plain transaction and one payload: it does not satisfy the
count invariant. -/
def strayPayloadBlock : MsgBlock specEnv :=
  { Header := headerH, Transactions := [noTx], PosData := [helloData] }

/-- A block with one committed transaction and a payload of 50001 bytes. -/
def oversizedPayloadBlock : MsgBlock specEnv :=
  { Header := headerH, Transactions := [helloTx], PosData := [List.replicate 50001 0x5a] }

/-- The capacity arguments that an execution of BtcDecode passes to make, in
order: txCount for Transactions (line 124), reached when the transaction count
was read and passed the bound check, and dataCount for PosData (line 154),
reached when every transaction decoded, the payload count was read and the
count check passed. -/
def MsgBlock.decodeAllocs {W : Env} (msg : MsgBlock W) (r : List Byte) (pver : Nat)
    (enc : MessageEncoding) : List Nat :=
  match W.readBlockHeader r pver msg.Header with
  | (some _, _, _) => []
  | (none, _, r1) =>
    match ReadVarInt r1 pver with
    | (_, some _, _) => []
    | (txCount, none, r2) =>
      if txCount > maxTxPerBlock W then []
      else
        match MsgBlock.decodeTxLoop W pver enc txCount [] 0 r2 with
        | (some _, _, _, _) => [txCount]
        | (none, _, numOfTxWithData, r3) =>
          match ReadVarInt r3 pver with
          | (_, some _, _) => [txCount]
          | (dataCount, none, _) =>
            if dataCount ≠ numOfTxWithData then [txCount] else [txCount, dataCount]

/-- The size arguments that an execution of DeserializeTxLoc passes to make, in
order: txCount for Transactions and for txLocs (lines 229 and 230), and
dataCount for PosData (line 260). -/
def MsgBlock.deserializeAllocs {W : Env} (msg : MsgBlock W) (r : List Byte) : List Nat :=
  match W.readBlockHeader r 0 msg.Header with
  | (some _, _, _) => []
  | (none, _, r1) =>
    match ReadVarInt r1 0 with
    | (_, some _, _) => []
    | (txCount, none, r2) =>
      if txCount > maxTxPerBlock W then []
      else
        match MsgBlock.deserializeTxLoop W r.length txCount 0 []
            (List.replicate txCount ⟨0, 0⟩) 0 r2 with
        | (some _, _, _, _, _) => [txCount, txCount]
        | (none, _, _, numOfTxWithData, r3) =>
          match ReadVarInt r3 0 with
          | (_, some _, _) => [txCount, txCount]
          | (dataCount, none, _) =>
            if dataCount ≠ numOfTxWithData then [txCount, txCount]
            else [txCount, txCount, dataCount]

/-- The transaction loop of DeserializeTxLoc (lines 231 to 243) with the bounds
check of the index expressions txLocs[i]: none stands for the run-time panic
of an index out of range. -/
def MsgBlock.deserializeTxLoopChecked (W : Env) (fullLen : Nat) :
    Nat → Nat → List W.MsgTx → List TxLoc → Nat → List Byte →
      Option (Option WireError × List W.MsgTx × List TxLoc × Nat × List Byte)
  | 0, _, txs, txLocs, numOfTxWithData, r => some (none, txs, txLocs, numOfTxWithData, r)
  | n + 1, i, txs, txLocs, numOfTxWithData, r =>
    if i < txLocs.length then
      let txStart : Int := (fullLen : Int) - (r.length : Int)
      match W.txDeserialize W.zeroTx r with
      | (some err, _, r1) => some (some err, txs, txLocs, numOfTxWithData, r1)
      | (none, tx, r1) =>
        MsgBlock.deserializeTxLoopChecked W fullLen n (i + 1) (txs ++ [tx])
          (txLocs.set i ⟨txStart, ((fullLen : Int) - (r1.length : Int)) - txStart⟩)
          (if W.HasAttachedData tx then numOfTxWithData + 1 else numOfTxWithData) r1
    else none


/-- Modelled from the spec: the codec of the standard transaction fields, which
the layout Tx-with-commit of section 6 leaves open (msgtx.go is not among the
sources): the type of the fields, their zero value, the reader, which takes the
receiver's fields, the reader, pver and the encoding and returns (error, fields
left, reader left), and the writer, which returns (error, bytes written). -/
structure StdCodec where
  /-- The standard transaction fields. -/
  Fields : Type
  /-- The fields of the zero value MsgTx{}. -/
  zero : Fields
  /-- The reader of the standard fields. -/
  read : Fields → List Byte → Nat → MessageEncoding → Option WireError × Fields × List Byte
  /-- The writer of the standard fields. -/
  write : Fields → Nat → MessageEncoding → Option WireError × List Byte

/-- Modelled from the spec: the transaction of section 3 over any standard
fields, the unchanged core fields plus an optional commitment. -/
structure TxWithCommit (S : StdCodec) where
  Std : S.Fields
  PosCommitment : Option Commitmment

/-- Modelled from the spec: HasAttachedData of section 3, true iff a commitment
is present, regardless of protection level. -/
def TxWithCommit.HasAttachedData {S : StdCodec} (tx : TxWithCommit S) : Bool :=
  tx.PosCommitment.isSome

/-- Modelled from the spec: the transaction layout of section 6,
standard transaction fields | CommitmentPresenceFlag | [Commitment], with a
zero byte for an absent commitment or a one byte and the commitment. -/
def TxWithCommit.BtcEncode {S : StdCodec} (tx : TxWithCommit S) (pver : Nat)
    (enc : MessageEncoding) : Option WireError × List Byte :=
  match S.write tx.Std pver enc with
  | (some err, out) => (some err, out)
  | (none, out) =>
    (none, out ++
      (match tx.PosCommitment with
       | none => putUintLE 1 0
       | some c => putUintLE 1 1 ++ c.encode pver))

/-- Modelled from the spec: the decoder of the transaction layout of section 6
into the receiver, with the contract of section 4.2: an error of the standard
fields or of the commitment is returned, a presence flag of zero gives a
transaction with no commitment, a flag other than zero or one is a malformed
commitment. -/
def TxWithCommit.BtcDecode {S : StdCodec} (msg : TxWithCommit S) (r : List Byte) (pver : Nat)
    (enc : MessageEncoding) : Option WireError × TxWithCommit S × List Byte :=
  match S.read msg.Std r pver enc with
  | (some err, std, r1) => (some err, { msg with Std := std }, r1)
  | (none, std, r1) =>
    let msg := { msg with Std := std }
    match readFull 1 r1 with
    | (_, some err, r2) => (some err, msg, r2)
    | (flag, none, r2) =>
      if uintLE flag = 0 then (none, { msg with PosCommitment := none }, r2)
      else if uintLE flag = 1 then
        match Commitmment.decode r2 pver with
        | (_, some err, r3) => (some err, msg, r3)
        | (c, none, r3) => (none, { msg with PosCommitment := c }, r3)
      else
        (some (messageError "MsgTx.BtcDecode" (.malformedCommitment (uintLE flag))), msg, r2)

/-- Modelled from the spec: the environment of the block and relay codecs whose
transactions follow the layout of section 6 over the standard fields S, with
the header of specEnv. -/
@[reducible] def layoutEnv (S : StdCodec) : Env where
  MsgTx := TxWithCommit S
  BlockHeader := SpecHeader
  blockHeaderLen := 80
  minTxPayload := 10
  zeroTx := ⟨S.zero, none⟩
  readBlockHeader := SpecHeader.read
  writeBlockHeader := fun _ bh => (none, bh.val)
  txBtcDecode := TxWithCommit.BtcDecode
  txDeserialize := fun msg r => TxWithCommit.BtcDecode msg r 0 .WitnessEncoding
  txBtcEncode := TxWithCommit.BtcEncode
  HasAttachedData := TxWithCommit.HasAttachedData
  txSerializeSize := fun tx => (TxWithCommit.BtcEncode tx 0 .WitnessEncoding).2.length
  txSerializeSizeStripped := fun tx => (TxWithCommit.BtcEncode tx 0 .BaseEncoding).2.length
  txMaxPayloadLength := fun _ _ => MaxBlockPayload

/-- The standard fields of a transaction without inputs and outputs: the
version and the lock time. -/
structure CoreFields where
  Version : Nat
  LockTime : Nat
  deriving DecidableEq, Repr

/-- The standard fields of the transactions of specEnv, as the bytes of
TestTxDataWireTooLargeData name them: Version(4 bytes) | VarInt(0) for the
number of inputs | VarInt(0) for the number of outputs | LockTime(4 bytes). A
stream that declares inputs or outputs is outside this codec and is refused. -/
def specCore : StdCodec where
  Fields := CoreFields
  zero := ⟨0, 0⟩
  read := fun msg r pver _ =>
    match readFull 4 r with
    | (_, some err, r1) => (some err, msg, r1)
    | (version, none, r1) =>
      let msg := { msg with Version := uintLE version }
      match ReadVarInt r1 pver with
      | (_, some err, r2) => (some err, msg, r2)
      | (inCount, none, r2) =>
        if inCount ≠ 0 then (some (.Other 1), msg, r2)
        else
          match ReadVarInt r2 pver with
          | (_, some err, r3) => (some err, msg, r3)
          | (outCount, none, r3) =>
            if outCount ≠ 0 then (some (.Other 2), msg, r3)
            else
              match readFull 4 r3 with
              | (_, some err, r4) => (some err, msg, r4)
              | (lockTime, none, r4) => (none, { msg with LockTime := uintLE lockTime }, r4)
  write := fun f pver _ =>
    (none, putUintLE 4 f.Version ++ WriteVarInt pver 0 ++ WriteVarInt pver 0
      ++ putUintLE 4 f.LockTime)

/-- The transaction of specEnv as a transaction over specCore. -/
def SpecTx.toLayout (tx : SpecTx) : TxWithCommit specCore :=
  ⟨⟨tx.Version, tx.LockTime⟩, tx.PosCommitment⟩


/-! ## Facts on readers and on the variable length integer -/

theorem uintLE_putUintLE (k v : Nat) : uintLE (putUintLE k v) = v % 256 ^ k := by
  induction k generalizing v with
  | zero => simp [putUintLE, uintLE, Nat.mod_one]
  | succ k ih =>
    simp only [putUintLE, uintLE, ih]
    rw [pow_succ', Nat.mod_mul]

theorem length_putUintLE (k v : Nat) : (putUintLE k v).length = k := by
  induction k generalizing v with
  | zero => rfl
  | succ k ih => simp [putUintLE, ih]

theorem readFull_append (bs rest : List Byte) :
    readFull bs.length (bs ++ rest) = (bs, none, rest) := by
  cases bs with
  | nil => simp [readFull]
  | cons b bs => simp [readFull]

theorem readFull_length {n : Nat} {r bs r1 : List Byte}
    (h : readFull n r = (bs, none, r1)) : bs.length = n := by
  cases n with
  | zero => simp [readFull] at h; simp [h.1.symm]
  | succ n =>
    cases r with
    | nil => simp [readFull] at h
    | cons b r =>
      simp only [readFull] at h
      split at h
      · rename_i hlen
        simp only [Prod.mk.injEq, true_and] at h
        rw [← h.1, List.length_cons, hlen]
      · simp at h

theorem length_WriteVarInt (pver v : Nat) :
    (WriteVarInt pver v).length = VarIntSerializeSize v := by
  unfold WriteVarInt VarIntSerializeSize
  split_ifs <;> simp [length_putUintLE]

theorem readFull_one (b : Byte) (rest : List Byte) :
    readFull 1 (b :: rest) = ([b], none, rest) := by
  simp [readFull]

theorem readFull_putUintLE (k v : Nat) (rest : List Byte) :
    readFull k (putUintLE k v ++ rest) = (putUintLE k v, none, rest) := by
  have h := readFull_append (putUintLE k v) rest
  rwa [length_putUintLE] at h

theorem ReadVarInt_WriteVarInt (pver pver1 v : Nat) (rest : List Byte) (hv : v < 2 ^ 64) :
    ReadVarInt (WriteVarInt pver v ++ rest) pver1 = (v, none, rest) := by
  unfold WriteVarInt
  split_ifs with h1 h2 h3
  · have hb : uintLE [(⟨v % 256, Nat.mod_lt v (by decide)⟩ : Byte)] = v := by
      simp only [uintLE]; omega
    simp only [putUintLE, List.cons_append, List.nil_append, ReadVarInt, readFull_one, hb]
    split_ifs <;> first | rfl | omega
  · have hu : uintLE (putUintLE 2 v) = v := by
      rw [uintLE_putUintLE]; exact Nat.mod_eq_of_lt (by omega)
    have hd : uintLE [(0xfd : Byte)] = 0xfd := by decide
    simp only [List.cons_append, ReadVarInt, readFull_one, hd, readFull_putUintLE, hu]
    split_ifs <;> first | rfl | omega
  · have hu : uintLE (putUintLE 4 v) = v := by
      rw [uintLE_putUintLE]; exact Nat.mod_eq_of_lt (by omega)
    have hd : uintLE [(0xfe : Byte)] = 0xfe := by decide
    simp only [List.cons_append, ReadVarInt, readFull_one, hd, readFull_putUintLE, hu]
    split_ifs <;> first | rfl | omega
  · have hu : uintLE (putUintLE 8 v) = v := by
      rw [uintLE_putUintLE]; exact Nat.mod_eq_of_lt (by omega)
    have hd : uintLE [(0xff : Byte)] = 0xff := by decide
    simp only [List.cons_append, ReadVarInt, readFull_one, hd, readFull_putUintLE, hu]
    split_ifs <;> first | rfl | omega

theorem ReadVarBytes_WriteVarBytes (pver pver1 maxAllowed : Nat) (fieldName : String)
    (d rest : List Byte) (hd : d.length ≤ maxAllowed) (hlen : d.length < 2 ^ 64) :
    ReadVarBytes (WriteVarBytes pver d ++ rest) pver1 maxAllowed fieldName = (d, none, rest) := by
  simp only [WriteVarBytes, List.append_assoc, ReadVarBytes,
    ReadVarInt_WriteVarInt pver pver1 d.length (d ++ rest) hlen, readFull_append]
  rw [if_neg (by omega)]

/-! ## Facts on the loops of the block codec -/

theorem encodeTxLoop_ok (W : Env) (pver : Nat) (enc : MessageEncoding) (txs : List W.MsgTx)
    (h : ∀ tx ∈ txs, (W.txBtcEncode tx pver enc).1 = none) :
    MsgBlock.encodeTxLoop W pver enc txs
      = (none, (txs.map (fun tx => (W.txBtcEncode tx pver enc).2)).flatten) := by
  induction txs with
  | nil => rfl
  | cons tx txs ih =>
    have h1 := h tx (List.mem_cons_self _ _)
    have h2 := ih (fun t ht => h t (List.mem_cons_of_mem _ ht))
    rcases hE : W.txBtcEncode tx pver enc with ⟨e, out⟩
    rw [hE] at h1
    simp only at h1
    subst h1
    simp only [MsgBlock.encodeTxLoop, hE, h2, List.map_cons, List.flatten_cons]

theorem writePosDataLoop_eq (pver : Nat) (ds : Data) :
    MsgBlock.writePosDataLoop pver ds
      = (ds.map (fun p => WriteVarInt pver p.length ++ p)).flatten := by
  induction ds with
  | nil => rfl
  | cons d ds ih =>
    simp only [MsgBlock.writePosDataLoop, ih, WriteVarBytes, List.map_cons, List.flatten_cons]

theorem decodeTxLoop_of_decodes (W : Env) (pver : Nat) (enc : MessageEncoding)
    (txs acc : List W.MsgTx) (num : Nat) (r r1 : List Byte)
    (h : DecodesTxs (fun s => W.txBtcDecode W.zeroTx s pver enc) r txs r1) :
    MsgBlock.decodeTxLoop W pver enc txs.length acc num r
      = (none, acc ++ txs, num + numWithData W txs, r1) := by
  induction txs generalizing acc num r with
  | nil =>
    simp only [DecodesTxs] at h
    simp [MsgBlock.decodeTxLoop, numWithData, h]
  | cons tx txs ih =>
    simp only [DecodesTxs] at h
    obtain ⟨h1, h2, h3⟩ := h
    rcases hD : W.txBtcDecode W.zeroTx r pver enc with ⟨e, t, s⟩
    rw [hD] at h1 h2 h3
    simp only at h1 h2 h3
    subst h1 h2
    simp only [List.length_cons, MsgBlock.decodeTxLoop, hD]
    rw [ih _ _ _ h3]
    by_cases hA : W.HasAttachedData t
    · simp [numWithData, hA, List.countP_cons]
      omega
    · simp [numWithData, hA, List.countP_cons]

theorem deserializeTxLoop_of_decodes (W : Env) (fullLen : Nat)
    (txs acc : List W.MsgTx) (i num : Nat) (locs : List TxLoc) (r r1 : List Byte)
    (h : DecodesTxs (fun s => W.txDeserialize W.zeroTx s) r txs r1) :
    ∃ locs1, MsgBlock.deserializeTxLoop W fullLen txs.length i acc locs num r
      = (none, acc ++ txs, locs1, num + numWithData W txs, r1) := by
  induction txs generalizing acc num r i locs with
  | nil =>
    simp only [DecodesTxs] at h
    exact ⟨locs, by simp [MsgBlock.deserializeTxLoop, numWithData, h]⟩
  | cons tx txs ih =>
    simp only [DecodesTxs] at h
    obtain ⟨h1, h2, h3⟩ := h
    rcases hD : W.txDeserialize W.zeroTx r with ⟨e, t, s⟩
    rw [hD] at h1 h2 h3
    simp only at h1 h2 h3
    subst h1 h2
    simp only [List.length_cons, MsgBlock.deserializeTxLoop, hD]
    obtain ⟨locs1, hl⟩ := ih (acc ++ [t]) (i + 1)
      (if W.HasAttachedData t then num + 1 else num) _ _ h3
    refine ⟨locs1, ?_⟩
    rw [hl]
    by_cases hA : W.HasAttachedData t
    · simp [numWithData, hA, List.countP_cons]
      omega
    · simp [numWithData, hA, List.countP_cons]

theorem decodesTxs_encoded (W : Env) (pver : Nat) (enc : MessageEncoding)
    (txs : List W.MsgTx) (rest : List Byte)
    (h : ∀ tx ∈ txs, (W.txBtcEncode tx pver enc).1 = none ∧
      ∀ s, W.txBtcDecode W.zeroTx ((W.txBtcEncode tx pver enc).2 ++ s) pver enc = (none, tx, s)) :
    DecodesTxs (fun s => W.txBtcDecode W.zeroTx s pver enc)
      ((txs.map (fun tx => (W.txBtcEncode tx pver enc).2)).flatten ++ rest) txs rest := by
  induction txs with
  | nil => simp [DecodesTxs]
  | cons tx txs ih =>
    have h1 := (h tx (List.mem_cons_self _ _)).2
    have h2 := ih (fun t ht => h t (List.mem_cons_of_mem _ ht))
    simp only [List.map_cons, List.flatten_cons, List.append_assoc, DecodesTxs, h1]
    exact ⟨trivial, trivial, h2⟩

theorem readPosDataLoop_written (pver pver1 : Nat) (ds acc : Data) (rest : List Byte)
    (h : ∀ p ∈ ds, p.length ≤ MaxPosDataSize) :
    MsgBlock.readPosDataLoop pver1 ds.length acc (MsgBlock.writePosDataLoop pver ds ++ rest)
      = (none, acc ++ ds, rest) := by
  induction ds generalizing acc with
  | nil => simp [MsgBlock.readPosDataLoop, MsgBlock.writePosDataLoop]
  | cons d ds ih =>
    have hd := h d (List.mem_cons_self _ _)
    have hlen : d.length < 2 ^ 64 := by
      have : MaxPosDataSize = 50000 := rfl
      omega
    have h2 := ih (acc ++ [d]) (fun t ht => h t (List.mem_cons_of_mem _ ht))
    simp only [List.length_cons, MsgBlock.readPosDataLoop, MsgBlock.writePosDataLoop,
      List.append_assoc,
      ReadVarBytes_WriteVarBytes pver pver1 MaxPosDataSize "block pos data" d _ hd hlen]
    simpa using h2

theorem ReadVarBytes_length {r r1 bs : List Byte} {pver maxAllowed : Nat} {fieldName : String}
    (h : ReadVarBytes r pver maxAllowed fieldName = (bs, none, r1)) :
    bs.length ≤ maxAllowed := by
  unfold ReadVarBytes at h
  rcases hV : ReadVarInt r pver with ⟨count, e, s⟩
  rw [hV] at h
  cases e with
  | some e => simp at h
  | none =>
    simp only at h
    split_ifs at h with hc
    · simp at h
    · rcases hF : readFull count s with ⟨b, e1, s1⟩
      rw [hF] at h
      cases e1 with
      | some e1 => simp at h
      | none =>
        simp only [Prod.mk.injEq, true_and] at h
        have := readFull_length hF
        rw [← h.1]
        omega

theorem decodeTxLoop_ok (W : Env) (pver : Nat) (enc : MessageEncoding) (n : Nat)
    (acc txs : List W.MsgTx) (num num1 : Nat) (r r1 : List Byte)
    (h : MsgBlock.decodeTxLoop W pver enc n acc num r = (none, txs, num1, r1)) :
    ∃ new, txs = acc ++ new ∧ new.length = n ∧ num1 = num + numWithData W new := by
  induction n generalizing acc num r with
  | zero =>
    simp only [MsgBlock.decodeTxLoop, Prod.mk.injEq, true_and] at h
    exact ⟨[], by simp [h.1], rfl, by simp [numWithData, h.2.1]⟩
  | succ n ih =>
    simp only [MsgBlock.decodeTxLoop] at h
    rcases hD : W.txBtcDecode W.zeroTx r pver enc with ⟨e, t, s⟩
    rw [hD] at h
    cases e with
    | some e => simp at h
    | none =>
      simp only at h
      obtain ⟨new, h1, h2, h3⟩ := ih _ _ _ h
      refine ⟨t :: new, by simp [h1], by simp [h2], ?_⟩
      rw [h3]
      by_cases hA : W.HasAttachedData t
      · simp [numWithData, hA, List.countP_cons]
        omega
      · simp [numWithData, hA, List.countP_cons]

theorem deserializeTxLoop_ok (W : Env) (fullLen n : Nat)
    (acc txs : List W.MsgTx) (i num num1 : Nat) (locs locs1 : List TxLoc) (r r1 : List Byte)
    (h : MsgBlock.deserializeTxLoop W fullLen n i acc locs num r = (none, txs, locs1, num1, r1)) :
    ∃ new, txs = acc ++ new ∧ new.length = n ∧ num1 = num + numWithData W new := by
  induction n generalizing acc num r i locs with
  | zero =>
    simp only [MsgBlock.deserializeTxLoop, Prod.mk.injEq, true_and] at h
    exact ⟨[], by simp [h.1], rfl, by simp [numWithData, h.2.2.1]⟩
  | succ n ih =>
    simp only [MsgBlock.deserializeTxLoop] at h
    rcases hD : W.txDeserialize W.zeroTx r with ⟨e, t, s⟩
    rw [hD] at h
    cases e with
    | some e => simp at h
    | none =>
      simp only at h
      obtain ⟨new, h1, h2, h3⟩ := ih _ _ _ _ _ h
      refine ⟨t :: new, by simp [h1], by simp [h2], ?_⟩
      rw [h3]
      by_cases hA : W.HasAttachedData t
      · simp [numWithData, hA, List.countP_cons]
        omega
      · simp [numWithData, hA, List.countP_cons]

theorem readPosDataLoop_ok (pver n : Nat) (acc ds : Data) (r r1 : List Byte)
    (h : MsgBlock.readPosDataLoop pver n acc r = (none, ds, r1)) :
    ∃ new, ds = acc ++ new ∧ new.length = n ∧ ∀ p ∈ new, p.length ≤ MaxPosDataSize := by
  induction n generalizing acc r with
  | zero =>
    simp only [MsgBlock.readPosDataLoop, Prod.mk.injEq, true_and] at h
    exact ⟨[], by simp [h.1], rfl, by simp⟩
  | succ n ih =>
    simp only [MsgBlock.readPosDataLoop] at h
    rcases hD : ReadVarBytes r pver MaxPosDataSize "block pos data" with ⟨d, e, s⟩
    rw [hD] at h
    cases e with
    | some e => simp at h
    | none =>
      simp only at h
      obtain ⟨new, h1, h2, h3⟩ := ih _ _ h
      refine ⟨d :: new, by simp [h1], by simp [h2], ?_⟩
      intro p hp
      rcases List.mem_cons.mp hp with hp | hp
      · rw [hp]; exact ReadVarBytes_length hD
      · exact h3 p hp

theorem maxTxPerBlock_lt (W : Env) : maxTxPerBlock W < 2 ^ 64 := by
  have h : MaxBlockPayload / W.minTxPayload ≤ MaxBlockPayload := Nat.div_le_self _ _
  have h1 : MaxBlockPayload = 4000000 := rfl
  unfold maxTxPerBlock
  omega

theorem foldl_add_eq_sum {α : Type} (f : α → Nat) (l : List α) (init : Nat) :
    l.foldl (fun n x => n + f x) init = init + (l.map f).sum := by
  induction l generalizing init with
  | nil => simp
  | cons x l ih => simp [ih]; omega

theorem Data_SerializeSize_eq (t : Data) :
    Data.SerializeSize t
      = VarIntSerializeSize t.length
        + (t.map (fun p => VarIntSerializeSize p.length + p.length)).sum := by
  unfold Data.SerializeSize
  have h := foldl_add_eq_sum (fun p : List Byte => VarIntSerializeSize p.length + p.length) t
    (VarIntSerializeSize t.length)
  simpa [Nat.add_assoc] using h

theorem BtcEncode_eq (W : Env) (b : MsgBlock W) (pver : Nat) (enc : MessageEncoding)
    (hH : (W.writeBlockHeader pver b.Header).1 = none)
    (hT : ∀ tx ∈ b.Transactions, (W.txBtcEncode tx pver enc).1 = none) :
    b.BtcEncode pver enc
      = (none, (W.writeBlockHeader pver b.Header).2 ++ WriteVarInt pver b.Transactions.length
          ++ (b.Transactions.map (fun tx => (W.txBtcEncode tx pver enc).2)).flatten
          ++ WriteVarInt pver b.PosData.length
          ++ (b.PosData.map (fun p => WriteVarInt pver p.length ++ p)).flatten) := by
  rcases hE : W.writeBlockHeader pver b.Header with ⟨e, out⟩
  rw [hE] at hH
  simp only at hH
  subst hH
  simp only [MsgBlock.BtcEncode, hE, encodeTxLoop_ok W pver enc b.Transactions hT,
    writePosDataLoop_eq, List.append_assoc]

theorem BtcDecode_after_txs (W : Env) (msg : MsgBlock W) (r r1 r2 r3 : List Byte)
    (pver : Nat) (enc : MessageEncoding) (h : W.BlockHeader) (txs : List W.MsgTx)
    (hH : W.readBlockHeader r pver msg.Header = (none, h, r1))
    (hN : ReadVarInt r1 pver = (txs.length, none, r2))
    (hmax : txs.length ≤ maxTxPerBlock W)
    (hT : DecodesTxs (fun s => W.txBtcDecode W.zeroTx s pver enc) r2 txs r3) :
    msg.BtcDecode r pver enc =
      match ReadVarInt r3 pver with
      | (_, some err, r4) => ⟨some err, ⟨h, txs, msg.PosData⟩, r4⟩
      | (dataCount, none, r4) =>
        if dataCount ≠ numWithData W txs then
          ⟨some (messageError "MsgBlock.BtcDecode"
            (.dataCountMismatch dataCount (numWithData W txs))), ⟨h, txs, msg.PosData⟩, r4⟩
        else
          match MsgBlock.readPosDataLoop pver dataCount [] r4 with
          | (some err, posData, r5) => ⟨some err, ⟨h, txs, posData⟩, r5⟩
          | (none, posData, r5) => ⟨none, ⟨h, txs, posData⟩, r5⟩ := by
  have h3 := decodeTxLoop_of_decodes W pver enc txs [] 0 r2 r3 hT
  rw [Nat.zero_add, List.nil_append] at h3
  simp only [MsgBlock.BtcDecode, hH, hN, if_neg (Nat.not_lt.mpr hmax), h3]

theorem DeserializeTxLoc_after_txs (W : Env) (msg : MsgBlock W) (r r1 r2 r3 : List Byte)
    (h : W.BlockHeader) (txs : List W.MsgTx)
    (hH : W.readBlockHeader r 0 msg.Header = (none, h, r1))
    (hN : ReadVarInt r1 0 = (txs.length, none, r2))
    (hmax : txs.length ≤ maxTxPerBlock W)
    (hT : DecodesTxs (fun s => W.txDeserialize W.zeroTx s) r2 txs r3) :
    ∃ txLocs, msg.DeserializeTxLoc r =
      match ReadVarInt r3 0 with
      | (_, some err, r4) => ⟨[], some err, ⟨h, txs, msg.PosData⟩, r4⟩
      | (dataCount, none, r4) =>
        if dataCount ≠ numWithData W txs then
          ⟨[], some (messageError "MsgBlock.BtcDecode"
            (.dataCountMismatch dataCount (numWithData W txs))), ⟨h, txs, msg.PosData⟩, r4⟩
        else
          match MsgBlock.readPosDataLoop 0 dataCount [] r4 with
          | (some err, posData, r5) => ⟨[], some err, ⟨h, txs, posData⟩, r5⟩
          | (none, posData, r5) => ⟨txLocs, none, ⟨h, txs, posData⟩, r5⟩ := by
  obtain ⟨locs1, h3⟩ := deserializeTxLoop_of_decodes W r.length txs [] 0 0
    (List.replicate txs.length ⟨0, 0⟩) r2 r3 hT
  rw [Nat.zero_add, List.nil_append] at h3
  refine ⟨locs1, ?_⟩
  simp only [MsgBlock.DeserializeTxLoc, hH, hN, if_neg (Nat.not_lt.mpr hmax), h3]

theorem BtcDecode_accepts (W : Env) (msg : MsgBlock W) (r r1 r2 r3 rest : List Byte)
    (pver pver1 : Nat) (enc : MessageEncoding) (h : W.BlockHeader) (txs : List W.MsgTx)
    (ps : Data)
    (hH : W.readBlockHeader r pver msg.Header = (none, h, r1))
    (hN : ReadVarInt r1 pver = (txs.length, none, r2))
    (hmax : txs.length ≤ maxTxPerBlock W)
    (hT : DecodesTxs (fun s => W.txBtcDecode W.zeroTx s pver enc) r2 txs r3)
    (hC : ReadVarInt r3 pver = (ps.length, none, MsgBlock.writePosDataLoop pver1 ps ++ rest))
    (hK : ps.length = numWithData W txs)
    (hP : ∀ p ∈ ps, p.length ≤ MaxPosDataSize) :
    msg.BtcDecode r pver enc = ⟨none, ⟨h, txs, ps⟩, rest⟩ := by
  have h5 := readPosDataLoop_written pver1 pver ps [] rest hP
  rw [List.nil_append] at h5
  rw [BtcDecode_after_txs W msg r r1 r2 r3 pver enc h txs hH hN hmax hT]
  simp only [hC, ← hK, ne_eq, not_true_eq_false, if_false, h5]

theorem readPosDataLoop_oversized (pver pver1 k n : Nat) (ps acc : Data) (s s1 : List Byte)
    (hP : ∀ p ∈ ps, p.length ≤ MaxPosDataSize)
    (hn : ReadVarInt s pver = (n, none, s1)) (hbig : n > MaxPosDataSize) :
    MsgBlock.readPosDataLoop pver (ps.length + (k + 1)) acc
        (MsgBlock.writePosDataLoop pver1 ps ++ s)
      = (some (messageError "ReadVarBytes" (.tooLarge "block pos data" n MaxPosDataSize)),
          acc ++ ps, s1) := by
  induction ps generalizing acc with
  | nil =>
    simp only [List.length_nil, Nat.zero_add, MsgBlock.readPosDataLoop,
      MsgBlock.writePosDataLoop, List.nil_append, ReadVarBytes, hn, if_pos hbig,
      List.append_nil]
  | cons d ds ih =>
    have hd := hP d (List.mem_cons_self _ _)
    have hlen : d.length < 2 ^ 64 := by
      have : MaxPosDataSize = 50000 := rfl
      omega
    have h2 := ih (acc ++ [d]) (fun t ht => hP t (List.mem_cons_of_mem _ ht))
    have e : (d :: ds).length + (k + 1) = (ds.length + (k + 1)) + 1 := by
      simp only [List.length_cons]; omega
    rw [e, MsgBlock.readPosDataLoop]
    simp only [MsgBlock.writePosDataLoop, List.append_assoc,
      ReadVarBytes_WriteVarBytes pver1 pver MaxPosDataSize "block pos data" d _ hd hlen]
    simpa using h2

theorem BtcDecode_ok (W : Env) (msg : MsgBlock W) (r : List Byte) (pver : Nat)
    (enc : MessageEncoding) (hok : (msg.BtcDecode r pver enc).err = none) :
    ∃ h r1 n r2 txs num r3 r4 ds r5,
      W.readBlockHeader r pver msg.Header = (none, h, r1) ∧
      ReadVarInt r1 pver = (n, none, r2) ∧ n ≤ maxTxPerBlock W ∧
      MsgBlock.decodeTxLoop W pver enc n [] 0 r2 = (none, txs, num, r3) ∧
      ReadVarInt r3 pver = (num, none, r4) ∧
      MsgBlock.readPosDataLoop pver num [] r4 = (none, ds, r5) ∧
      msg.BtcDecode r pver enc = ⟨none, ⟨h, txs, ds⟩, r5⟩ := by
  rcases hH : W.readBlockHeader r pver msg.Header with ⟨e, h, r1⟩
  cases e with
  | some e => simp [MsgBlock.BtcDecode, hH] at hok
  | none =>
    rcases hN : ReadVarInt r1 pver with ⟨n, e, r2⟩
    cases e with
    | some e => simp [MsgBlock.BtcDecode, hH, hN] at hok
    | none =>
      by_cases hmax : n > maxTxPerBlock W
      · simp [MsgBlock.BtcDecode, hH, hN, hmax] at hok
      · rcases hL : MsgBlock.decodeTxLoop W pver enc n [] 0 r2 with ⟨e, txs, num, r3⟩
        cases e with
        | some e => simp [MsgBlock.BtcDecode, hH, hN, hmax, hL] at hok
        | none =>
          rcases hC : ReadVarInt r3 pver with ⟨c, e, r4⟩
          cases e with
          | some e => simp [MsgBlock.BtcDecode, hH, hN, hmax, hL, hC] at hok
          | none =>
            by_cases hne : c ≠ num
            · simp [MsgBlock.BtcDecode, hH, hN, hmax, hL, hC, hne] at hok
            · have hc : c = num := not_not.mp hne
              subst hc
              rcases hD : MsgBlock.readPosDataLoop pver c [] r4 with ⟨e, ds, r5⟩
              cases e with
              | some e => simp [MsgBlock.BtcDecode, hH, hN, hmax, hL, hC, hD] at hok
              | none =>
                refine ⟨h, r1, n, r2, txs, c, r3, r4, ds, r5, rfl, hN, Nat.not_lt.mp hmax,
                  hL, hC, hD, ?_⟩
                simp [MsgBlock.BtcDecode, hH, hN, hmax, hL, hC, hD]

theorem DeserializeTxLoc_ok (W : Env) (msg : MsgBlock W) (r : List Byte)
    (hok : (msg.DeserializeTxLoc r).err = none) :
    ∃ h r1 n r2 txs locs num r3 r4 ds r5,
      W.readBlockHeader r 0 msg.Header = (none, h, r1) ∧
      ReadVarInt r1 0 = (n, none, r2) ∧ n ≤ maxTxPerBlock W ∧
      MsgBlock.deserializeTxLoop W r.length n 0 [] (List.replicate n ⟨0, 0⟩) 0 r2
        = (none, txs, locs, num, r3) ∧
      ReadVarInt r3 0 = (num, none, r4) ∧
      MsgBlock.readPosDataLoop 0 num [] r4 = (none, ds, r5) ∧
      msg.DeserializeTxLoc r = ⟨locs, none, ⟨h, txs, ds⟩, r5⟩ := by
  rcases hH : W.readBlockHeader r 0 msg.Header with ⟨e, h, r1⟩
  cases e with
  | some e => simp [MsgBlock.DeserializeTxLoc, hH] at hok
  | none =>
    rcases hN : ReadVarInt r1 0 with ⟨n, e, r2⟩
    cases e with
    | some e => simp [MsgBlock.DeserializeTxLoc, hH, hN] at hok
    | none =>
      by_cases hmax : n > maxTxPerBlock W
      · simp [MsgBlock.DeserializeTxLoc, hH, hN, hmax] at hok
      · rcases hL : MsgBlock.deserializeTxLoop W r.length n 0 [] (List.replicate n ⟨0, 0⟩) 0 r2
          with ⟨e, txs, locs, num, r3⟩
        cases e with
        | some e => simp [MsgBlock.DeserializeTxLoc, hH, hN, hmax, hL] at hok
        | none =>
          rcases hC : ReadVarInt r3 0 with ⟨c, e, r4⟩
          cases e with
          | some e => simp [MsgBlock.DeserializeTxLoc, hH, hN, hmax, hL, hC] at hok
          | none =>
            by_cases hne : c ≠ num
            · simp [MsgBlock.DeserializeTxLoc, hH, hN, hmax, hL, hC, hne] at hok
            · have hc : c = num := not_not.mp hne
              subst hc
              rcases hD : MsgBlock.readPosDataLoop 0 c [] r4 with ⟨e, ds, r5⟩
              cases e with
              | some e => simp [MsgBlock.DeserializeTxLoc, hH, hN, hmax, hL, hC, hD] at hok
              | none =>
                refine ⟨h, r1, n, r2, txs, locs, c, r3, r4, ds, r5, rfl, hN,
                  Nat.not_lt.mp hmax, hL, hC, hD, ?_⟩
                simp [MsgBlock.DeserializeTxLoc, hH, hN, hmax, hL, hC, hD]

/-! ## The block message -/

/-- Claim C9: block wire layout. For every block whose header and transactions
encode without error, BtcEncode returns nil and the bytes it writes are exactly
the header encoding, then VarInt(len(Transactions)), then the encodings of the
transactions in list order, then VarInt(len(PosData)), then, in list order,
VarInt(len(p)) followed by p for each payload p. -/
theorem block_wire_layout (W : Env) (b : MsgBlock W) (pver : Nat) (enc : MessageEncoding)
    (hH : (W.writeBlockHeader pver b.Header).1 = none)
    (hT : ∀ tx ∈ b.Transactions, (W.txBtcEncode tx pver enc).1 = none) :
    b.BtcEncode pver enc
      = (none, (W.writeBlockHeader pver b.Header).2 ++ WriteVarInt pver b.Transactions.length
          ++ (b.Transactions.map (fun tx => (W.txBtcEncode tx pver enc).2)).flatten
          ++ WriteVarInt pver b.PosData.length
          ++ (b.PosData.map (fun p => WriteVarInt pver p.length ++ p)).flatten) :=
  BtcEncode_eq W b pver enc hH hT

/-- The witness of C9: the block of the end-to-end scenario. -/
theorem block_wire_layout_witness :
    helloBlock.BtcEncode 0 .WitnessEncoding
      = (none, headerH.val ++ [0x03]
          ++ ((SpecTx.BtcEncode noTx 0 .WitnessEncoding).2
            ++ (SpecTx.BtcEncode plainTx 0 .WitnessEncoding).2
            ++ (SpecTx.BtcEncode helloTx 0 .WitnessEncoding).2)
          ++ [0x01] ++ ([0x05] ++ helloData)) :=
  (block_wire_layout specEnv helloBlock 0 .WitnessEncoding (by decide) (by decide)).trans rfl

/-- Claim C8: SerializeSize is exact. For every block whose header encodes
without error to blockHeaderLen bytes and whose transactions each encode
without error to SerializeSize() bytes under the witness encoding, Serialize
returns nil, the number of bytes it writes is b.SerializeSize(), and that
number is blockHeaderLen + VarIntSerializeSize(len(Transactions)) + the sum of
the transaction sizes + VarIntSerializeSize(len(PosData)) + the sum over the
payloads p of VarIntSerializeSize(len(p)) + len(p). -/
theorem serialize_size_exact (W : Env) (b : MsgBlock W)
    (hH : (W.writeBlockHeader 0 b.Header).1 = none
      ∧ (W.writeBlockHeader 0 b.Header).2.length = W.blockHeaderLen)
    (hT : ∀ tx ∈ b.Transactions, (W.txBtcEncode tx 0 .WitnessEncoding).1 = none
      ∧ (W.txBtcEncode tx 0 .WitnessEncoding).2.length = W.txSerializeSize tx) :
    b.Serialize.1 = none ∧ b.Serialize.2.length = b.SerializeSize ∧
    b.SerializeSize
      = W.blockHeaderLen + VarIntSerializeSize b.Transactions.length
        + (b.Transactions.map W.txSerializeSize).sum
        + VarIntSerializeSize b.PosData.length
        + (b.PosData.map (fun p => VarIntSerializeSize p.length + p.length)).sum := by
  have hsize : b.SerializeSize
      = W.blockHeaderLen + VarIntSerializeSize b.Transactions.length
        + (b.Transactions.map W.txSerializeSize).sum
        + VarIntSerializeSize b.PosData.length
        + (b.PosData.map (fun p => VarIntSerializeSize p.length + p.length)).sum := by
    unfold MsgBlock.SerializeSize
    rw [foldl_add_eq_sum, Data_SerializeSize_eq]
    omega
  have hE := BtcEncode_eq W b 0 .WitnessEncoding hH.1 (fun tx ht => (hT tx ht).1)
  have hmap : (b.Transactions.map
      (fun tx => (W.txBtcEncode tx 0 .WitnessEncoding).2.length))
      = b.Transactions.map W.txSerializeSize :=
    List.map_congr_left (fun tx ht => (hT tx ht).2)
  refine ⟨?_, ?_, hsize⟩
  · simp only [MsgBlock.Serialize, hE]
  · rw [hsize]
    simp only [MsgBlock.Serialize, hE, List.length_append, List.length_flatten, List.map_map,
      length_WriteVarInt, hH.2]
    have h1 : (List.length ∘ fun tx => (W.txBtcEncode tx 0 .WitnessEncoding).2)
        = (fun tx => (W.txBtcEncode tx 0 .WitnessEncoding).2.length) := rfl
    have h2 : (List.length ∘ fun p : List Byte => WriteVarInt 0 p.length ++ p)
        = (fun p => VarIntSerializeSize p.length + p.length) := by
      funext p
      simp [length_WriteVarInt]
    rw [h1, h2, hmap]

/-- The witness of C8: the block of the end-to-end scenario takes 198 bytes. -/
theorem serialize_size_exact_witness :
    helloBlock.Serialize.1 = none ∧ helloBlock.Serialize.2.length = helloBlock.SerializeSize ∧
    helloBlock.SerializeSize = 80 + 1 + (11 + 11 + 88) + 1 + (1 + 5) :=
  have h := serialize_size_exact specEnv helloBlock (by decide) (by decide)
  ⟨h.1, h.2.1, by decide⟩

/-- Claim C2: block round trip. For every block b with at most maxTxPerBlock
transactions, whose header and transactions each encode without error and are
read back by their codec from a stream that starts with their encoding, with
len(b.PosData) equal to the number of transactions for which HasAttachedData()
is true, and with every payload at most 50000 bytes, BtcEncode succeeds and
BtcDecode applied to the bytes it wrote succeeds, consumes them all, and leaves
the identical header, the identical transactions in the same order and a
PosData list equal to b.PosData. -/
theorem block_round_trip (W : Env) (recv b : MsgBlock W) (pver : Nat) (enc : MessageEncoding)
    (hN : b.Transactions.length ≤ maxTxPerBlock W)
    (hH1 : (W.writeBlockHeader pver b.Header).1 = none)
    (hH2 : ∀ s, W.readBlockHeader ((W.writeBlockHeader pver b.Header).2 ++ s) pver recv.Header
      = (none, b.Header, s))
    (hT : ∀ tx ∈ b.Transactions, (W.txBtcEncode tx pver enc).1 = none ∧
      ∀ s, W.txBtcDecode W.zeroTx ((W.txBtcEncode tx pver enc).2 ++ s) pver enc = (none, tx, s))
    (hK : b.PosData.length = numWithData W b.Transactions)
    (hP : ∀ p ∈ b.PosData, p.length ≤ MaxPosDataSize) :
    (b.BtcEncode pver enc).1 = none ∧
    recv.BtcDecode (b.BtcEncode pver enc).2 pver enc = ⟨none, b, []⟩ := by
  have hE := BtcEncode_eq W b pver enc hH1 (fun tx ht => (hT tx ht).1)
  have hmax := maxTxPerBlock_lt W
  have hcount : numWithData W b.Transactions ≤ b.Transactions.length := List.countP_le_length _
  have hS : (b.BtcEncode pver enc).2
      = (W.writeBlockHeader pver b.Header).2 ++ (WriteVarInt pver b.Transactions.length
          ++ ((b.Transactions.map (fun tx => (W.txBtcEncode tx pver enc).2)).flatten
          ++ (WriteVarInt pver b.PosData.length
          ++ (MsgBlock.writePosDataLoop pver b.PosData ++ [])))) := by
    rw [hE]
    simp only [writePosDataLoop_eq, List.append_assoc, List.append_nil]
  have h3 := decodeTxLoop_of_decodes W pver enc b.Transactions [] 0 _ _
    (decodesTxs_encoded W pver enc b.Transactions
      (WriteVarInt pver b.PosData.length ++ (MsgBlock.writePosDataLoop pver b.PosData ++ [])) hT)
  rw [Nat.zero_add, ← hK, List.nil_append] at h3
  have h5 := readPosDataLoop_written pver pver b.PosData [] [] hP
  rw [List.nil_append] at h5
  refine ⟨by rw [hE], ?_⟩
  rw [hS]
  simp only [MsgBlock.BtcDecode, hH2,
    ReadVarInt_WriteVarInt pver pver b.Transactions.length _ (by omega),
    if_neg (Nat.not_lt.mpr hN), h3,
    ReadVarInt_WriteVarInt pver pver b.PosData.length _ (by omega),
    ne_eq, not_true_eq_false, if_false, h5]

/-- The witness of C2: the end-to-end scenario, header H, two plain
transactions, one level-1 transaction over "hello", PosData = ["hello"]. -/
theorem block_round_trip_witness :
    (helloBlock.BtcEncode 0 .WitnessEncoding).1 = none ∧
    MsgBlock.BtcDecode (NewMsgBlock specEnv ⟨List.replicate 80 0, by decide⟩)
      (helloBlock.BtcEncode 0 .WitnessEncoding).2 0 .WitnessEncoding
      = ⟨none, helloBlock, []⟩ :=
  block_round_trip specEnv (NewMsgBlock specEnv ⟨List.replicate 80 0, by decide⟩) helloBlock
    0 .WitnessEncoding (by decide) (by decide) (fun _ => rfl)
    (fun tx ht => by
      have h : tx = noTx ∨ tx = plainTx ∨ tx = helloTx := by
        simpa [helloBlock] using ht
      rcases h with h | h | h <;> subst h <;> exact ⟨rfl, fun _ => rfl⟩)
    (by decide) (by decide)

/-- Claim C3: count-mismatch rejection. For every stream whose header and
N ≤ maxTxPerBlock transactions decode, exactly K of them with
HasAttachedData() true, and whose payload count declares a value other than K,
BtcDecode returns the MessageError of the count check, whatever follows the
count: the reader is left right after the count, so no payload byte is read,
and PosData is not assigned. The same holds for DeserializeTxLoc, which
returns no locations. -/
theorem count_mismatch_rejected (W : Env) (msg : MsgBlock W) (r r1 r2 r3 r4 : List Byte)
    (pver : Nat) (enc : MessageEncoding) (h : W.BlockHeader) (txs : List W.MsgTx)
    (dataCount : Nat)
    (hH : W.readBlockHeader r pver msg.Header = (none, h, r1))
    (hN : ReadVarInt r1 pver = (txs.length, none, r2))
    (hmax : txs.length ≤ maxTxPerBlock W)
    (hC : ReadVarInt r3 pver = (dataCount, none, r4))
    (hne : dataCount ≠ numWithData W txs) :
    (DecodesTxs (fun s => W.txBtcDecode W.zeroTx s pver enc) r2 txs r3 →
      msg.BtcDecode r pver enc
        = ⟨some (messageError "MsgBlock.BtcDecode"
            (.dataCountMismatch dataCount (numWithData W txs))),
            ⟨h, txs, msg.PosData⟩, r4⟩) ∧
    (pver = 0 → DecodesTxs (fun s => W.txDeserialize W.zeroTx s) r2 txs r3 →
      msg.DeserializeTxLoc r
        = ⟨[], some (messageError "MsgBlock.BtcDecode"
            (.dataCountMismatch dataCount (numWithData W txs))),
            ⟨h, txs, msg.PosData⟩, r4⟩) := by
  constructor
  · intro hT
    rw [BtcDecode_after_txs W msg r r1 r2 r3 pver enc h txs hH hN hmax hT]
    simp only [hC, if_pos hne]
  · intro hp hT
    subst hp
    obtain ⟨locs, hL⟩ := DeserializeTxLoc_after_txs W msg r r1 r2 r3 h txs hH hN hmax hT
    rw [hL]
    simp only [hC, if_pos hne]

/-- The witness of C3: the end-to-end block with a payload count of 2 for one
transaction with a commitment. -/
theorem count_mismatch_rejected_witness :
    emptyBlock.BtcDecode badCountStream 0 .WitnessEncoding
      = ⟨some (messageError "MsgBlock.BtcDecode" (.dataCountMismatch 2 1)),
          ⟨headerH, [noTx, plainTx, helloTx], []⟩, [0x05] ++ helloData⟩ ∧
    emptyBlock.DeserializeTxLoc badCountStream
      = ⟨[], some (messageError "MsgBlock.BtcDecode" (.dataCountMismatch 2 1)),
          ⟨headerH, [noTx, plainTx, helloTx], []⟩, [0x05] ++ helloData⟩ :=
  have h := count_mismatch_rejected specEnv emptyBlock badCountStream
    ([0x03] ++ helloTxBytes ++ [0x02] ++ ([0x05] ++ helloData))
    (helloTxBytes ++ [0x02] ++ ([0x05] ++ helloData))
    ([0x02] ++ ([0x05] ++ helloData)) ([0x05] ++ helloData)
    0 .WitnessEncoding headerH [noTx, plainTx, helloTx] 2
    (by decide) (by decide) (by decide) (by decide) (by decide)
  ⟨h.1 (by decide), h.2 rfl (by decide)⟩

/-- Claim C4: decoded blocks satisfy the count invariant. Whenever BtcDecode,
Deserialize or DeserializeTxLoc returns without error, len(msg.PosData) is the
number of elements of msg.Transactions for which HasAttachedData() is true, and
len(msg.Transactions) is the transaction count declared after the header. -/
theorem decoded_count_invariant (W : Env) (msg : MsgBlock W) (r : List Byte) (pver : Nat)
    (enc : MessageEncoding) :
    ((msg.BtcDecode r pver enc).err = none →
      (msg.BtcDecode r pver enc).msg.PosData.length
        = numWithData W (msg.BtcDecode r pver enc).msg.Transactions ∧
      (msg.BtcDecode r pver enc).msg.Transactions.length
        = (ReadVarInt (W.readBlockHeader r pver msg.Header).2.2 pver).1) ∧
    ((msg.Deserialize r).err = none →
      (msg.Deserialize r).msg.PosData.length
        = numWithData W (msg.Deserialize r).msg.Transactions ∧
      (msg.Deserialize r).msg.Transactions.length
        = (ReadVarInt (W.readBlockHeader r 0 msg.Header).2.2 0).1) ∧
    ((msg.DeserializeTxLoc r).err = none →
      (msg.DeserializeTxLoc r).msg.PosData.length
        = numWithData W (msg.DeserializeTxLoc r).msg.Transactions ∧
      (msg.DeserializeTxLoc r).msg.Transactions.length
        = (ReadVarInt (W.readBlockHeader r 0 msg.Header).2.2 0).1) := by
  have key : ∀ pver enc, (msg.BtcDecode r pver enc).err = none →
      (msg.BtcDecode r pver enc).msg.PosData.length
        = numWithData W (msg.BtcDecode r pver enc).msg.Transactions ∧
      (msg.BtcDecode r pver enc).msg.Transactions.length
        = (ReadVarInt (W.readBlockHeader r pver msg.Header).2.2 pver).1 := by
    intro pver enc hok
    obtain ⟨h, r1, n, r2, txs, num, r3, r4, ds, r5, hH, hN, _, hL, _, hD, hR⟩ :=
      BtcDecode_ok W msg r pver enc hok
    obtain ⟨new, h1, h2, h3⟩ := decodeTxLoop_ok W pver enc n [] txs 0 num r2 r3 hL
    obtain ⟨newd, d1, d2, _⟩ := readPosDataLoop_ok pver num [] ds r4 r5 hD
    rw [List.nil_append] at h1 d1
    subst h1 d1
    rw [hR, hH, hN]
    simp only
    omega
  refine ⟨key pver enc, key 0 .WitnessEncoding, ?_⟩
  intro hok
  obtain ⟨h, r1, n, r2, txs, locs, num, r3, r4, ds, r5, hH, hN, _, hL, _, hD, hR⟩ :=
    DeserializeTxLoc_ok W msg r hok
  obtain ⟨new, h1, h2, h3⟩ := deserializeTxLoop_ok W r.length n [] txs 0 0 num _ locs r2 r3 hL
  obtain ⟨newd, d1, d2, _⟩ := readPosDataLoop_ok 0 num [] ds r4 r5 hD
  rw [List.nil_append] at h1 d1
  subst h1 d1
  rw [hR, hH, hN]
  simp only
  omega

/-- The witness of C4: the stream of the end-to-end block decodes to three
transactions, one of them with a commitment, and one payload. -/
theorem decoded_count_invariant_witness :
    (emptyBlock.BtcDecode (helloBlock.BtcEncode 0 .WitnessEncoding).2 0 .WitnessEncoding).err
      = none ∧
    (emptyBlock.BtcDecode (helloBlock.BtcEncode 0 .WitnessEncoding).2 0
      .WitnessEncoding).msg.PosData.length = 1 ∧
    numWithData specEnv (emptyBlock.BtcDecode (helloBlock.BtcEncode 0 .WitnessEncoding).2 0
      .WitnessEncoding).msg.Transactions = 1 ∧
    (emptyBlock.BtcDecode (helloBlock.BtcEncode 0 .WitnessEncoding).2 0
      .WitnessEncoding).msg.Transactions.length = 3 :=
  have h := (decoded_count_invariant specEnv emptyBlock
    (helloBlock.BtcEncode 0 .WitnessEncoding).2 0 .WitnessEncoding).1 (by decide)
  ⟨by decide, by decide, h.1 ▸ (by decide), h.2.trans (by decide)⟩

/-- Claim C6: block per-payload size bound. On a stream whose header,
transaction count and transactions decode: if the payload count is right and,
after payloads of at most 50000 bytes, a payload declares a length n > 50000,
BtcDecode fails with the MessageError of ReadVarBytes; if every payload has at
most 50000 bytes, a payload of exactly 50000 bytes included, BtcDecode
succeeds; and after every successful BtcDecode each element of PosData has at
most MaxPosDataSize = 50000 bytes. -/
theorem block_payload_bound (W : Env) (msg : MsgBlock W) (r r1 r2 r3 : List Byte)
    (pver : Nat) (enc : MessageEncoding) (h : W.BlockHeader) (txs : List W.MsgTx)
    (hH : W.readBlockHeader r pver msg.Header = (none, h, r1))
    (hN : ReadVarInt r1 pver = (txs.length, none, r2))
    (hmax : txs.length ≤ maxTxPerBlock W)
    (hT : DecodesTxs (fun s => W.txBtcDecode W.zeroTx s pver enc) r2 txs r3) :
    (∀ (ps : Data) (s s1 : List Byte) (n pver1 : Nat),
      ReadVarInt r3 pver = (numWithData W txs, none, MsgBlock.writePosDataLoop pver1 ps ++ s) →
      ps.length < numWithData W txs →
      (∀ p ∈ ps, p.length ≤ MaxPosDataSize) →
      ReadVarInt s pver = (n, none, s1) → n > MaxPosDataSize →
      msg.BtcDecode r pver enc
        = ⟨some (messageError "ReadVarBytes" (.tooLarge "block pos data" n MaxPosDataSize)),
            ⟨h, txs, ps⟩, s1⟩) ∧
    (∀ (ps : Data) (rest : List Byte) (pver1 : Nat),
      ReadVarInt r3 pver = (ps.length, none, MsgBlock.writePosDataLoop pver1 ps ++ rest) →
      ps.length = numWithData W txs →
      (∀ p ∈ ps, p.length ≤ MaxPosDataSize) →
      msg.BtcDecode r pver enc = ⟨none, ⟨h, txs, ps⟩, rest⟩) ∧
    (∀ (recv : MsgBlock W) (s : List Byte) (pver1 : Nat) (enc1 : MessageEncoding),
      (recv.BtcDecode s pver1 enc1).err = none →
      ∀ p ∈ (recv.BtcDecode s pver1 enc1).msg.PosData, p.length ≤ MaxPosDataSize) := by
  refine ⟨?_, ?_, ?_⟩
  · intro ps s s1 n pver1 hC hlt hP hn hbig
    obtain ⟨k, hk⟩ : ∃ k, numWithData W txs = ps.length + (k + 1) :=
      ⟨numWithData W txs - ps.length - 1, by omega⟩
    have h5 := readPosDataLoop_oversized pver pver1 k n ps [] s s1 hP hn hbig
    rw [List.nil_append, ← hk] at h5
    rw [BtcDecode_after_txs W msg r r1 r2 r3 pver enc h txs hH hN hmax hT]
    simp only [hC, ne_eq, not_true_eq_false, if_false, h5]
  · intro ps rest pver1 hC hK hP
    exact BtcDecode_accepts W msg r r1 r2 r3 rest pver pver1 enc h txs ps hH hN hmax hT hC hK hP
  · intro recv s pver1 enc1 hok p hp
    obtain ⟨h0, s1, n, s2, txs0, num, s3, s4, ds, s5, _, _, _, _, _, hD, hR⟩ :=
      BtcDecode_ok W recv s pver1 enc1 hok
    obtain ⟨newd, d1, _, d3⟩ := readPosDataLoop_ok pver1 num [] ds s4 s5 hD
    rw [List.nil_append] at d1
    subst d1
    rw [hR] at hp
    exact d3 p hp

/-- The witness of C6: the end-to-end block with the payload prefix fd 51 c3 is
rejected, and a block with a payload of exactly 50000 bytes decodes. -/
theorem block_payload_bound_witness :
    emptyBlock.BtcDecode bigPayloadStream 0 .WitnessEncoding
      = ⟨some (messageError "ReadVarBytes" (.tooLarge "block pos data" 50001 MaxPosDataSize)),
          ⟨headerH, [noTx, plainTx, helloTx], []⟩, [0x01, 0x02]⟩ ∧
    emptyBlock.BtcDecode fullPayloadStream 0 .WitnessEncoding
      = ⟨none, ⟨headerH, [helloTx], [List.replicate 50000 0x5a]⟩, []⟩ :=
  have hH : ∀ s, specEnv.readBlockHeader (headerH.val ++ s) 0 emptyBlock.Header
      = (none, headerH, s) := fun _ => rfl
  have hT : ∀ tx ∈ fullPayloadBlock.Transactions,
      (specEnv.txBtcEncode tx 0 .WitnessEncoding).1 = none ∧
      ∀ s, specEnv.txBtcDecode specEnv.zeroTx
        ((specEnv.txBtcEncode tx 0 .WitnessEncoding).2 ++ s) 0 .WitnessEncoding
        = (none, tx, s) := fun tx ht =>
    (List.mem_singleton.mp ht) ▸ ⟨rfl, fun _ => rfl⟩
  ⟨(block_payload_bound specEnv emptyBlock bigPayloadStream
      ([0x03] ++ helloTxBytes ++ [0x01] ++ [0xfd, 0x51, 0xc3, 0x01, 0x02])
      (helloTxBytes ++ [0x01] ++ [0xfd, 0x51, 0xc3, 0x01, 0x02])
      ([0x01] ++ [0xfd, 0x51, 0xc3, 0x01, 0x02]) 0 .WitnessEncoding headerH
      [noTx, plainTx, helloTx] (by decide) (by decide) (by decide) (by decide)).1
      [] [0xfd, 0x51, 0xc3, 0x01, 0x02] [0x01, 0x02] 50001 0
      (by decide) (by decide) (by decide) (by decide) (by decide),
   (block_payload_bound specEnv emptyBlock fullPayloadStream
      (WriteVarInt 0 fullPayloadBlock.Transactions.length
        ++ ((fullPayloadBlock.Transactions.map
            (fun tx => (specEnv.txBtcEncode tx 0 .WitnessEncoding).2)).flatten
          ++ (WriteVarInt 0 fullPayloadBlock.PosData.length
            ++ (MsgBlock.writePosDataLoop 0 fullPayloadBlock.PosData ++ []))))
      ((fullPayloadBlock.Transactions.map
            (fun tx => (specEnv.txBtcEncode tx 0 .WitnessEncoding).2)).flatten
          ++ (WriteVarInt 0 fullPayloadBlock.PosData.length
            ++ (MsgBlock.writePosDataLoop 0 fullPayloadBlock.PosData ++ [])))
      (WriteVarInt 0 fullPayloadBlock.PosData.length
            ++ (MsgBlock.writePosDataLoop 0 fullPayloadBlock.PosData ++ []))
      0 .WitnessEncoding headerH fullPayloadBlock.Transactions
      (hH _) (ReadVarInt_WriteVarInt 0 0 _ _ (by decide)) (by decide)
      (decodesTxs_encoded specEnv 0 .WitnessEncoding _ _ hT)).2.1
      fullPayloadBlock.PosData [] 0
      (ReadVarInt_WriteVarInt 0 0 _ _ (by decide)) (by decide)
      (fun p hp => by
        rw [List.mem_singleton.mp hp, List.length_replicate]; decide)⟩

/-- Claim C7: oversized transaction count. On a stream with a valid header
whose transaction count n exceeds maxTxPerBlock = MaxBlockPayload /
minTxPayload + 1, BtcDecode and DeserializeTxLoc return a MessageError with the
reader left right after the count and Transactions not assigned, so before any
transaction is decoded; a count equal to maxTxPerBlock passes the check: a
stream with that many transactions, the right payload count and payloads of at
most 50000 bytes decodes. -/
theorem oversized_tx_count (W : Env) (msg : MsgBlock W) (r r1 r2 : List Byte)
    (pver n : Nat) (enc : MessageEncoding) (h : W.BlockHeader)
    (hH : W.readBlockHeader r pver msg.Header = (none, h, r1))
    (hN : ReadVarInt r1 pver = (n, none, r2)) :
    maxTxPerBlock W = MaxBlockPayload / W.minTxPayload + 1 ∧ MaxBlockPayload = 4000000 ∧
    (n > maxTxPerBlock W →
      msg.BtcDecode r pver enc
        = ⟨some (messageError "MsgBlock.BtcDecode" (.tooManyTx n (maxTxPerBlock W))),
            ⟨h, msg.Transactions, msg.PosData⟩, r2⟩) ∧
    (pver = 0 → n > maxTxPerBlock W →
      msg.DeserializeTxLoc r
        = ⟨[], some (messageError "MsgBlock.DeserializeTxLoc"
            (.tooManyTx n (maxTxPerBlock W))), ⟨h, msg.Transactions, msg.PosData⟩, r2⟩) ∧
    (n = maxTxPerBlock W →
      ∀ (txs : List W.MsgTx) (ps : Data) (r3 rest : List Byte) (pver1 : Nat),
        txs.length = n →
        DecodesTxs (fun s => W.txBtcDecode W.zeroTx s pver enc) r2 txs r3 →
        ReadVarInt r3 pver = (ps.length, none, MsgBlock.writePosDataLoop pver1 ps ++ rest) →
        ps.length = numWithData W txs →
        (∀ p ∈ ps, p.length ≤ MaxPosDataSize) →
        msg.BtcDecode r pver enc = ⟨none, ⟨h, txs, ps⟩, rest⟩) := by
  refine ⟨rfl, rfl, ?_, ?_, ?_⟩
  · intro hbig
    simp only [MsgBlock.BtcDecode, hH, hN, if_pos hbig]
  · intro hp hbig
    subst hp
    simp only [MsgBlock.DeserializeTxLoc, hH, hN, if_pos hbig]
  · intro hn txs ps r3 rest pver1 hlen hT hC hK hP
    subst hlen
    exact BtcDecode_accepts W msg r r1 r2 r3 rest pver pver1 enc h txs ps hH hN
      (le_of_eq hn) hT hC hK hP

/-- The witness of C7: with minTxPayload = 10 the count 400002 is rejected by
both decoders and a block of 400001 = maxTxPerBlock transactions decodes. -/
theorem oversized_tx_count_witness :
    emptyBlock.BtcDecode bigCountStream 0 .WitnessEncoding
      = ⟨some (messageError "MsgBlock.BtcDecode" (.tooManyTx 400002 (maxTxPerBlock specEnv))),
          ⟨headerH, [], []⟩, [0x01]⟩ ∧
    emptyBlock.DeserializeTxLoc bigCountStream
      = ⟨[], some (messageError "MsgBlock.DeserializeTxLoc"
          (.tooManyTx 400002 (maxTxPerBlock specEnv))), ⟨headerH, [], []⟩, [0x01]⟩ ∧
    maxTxPerBlock specEnv = 400001 ∧
    emptyBlock.BtcDecode maxCountStream 0 .WitnessEncoding
      = ⟨none, ⟨headerH, List.replicate 400001 noTx, []⟩, []⟩ :=
  have h := oversized_tx_count specEnv emptyBlock bigCountStream
    ([0xfe, 0x82, 0x1a, 0x06, 0x00] ++ [0x01]) [0x01] 0 400002 .WitnessEncoding headerH
    (by decide) (by decide)
  have hlen : (List.replicate 400001 noTx).length = maxTxPerBlock specEnv :=
    (List.length_replicate 400001 noTx).trans (by decide)
  have hH : ∀ s, specEnv.readBlockHeader (headerH.val ++ s) 0 emptyBlock.Header
      = (none, headerH, s) := fun _ => rfl
  have hT : ∀ tx ∈ List.replicate 400001 noTx,
      (specEnv.txBtcEncode tx 0 .WitnessEncoding).1 = none ∧
      ∀ s, specEnv.txBtcDecode specEnv.zeroTx
        ((specEnv.txBtcEncode tx 0 .WitnessEncoding).2 ++ s) 0 .WitnessEncoding
        = (none, tx, s) := fun tx ht =>
    (List.eq_of_mem_replicate ht) ▸ ⟨rfl, fun _ => rfl⟩
  have g := oversized_tx_count specEnv emptyBlock maxCountStream
    (WriteVarInt 0 (List.replicate 400001 noTx).length
      ++ (((List.replicate 400001 noTx).map
          (fun tx => (specEnv.txBtcEncode tx 0 .WitnessEncoding).2)).flatten
        ++ (WriteVarInt 0 0 ++ [])))
    (((List.replicate 400001 noTx).map
          (fun tx => (specEnv.txBtcEncode tx 0 .WitnessEncoding).2)).flatten
        ++ (WriteVarInt 0 0 ++ []))
    0 (List.replicate 400001 noTx).length .WitnessEncoding headerH
    (hH _)
    (ReadVarInt_WriteVarInt 0 0 _ _ (hlen ▸ maxTxPerBlock_lt specEnv))
  ⟨h.2.2.1 (by decide), h.2.2.2.1 rfl (by decide), by decide,
    g.2.2.2.2 hlen (List.replicate 400001 noTx) [] (WriteVarInt 0 0 ++ []) [] 0 rfl
      (decodesTxs_encoded specEnv 0 .WitnessEncoding _ _ hT)
      (ReadVarInt_WriteVarInt 0 0 0 [] (by norm_num))
      ((List.countP_eq_zero.mpr (fun tx ht => by
        rw [List.eq_of_mem_replicate ht]; decide)).symm)
      (fun p hp => absurd hp (List.not_mem_nil p))⟩

/-! ## The relay message -/

/-- Claim C1: relay-message round trip. For every transaction tx that the
transaction codec encodes to txBytes and reads back from txBytes followed by
the payload section, and every payload d of at most MaxPosDataSize = 50000
bytes, BtcEncode of NewMsgTxData(tx, d) succeeds, and BtcDecode applied to
exactly the bytes it wrote succeeds, consumes them all, prints nothing, and
leaves a message whose Tx is tx and whose Data is d. -/
theorem relay_round_trip (W : Env) (recv : MsgTxData W) (tx : W.MsgTx) (d txBytes : List Byte)
    (pver : Nat) (enc : MessageEncoding)
    (henc : W.txBtcEncode tx pver enc = (none, txBytes))
    (hdec : W.txBtcDecode recv.Tx (txBytes ++ WriteVarBytes pver d) pver enc
      = (none, tx, WriteVarBytes pver d))
    (hd : d.length ≤ MaxPosDataSize) :
    ((NewMsgTxData W tx d).BtcEncode pver enc).1 = none ∧
    recv.BtcDecode ((NewMsgTxData W tx d).BtcEncode pver enc).2 pver enc
      = ⟨none, ⟨tx, d⟩, [], []⟩ := by
  have hd1 : ¬ d.length > MaxPosDataSize := by omega
  have hlen : d.length < 2 ^ 64 := by
    have : MaxPosDataSize = 50000 := rfl
    omega
  have hE : (NewMsgTxData W tx d).BtcEncode pver enc = (none, txBytes ++ WriteVarBytes pver d) := by
    simp only [MsgTxData.BtcEncode, NewMsgTxData, henc, if_neg hd1]
  have hR := ReadVarBytes_WriteVarBytes pver pver MaxPosDataSize "txdata data" d [] hd hlen
  rw [List.append_nil] at hR
  rw [hE]
  refine ⟨rfl, ?_⟩
  simp only [MsgTxData.BtcDecode, hdec, hR]

/-- The witness of C1: the transaction with a commitment over "hello" and a
payload of 20 bytes. -/
theorem relay_round_trip_witness :
    ((NewMsgTxData specEnv helloTx (List.replicate 20 0x5a)).BtcEncode 0 .WitnessEncoding).1
      = none ∧
    MsgTxData.BtcDecode (W := specEnv) ⟨specEnv.zeroTx, []⟩
      ((NewMsgTxData specEnv helloTx (List.replicate 20 0x5a)).BtcEncode 0 .WitnessEncoding).2
      0 .WitnessEncoding = ⟨none, ⟨helloTx, List.replicate 20 0x5a⟩, [], []⟩ :=
  relay_round_trip specEnv ⟨specEnv.zeroTx, []⟩ helloTx (List.replicate 20 0x5a)
    (SpecTx.BtcEncode helloTx 0 .WitnessEncoding).2 0 .WitnessEncoding
    (by decide) (by decide) (by decide)

/-- Claim C5: relay oversized-payload rejection. When the transaction decodes
from the stream and the length prefix that follows declares n > 50000, BtcDecode
returns the MessageError of ReadVarBytes, whatever follows the prefix: it
leaves the reader right after the prefix and assigns nil to Data, so it never
succeeds with truncated data. The prefix fd 51 c3 declares 50001. -/
theorem relay_oversized_rejected (W : Env) (msg : MsgTxData W) (r r1 r2 : List Byte)
    (tx : W.MsgTx) (n pver : Nat) (enc : MessageEncoding)
    (htx : W.txBtcDecode msg.Tx r pver enc = (none, tx, r1))
    (hn : ReadVarInt r1 pver = (n, none, r2))
    (hbig : n > MaxPosDataSize) :
    msg.BtcDecode r pver enc
      = ⟨some (messageError "ReadVarBytes" (.tooLarge "txdata data" n MaxPosDataSize)),
          ⟨tx, []⟩, r2, []⟩ ∧
    ((msg.BtcDecode r pver enc).err.map WireError.isMessageError) = some true ∧
    (msg.BtcDecode r pver enc).err ≠ none ∧
    ∀ rest : List Byte, ReadVarInt ((0xfd : Byte) :: 0x51 :: 0xc3 :: rest) pver
      = (50001, none, rest) := by
  have h : msg.BtcDecode r pver enc
      = ⟨some (messageError "ReadVarBytes" (.tooLarge "txdata data" n MaxPosDataSize)),
          ⟨tx, []⟩, r2, []⟩ := by
    simp only [MsgTxData.BtcDecode, htx, ReadVarBytes, hn, if_pos hbig]
  rw [h]
  refine ⟨rfl, rfl, by simp, ?_⟩
  intro rest
  exact ReadVarInt_WriteVarInt 0 pver 50001 rest (by norm_num)

/-- The witness of C5: the stream of TestTxDataWireTooLargeData, followed by
two more bytes. -/
theorem relay_oversized_rejected_witness :
    MsgTxData.BtcDecode (W := specEnv) ⟨specEnv.zeroTx, []⟩
      (noTxEncoded ++ [0xfd, 0x51, 0xc3, 0x01, 0x02]) 0 .WitnessEncoding
      = ⟨some (messageError "ReadVarBytes" (.tooLarge "txdata data" 50001 MaxPosDataSize)),
          ⟨noTx, []⟩, [0x01, 0x02], []⟩ :=
  (relay_oversized_rejected specEnv ⟨specEnv.zeroTx, []⟩
    (noTxEncoded ++ [0xfd, 0x51, 0xc3, 0x01, 0x02]) [0xfd, 0x51, 0xc3, 0x01, 0x02] [0x01, 0x02]
    noTx 50001 0 .WitnessEncoding (by decide) (by decide) (by decide)).1

/-- Claim C10: relay wire layout. For every MsgTxData with at most 50000 bytes
of Data whose transaction encodes without error, BtcEncode returns nil and the
bytes it writes are exactly the encoding of the transaction, then
VarInt(len(Data)), then the Data bytes. -/
theorem relay_wire_layout (W : Env) (msg : MsgTxData W) (pver : Nat) (enc : MessageEncoding)
    (hlen : msg.Data.length ≤ MaxPosDataSize)
    (htx : (W.txBtcEncode msg.Tx pver enc).1 = none) :
    msg.BtcEncode pver enc
      = (none, (W.txBtcEncode msg.Tx pver enc).2 ++ WriteVarInt pver msg.Data.length
          ++ msg.Data) := by
  have hd1 : ¬ msg.Data.length > MaxPosDataSize := by omega
  rcases hE : W.txBtcEncode msg.Tx pver enc with ⟨e, out⟩
  rw [hE] at htx
  simp only at htx
  subst htx
  simp only [MsgTxData.BtcEncode, hE, if_neg hd1, WriteVarBytes, List.append_assoc]

/-- The witness of C10: the transaction over "hello" with its payload. -/
theorem relay_wire_layout_witness :
    MsgTxData.BtcEncode (W := specEnv) ⟨helloTx, helloData⟩ 0 .WitnessEncoding
      = (none, (SpecTx.BtcEncode helloTx 0 .WitnessEncoding).2 ++ [0x05] ++ helloData) :=
  relay_wire_layout specEnv ⟨helloTx, helloData⟩ 0 .WitnessEncoding (by decide) (by decide)

/-- Claim C11: relay maximum payload length. For every protocol version,
MsgTxData.MaxPayloadLength(pver) is the uint32 sum MsgTx.MaxPayloadLength(pver)
+ VarIntSerializeSize(MaxPosDataSize) + MaxPosDataSize, where
VarIntSerializeSize(50000) = 3: the transaction maximum plus 50003 whenever
that does not exceed the uint32 range, and 4050003 without wrapping when the
transaction maximum is MaxBlockPayload = 4000000. -/
theorem relay_max_payload_length (W : Env) (msg : MsgTxData W) (pver : Nat) :
    VarIntSerializeSize MaxPosDataSize = 3 ∧
    msg.MaxPayloadLength pver
      = (W.txMaxPayloadLength msg.Tx pver + VarIntSerializeSize MaxPosDataSize
          + MaxPosDataSize) % 2 ^ 32 ∧
    (W.txMaxPayloadLength msg.Tx pver + 50003 < 2 ^ 32 →
      msg.MaxPayloadLength pver = W.txMaxPayloadLength msg.Tx pver + 50003) ∧
    (W.txMaxPayloadLength msg.Tx pver = MaxBlockPayload →
      msg.MaxPayloadLength pver = 4050003 ∧
      W.txMaxPayloadLength msg.Tx pver + 3 + 50000 < 2 ^ 32) := by
  have h3 : VarIntSerializeSize MaxPosDataSize = 3 := by decide
  have hm : MaxPosDataSize = 50000 := rfl
  have hb : MaxBlockPayload = 4000000 := rfl
  have hdef : msg.MaxPayloadLength pver
      = (W.txMaxPayloadLength msg.Tx pver + VarIntSerializeSize MaxPosDataSize % 2 ^ 32
          + MaxPosDataSize) % 2 ^ 32 := rfl
  rw [hdef, h3, hm]
  refine ⟨rfl, ?_, ?_, ?_⟩
  · norm_num
  · intro h
    omega
  · intro h
    rw [h, hb]
    omega

/-- The witness of C11: with a transaction maximum of 4000000 the relay
maximum is 4050003. -/
theorem relay_max_payload_length_witness :
    MsgTxData.MaxPayloadLength (W := specEnv) ⟨helloTx, helloData⟩ 70016 = 4050003 :=
  ((relay_max_payload_length specEnv ⟨helloTx, helloData⟩ 70016).2.2.2 rfl).1

/-- Claim C18: relay decode order and error propagation. BtcDecode first
decodes the transaction into msg.Tx; if that fails with e it returns exactly e,
leaves the reader as the transaction decoder left it and leaves Data as it was;
only when the transaction decoded without error does it call ReadVarBytes once,
with the bound MaxPosDataSize = 50000, and it returns exactly the error of that
read, with Data the bytes it returned and the reader as it left it. -/
theorem relay_decode_order (W : Env) (msg : MsgTxData W) (r : List Byte) (pver : Nat)
    (enc : MessageEncoding) :
    (∀ (e : WireError) (tx : W.MsgTx) (r1 : List Byte),
      W.txBtcDecode msg.Tx r pver enc = (some e, tx, r1) →
      (msg.BtcDecode r pver enc).err = some e ∧ (msg.BtcDecode r pver enc).r = r1 ∧
      (msg.BtcDecode r pver enc).msg.Data = msg.Data ∧
      (msg.BtcDecode r pver enc).msg.Tx = tx) ∧
    (∀ (tx : W.MsgTx) (r1 : List Byte),
      W.txBtcDecode msg.Tx r pver enc = (none, tx, r1) →
      (msg.BtcDecode r pver enc).err = (ReadVarBytes r1 pver 50000 "txdata data").2.1 ∧
      (msg.BtcDecode r pver enc).msg.Data = (ReadVarBytes r1 pver 50000 "txdata data").1 ∧
      (msg.BtcDecode r pver enc).r = (ReadVarBytes r1 pver 50000 "txdata data").2.2 ∧
      (msg.BtcDecode r pver enc).msg.Tx = tx) := by
  constructor
  · intro e tx r1 h
    simp only [MsgTxData.BtcDecode, h, and_self]
  · intro tx r1 h
    simp only [MsgTxData.BtcDecode, h, MaxPosDataSize, and_self]

/-- The witness of C18: on a stream cut inside the transaction the error of the
transaction decoder comes back and Data keeps its bytes; on the stream of the
relay test the error of the payload read comes back. -/
theorem relay_decode_order_witness :
    (MsgTxData.BtcDecode (W := specEnv) ⟨noTx, helloData⟩ [0x01, 0x00] 0 .WitnessEncoding).err
      = some .ErrUnexpectedEOF ∧
    (MsgTxData.BtcDecode (W := specEnv) ⟨noTx, helloData⟩ [0x01, 0x00] 0
      .WitnessEncoding).msg.Data
      = helloData ∧
    (MsgTxData.BtcDecode (W := specEnv) ⟨noTx, helloData⟩ (noTxEncoded ++ [0xfd, 0x51, 0xc3]) 0
      .WitnessEncoding).err
      = some (messageError "ReadVarBytes" (.tooLarge "txdata data" 50001 50000)) :=
  have h := relay_decode_order specEnv ⟨noTx, helloData⟩ [0x01, 0x00] 0 .WitnessEncoding
  have g := relay_decode_order specEnv ⟨noTx, helloData⟩ (noTxEncoded ++ [0xfd, 0x51, 0xc3]) 0
    .WitnessEncoding
  have h1 := h.1 .ErrUnexpectedEOF noTx [] (by decide)
  ⟨h1.1, h1.2.2.1, (g.2 noTx [0xfd, 0x51, 0xc3] (by decide)).1.trans (by decide)⟩

/-- Claim C19: relay encode enforces the payload limit before writing. If
len(Data) > 50000, BtcEncode returns a MessageError and writes no byte; if
len(Data) ≤ 50000 and the transaction encodes without error, BtcEncode returns
nil; so, when the transaction encodes without error, BtcEncode fails if and
only if len(Data) > MaxPosDataSize. -/
theorem relay_encode_limit (W : Env) (msg : MsgTxData W) (pver : Nat) (enc : MessageEncoding) :
    (msg.Data.length > 50000 →
      msg.BtcEncode pver enc
        = (some (messageError "MsgTxData.BtcEncode"
            (.txDataTooLarge msg.Data.length MaxPosDataSize)), [])) ∧
    (msg.Data.length ≤ 50000 → (W.txBtcEncode msg.Tx pver enc).1 = none →
      (msg.BtcEncode pver enc).1 = none) ∧
    ((W.txBtcEncode msg.Tx pver enc).1 = none →
      ((msg.BtcEncode pver enc).1 ≠ none ↔ msg.Data.length > MaxPosDataSize)) := by
  have hm : MaxPosDataSize = 50000 := rfl
  have hok : msg.Data.length ≤ 50000 → (W.txBtcEncode msg.Tx pver enc).1 = none →
      (msg.BtcEncode pver enc).1 = none := by
    intro hle htx
    have hd1 : ¬ msg.Data.length > MaxPosDataSize := by omega
    rcases hE : W.txBtcEncode msg.Tx pver enc with ⟨e, out⟩
    rw [hE] at htx
    simp only at htx
    subst htx
    simp only [MsgTxData.BtcEncode, hE, if_neg hd1]
  have hbig : msg.Data.length > 50000 →
      msg.BtcEncode pver enc
        = (some (messageError "MsgTxData.BtcEncode"
            (.txDataTooLarge msg.Data.length MaxPosDataSize)), []) := by
    intro h
    have hd1 : msg.Data.length > MaxPosDataSize := by omega
    simp only [MsgTxData.BtcEncode, if_pos hd1]
  refine ⟨hbig, hok, ?_⟩
  intro htx
  constructor
  · intro hne
    by_contra hle
    exact hne (hok (by omega) htx)
  · intro h
    rw [hbig (by omega)]
    simp

/-- The witness of C19: a payload of 50001 bytes is refused with no byte
written, a payload of 50000 bytes is encoded. -/
theorem relay_encode_limit_witness :
    MsgTxData.BtcEncode (W := specEnv) ⟨helloTx, List.replicate 50001 0x5a⟩ 0 .WitnessEncoding
      = (some (messageError "MsgTxData.BtcEncode"
          (.txDataTooLarge (List.replicate 50001 (0x5a : Byte)).length MaxPosDataSize)), []) ∧
    (MsgTxData.BtcEncode (W := specEnv) ⟨helloTx, List.replicate 50000 0x5a⟩ 0
      .WitnessEncoding).1 = none :=
  ⟨(relay_encode_limit specEnv ⟨helloTx, List.replicate 50001 0x5a⟩ 0 .WitnessEncoding).1
      (by rw [List.length_replicate]; decide),
   (relay_encode_limit specEnv ⟨helloTx, List.replicate 50000 0x5a⟩ 0 .WitnessEncoding).2.1
      (by rw [List.length_replicate]) rfl⟩

theorem deserializeTxLoop_eq_decodeTxLoop (W : Env)
    (hD : ∀ (tx : W.MsgTx) (s : List Byte),
      W.txDeserialize tx s = W.txBtcDecode tx s 0 .WitnessEncoding)
    (fullLen n i : Nat) (acc : List W.MsgTx) (locs : List TxLoc) (num : Nat) (r : List Byte) :
    ((MsgBlock.deserializeTxLoop W fullLen n i acc locs num r).1,
      (MsgBlock.deserializeTxLoop W fullLen n i acc locs num r).2.1,
      (MsgBlock.deserializeTxLoop W fullLen n i acc locs num r).2.2.2.1,
      (MsgBlock.deserializeTxLoop W fullLen n i acc locs num r).2.2.2.2)
      = MsgBlock.decodeTxLoop W 0 .WitnessEncoding n acc num r := by
  induction n generalizing i acc locs num r with
  | zero => rfl
  | succ n ih =>
    simp only [MsgBlock.deserializeTxLoop, MsgBlock.decodeTxLoop, hD]
    rcases hE : W.txBtcDecode W.zeroTx r 0 .WitnessEncoding with ⟨e, t, s⟩
    cases e with
    | some e => rfl
    | none => exact ih _ _ _ _ _

/-- Claim C14: DeserializeTxLoc agrees with Deserialize. Given that
MsgTx.Deserialize is MsgTx.BtcDecode at protocol version 0 with the witness
encoding, for every buffer DeserializeTxLoc returns an error exactly when
Deserialize does, and both leave the receiver with the same Header, the same
Transactions and the same PosData and leave the same reader, so they consume
the same number of bytes. -/
theorem deserializeTxLoc_agrees (W : Env) (msg : MsgBlock W) (r : List Byte)
    (hD : ∀ (tx : W.MsgTx) (s : List Byte),
      W.txDeserialize tx s = W.txBtcDecode tx s 0 .WitnessEncoding) :
    ((msg.DeserializeTxLoc r).err = none ↔ (msg.Deserialize r).err = none) ∧
    (msg.DeserializeTxLoc r).msg = (msg.Deserialize r).msg ∧
    (msg.DeserializeTxLoc r).r = (msg.Deserialize r).r := by
  rcases hH : W.readBlockHeader r 0 msg.Header with ⟨e, h, r1⟩
  rcases hN : ReadVarInt r1 0 with ⟨n, e1, r2⟩
  have hL := deserializeTxLoop_eq_decodeTxLoop W hD r.length n 0 []
    (List.replicate n ⟨0, 0⟩) 0 r2
  rcases hA : MsgBlock.deserializeTxLoop W r.length n 0 [] (List.replicate n ⟨0, 0⟩) 0 r2
    with ⟨ea, txa, la, na, ra⟩
  rw [hA] at hL
  simp only at hL
  rcases hC : ReadVarInt ra 0 with ⟨c, e2, r4⟩
  rcases hP : MsgBlock.readPosDataLoop 0 c [] r4 with ⟨e3, ds, r5⟩
  cases e <;> cases e1 <;> cases ea <;> cases e2 <;> cases e3 <;>
    simp only [MsgBlock.DeserializeTxLoc, MsgBlock.Deserialize, MsgBlock.BtcDecode, hH, hN, hA,
      ← hL, hC, hP] <;>
    first
      | exact ⟨Iff.rfl, rfl, rfl⟩
      | (split_ifs <;> simp)
      | simp

/-- The witness of C14: on the stream of the end-to-end block both decoders
succeed and leave the same block. -/
theorem deserializeTxLoc_agrees_witness :
    (emptyBlock.DeserializeTxLoc (helloBlock.BtcEncode 0 .WitnessEncoding).2).err = none ∧
    (emptyBlock.Deserialize (helloBlock.BtcEncode 0 .WitnessEncoding).2).err = none ∧
    (emptyBlock.DeserializeTxLoc (helloBlock.BtcEncode 0 .WitnessEncoding).2).msg
      = (emptyBlock.Deserialize (helloBlock.BtcEncode 0 .WitnessEncoding).2).msg ∧
    (emptyBlock.DeserializeTxLoc (helloBlock.BtcEncode 0 .WitnessEncoding).2).r
      = (emptyBlock.Deserialize (helloBlock.BtcEncode 0 .WitnessEncoding).2).r :=
  have h := deserializeTxLoc_agrees specEnv emptyBlock
    (helloBlock.BtcEncode 0 .WitnessEncoding).2 (fun _ _ => rfl)
  ⟨by decide, h.1.mp (by decide), h.2.1, h.2.2⟩

theorem length_txLocsOf (W : Env) (fullLen n : Nat) (r : List Byte) :
    (txLocsOf W fullLen n r).length = n := by
  induction n generalizing r with
  | zero => rfl
  | succ n ih => simp [txLocsOf, ih]

theorem deserializeTxLoop_locs (W : Env) (fullLen n : Nat) (pre : List TxLoc)
    (acc txs : List W.MsgTx) (num num1 : Nat) (locs1 : List TxLoc) (r r1 : List Byte)
    (h : MsgBlock.deserializeTxLoop W fullLen n pre.length acc
      (pre ++ List.replicate n ⟨0, 0⟩) num r = (none, txs, locs1, num1, r1)) :
    locs1 = pre ++ txLocsOf W fullLen n r := by
  induction n generalizing pre acc num r with
  | zero =>
    simp only [MsgBlock.deserializeTxLoop, Prod.mk.injEq, true_and] at h
    simp [txLocsOf, ← h.2.1]
  | succ n ih =>
    simp only [MsgBlock.deserializeTxLoop] at h
    rcases hD : W.txDeserialize W.zeroTx r with ⟨e, t, s⟩
    rw [hD] at h
    cases e with
    | some e => simp at h
    | none =>
      simp only at h
      have hset : (pre ++ List.replicate (n + 1) (⟨0, 0⟩ : TxLoc)).set pre.length
          ⟨(fullLen : Int) - (r.length : Int),
            ((fullLen : Int) - (s.length : Int)) - ((fullLen : Int) - (r.length : Int))⟩
          = (pre ++ [⟨(fullLen : Int) - (r.length : Int), (r.length : Int) - (s.length : Int)⟩])
            ++ List.replicate n ⟨0, 0⟩ := by
        have e1 : ((fullLen : Int) - (s.length : Int)) - ((fullLen : Int) - (r.length : Int))
            = (r.length : Int) - (s.length : Int) := by omega
        rw [e1]
        simp [List.replicate_succ]
      rw [hset] at h
      have hi : pre.length + 1
          = (pre ++ [(⟨(fullLen : Int) - (r.length : Int),
              (r.length : Int) - (s.length : Int)⟩ : TxLoc)]).length := by simp
      rw [hi] at h
      have := ih _ _ _ _ h
      rw [this]
      simp [txLocsOf, hD]

theorem txLocsOf_chain (W : Env) (fullLen n : Nat) (r : List Byte) (i : Nat)
    (hi : i + 1 < n) (d : TxLoc) :
    ((txLocsOf W fullLen n r).getD (i + 1) d).TxStart
      = ((txLocsOf W fullLen n r).getD i d).TxStart
        + ((txLocsOf W fullLen n r).getD i d).TxLen := by
  induction n generalizing r i with
  | zero => omega
  | succ n ih =>
    cases i with
    | zero =>
      obtain ⟨m, hm⟩ : ∃ m, n = m + 1 := ⟨n - 1, by omega⟩
      subst hm
      simp only [txLocsOf, List.getD_cons_succ, List.getD_cons_zero]
      omega
    | succ i =>
      simp only [txLocsOf, List.getD_cons_succ]
      exact ih _ i (by omega)

theorem readFull_consumes {n : Nat} {r bs r1 : List Byte}
    (h : readFull n r = (bs, none, r1)) : r.length = n + r1.length := by
  cases n with
  | zero =>
    simp only [readFull, Prod.mk.injEq, true_and] at h
    simp [h.2]
  | succ n =>
    cases r with
    | nil => simp [readFull] at h
    | cons b r =>
      simp only [readFull] at h
      split at h
      · rename_i hlen
        simp only [Prod.mk.injEq, true_and] at h
        rw [← h.2]
        simp only [List.length_cons, List.length_drop]
        simp only [List.length_take] at hlen
        omega
      · simp at h

theorem uintLE_lt (bs : List Byte) : uintLE bs < 256 ^ bs.length := by
  induction bs with
  | nil => simp [uintLE]
  | cons b bs ih =>
    simp only [uintLE, List.length_cons, pow_succ]
    have := b.isLt
    omega

theorem ReadVarInt_consumes {r r1 : List Byte} {pver n : Nat}
    (h : ReadVarInt r pver = (n, none, r1)) :
    r.length = VarIntSerializeSize n + r1.length := by
  unfold ReadVarInt at h
  rcases hF : readFull 1 r with ⟨d, e, s⟩
  rw [hF] at h
  cases e with
  | some e => simp at h
  | none =>
    have hc := readFull_consumes hF
    have hlt := uintLE_lt d
    rw [readFull_length hF] at hlt
    simp only at h
    split_ifs at h with h1 h2 h3
    · rcases hG : readFull 8 s with ⟨sv, e8, s8⟩
      rw [hG] at h
      cases e8 with
      | some e8 => simp at h
      | none =>
        simp only at h
        split_ifs at h with hmin
        · simp at h
        · simp only [Prod.mk.injEq, true_and] at h
          have hc8 := readFull_consumes hG
          rw [← h.1, ← h.2]
          unfold VarIntSerializeSize
          split_ifs <;> omega
    · rcases hG : readFull 4 s with ⟨sv, e8, s8⟩
      rw [hG] at h
      cases e8 with
      | some e8 => simp at h
      | none =>
        simp only at h
        split_ifs at h with hmin
        · simp at h
        · simp only [Prod.mk.injEq, true_and] at h
          have hc8 := readFull_consumes hG
          have hv := uintLE_lt sv
          rw [readFull_length hG] at hv
          rw [← h.1, ← h.2]
          unfold VarIntSerializeSize
          split_ifs <;> omega
    · rcases hG : readFull 2 s with ⟨sv, e8, s8⟩
      rw [hG] at h
      cases e8 with
      | some e8 => simp at h
      | none =>
        simp only at h
        split_ifs at h with hmin
        · simp at h
        · simp only [Prod.mk.injEq, true_and] at h
          have hc8 := readFull_consumes hG
          have hv := uintLE_lt sv
          rw [readFull_length hG] at hv
          rw [← h.1, ← h.2]
          unfold VarIntSerializeSize
          split_ifs <;> omega
    · simp only [Prod.mk.injEq, true_and] at h
      rw [← h.1, ← h.2]
      unfold VarIntSerializeSize
      split_ifs <;> omega

theorem DeserializeTxLoc_err_nil (W : Env) (msg : MsgBlock W) (r : List Byte)
    (h : (msg.DeserializeTxLoc r).err ≠ none) : (msg.DeserializeTxLoc r).txLocs = [] := by
  rcases hH : W.readBlockHeader r 0 msg.Header with ⟨e, hd, r1⟩
  rcases hN : ReadVarInt r1 0 with ⟨n, e1, r2⟩
  rcases hA : MsgBlock.deserializeTxLoop W r.length n 0 [] (List.replicate n ⟨0, 0⟩) 0 r2
    with ⟨ea, txa, la, na, ra⟩
  rcases hC : ReadVarInt ra 0 with ⟨c, e2, r4⟩
  rcases hP : MsgBlock.readPosDataLoop 0 c [] r4 with ⟨e3, ds, r5⟩
  revert h
  cases e <;> cases e1 <;> cases ea <;> cases e2 <;> cases e3 <;>
    simp only [MsgBlock.DeserializeTxLoc, hH, hN, hA, hC, hP] <;>
    first
      | (split_ifs <;> simp)
      | simp

/-- Claim C15: transaction locations are exact. Whenever DeserializeTxLoc
succeeds, the returned list has one entry per decoded transaction; entry i has
TxStart equal to the offset, from the buffer position at call time, at which
the decoding of transaction i began and TxLen equal to the number of bytes that
decoding consumed; TxStart of entry i+1 is TxStart + TxLen of entry i; and when
the header took blockHeaderLen bytes, TxStart of entry 0 is blockHeaderLen +
the size of the transaction-count varint. On any error the returned list is
nil. -/
theorem txLocs_exact (W : Env) (msg : MsgBlock W) (r : List Byte) :
    ((msg.DeserializeTxLoc r).err = none →
      (msg.DeserializeTxLoc r).txLocs.length
        = (msg.DeserializeTxLoc r).msg.Transactions.length ∧
      (msg.DeserializeTxLoc r).txLocs
        = txLocsOf W r.length (ReadVarInt (W.readBlockHeader r 0 msg.Header).2.2 0).1
            (ReadVarInt (W.readBlockHeader r 0 msg.Header).2.2 0).2.2 ∧
      (∀ i, i + 1 < (msg.DeserializeTxLoc r).txLocs.length →
        ((msg.DeserializeTxLoc r).txLocs.getD (i + 1) ⟨0, 0⟩).TxStart
          = ((msg.DeserializeTxLoc r).txLocs.getD i ⟨0, 0⟩).TxStart
            + ((msg.DeserializeTxLoc r).txLocs.getD i ⟨0, 0⟩).TxLen) ∧
      (r.length = W.blockHeaderLen + (W.readBlockHeader r 0 msg.Header).2.2.length →
        0 < (msg.DeserializeTxLoc r).txLocs.length →
        ((msg.DeserializeTxLoc r).txLocs.getD 0 ⟨0, 0⟩).TxStart
          = (W.blockHeaderLen : Int) + (VarIntSerializeSize
              (ReadVarInt (W.readBlockHeader r 0 msg.Header).2.2 0).1 : Int))) ∧
    ((msg.DeserializeTxLoc r).err ≠ none → (msg.DeserializeTxLoc r).txLocs = []) := by
  refine ⟨?_, DeserializeTxLoc_err_nil W msg r⟩
  intro hok
  obtain ⟨h, r1, n, r2, txs, locs, num, r3, r4, ds, r5, hH, hN, _, hL, _, _, hR⟩ :=
    DeserializeTxLoc_ok W msg r hok
  obtain ⟨new, h1, h2, _⟩ := deserializeTxLoop_ok W r.length n [] txs 0 0 num _ locs r2 r3 hL
  have hlocs := deserializeTxLoop_locs W r.length n [] [] txs 0 num locs r2 r3
    (by simpa using hL)
  rw [List.nil_append] at hlocs h1
  subst h1
  rw [hR, hH, hN]
  simp only
  rw [hlocs, length_txLocsOf]
  refine ⟨h2.symm, rfl, ?_, ?_⟩
  · intro i hi
    exact txLocsOf_chain W r.length n r2 i hi ⟨0, 0⟩
  · intro hlen hpos
    obtain ⟨m, hm⟩ : ∃ m, n = m + 1 := ⟨n - 1, by omega⟩
    have hcons := ReadVarInt_consumes hN
    subst hm
    simp only [txLocsOf, List.getD_cons_zero]
    omega

theorem foldl_run (W : Env) (steps : List (BuildStep W)) (msg : MsgBlock W) :
    steps.foldl BuildStep.run msg
      = ⟨msg.Header, msg.Transactions ++ steps.map BuildStep.tx,
          msg.PosData ++ (steps.filterMap BuildStep.pair).map Prod.snd⟩ := by
  induction steps generalizing msg with
  | nil => simp
  | cons s steps ih =>
    cases s with
    | plain t =>
      simp [ih, BuildStep.run, MsgBlock.AddTransaction, BuildStep.tx, BuildStep.pair]
    | withData t d =>
      simp [ih, BuildStep.run, MsgBlock.AddTransactionWithData, BuildStep.tx, BuildStep.pair]

theorem filter_map_tx (W : Env) (steps : List (BuildStep W))
    (hd : ∀ s ∈ steps, s.disciplined = true) :
    (steps.map BuildStep.tx).filter W.HasAttachedData
      = (steps.filterMap BuildStep.pair).map Prod.fst := by
  induction steps with
  | nil => rfl
  | cons s steps ih =>
    have h1 := hd s (List.mem_cons_self _ _)
    have h2 := ih (fun t ht => hd t (List.mem_cons_of_mem _ ht))
    cases s with
    | plain t =>
      simp only [BuildStep.disciplined, Bool.not_eq_true'] at h1
      simp [BuildStep.tx, BuildStep.pair, h1, h2]
    | withData t d =>
      simp only [BuildStep.disciplined] at h1
      simp [BuildStep.tx, BuildStep.pair, h1, h2]

theorem zip_map_fst_snd {α β : Type} (l : List (α × β)) :
    List.zip (l.map Prod.fst) (l.map Prod.snd) = l := by
  induction l with
  | nil => rfl
  | cons x l ih => simp [ih]

theorem BtcDecode_BtcEncode (W : Env) (recv b : MsgBlock W) (pver : Nat)
    (enc : MessageEncoding)
    (hN : b.Transactions.length ≤ maxTxPerBlock W)
    (hH1 : (W.writeBlockHeader pver b.Header).1 = none)
    (hH2 : ∀ s, W.readBlockHeader ((W.writeBlockHeader pver b.Header).2 ++ s) pver recv.Header
      = (none, b.Header, s))
    (hT : ∀ tx ∈ b.Transactions, (W.txBtcEncode tx pver enc).1 = none ∧
      ∀ s, W.txBtcDecode W.zeroTx ((W.txBtcEncode tx pver enc).2 ++ s) pver enc = (none, tx, s))
    (hK : b.PosData.length = numWithData W b.Transactions)
    (hP : ∀ p ∈ b.PosData, p.length ≤ MaxPosDataSize) :
    recv.BtcDecode (b.BtcEncode pver enc).2 pver enc = ⟨none, b, []⟩ := by
  have hE := BtcEncode_eq W b pver enc hH1 (fun tx ht => (hT tx ht).1)
  have hmax := maxTxPerBlock_lt W
  have hcount : numWithData W b.Transactions ≤ b.Transactions.length := List.countP_le_length _
  have hS : (b.BtcEncode pver enc).2
      = (W.writeBlockHeader pver b.Header).2 ++ (WriteVarInt pver b.Transactions.length
          ++ ((b.Transactions.map (fun tx => (W.txBtcEncode tx pver enc).2)).flatten
          ++ (WriteVarInt pver b.PosData.length
          ++ (MsgBlock.writePosDataLoop pver b.PosData ++ [])))) := by
    rw [hE]
    simp only [writePosDataLoop_eq, List.append_assoc, List.append_nil]
  rw [hS]
  exact BtcDecode_accepts W recv _ _ _ _ [] pver pver enc b.Header b.Transactions b.PosData
    (hH2 _) (ReadVarInt_WriteVarInt pver pver _ _ (by omega)) hN
    (decodesTxs_encoded W pver enc b.Transactions _ hT)
    (ReadVarInt_WriteVarInt pver pver _ _ (by omega)) hK hP

/-- Claim C12: positional correspondence under builder discipline. For every
block obtained from NewMsgBlock(h) by a finite sequence of calls in which each
transaction without a commitment is added with AddTransaction and each
transaction with a commitment with AddTransactionWithData(tx, d): Transactions
holds the transactions in call order, PosData holds the supplied payloads in
call order, len(PosData) is the number of data-carrying transactions, and the
i-th element of PosData is the payload supplied with the i-th data-carrying
transaction; and when the codecs read back what they write, there are at most
maxTxPerBlock transactions and no payload exceeds 50000 bytes, that block
survives encode followed by decode. -/
theorem builder_positional (W : Env) (h : W.BlockHeader) (steps : List (BuildStep W))
    (hd : ∀ s ∈ steps, s.disciplined = true) :
    (buildBlock W h steps).Header = h ∧
    (buildBlock W h steps).Transactions = steps.map BuildStep.tx ∧
    (buildBlock W h steps).PosData = (steps.filterMap BuildStep.pair).map Prod.snd ∧
    (buildBlock W h steps).PosData.length
      = numWithData W (buildBlock W h steps).Transactions ∧
    List.zip ((buildBlock W h steps).Transactions.filter W.HasAttachedData)
        (buildBlock W h steps).PosData
      = steps.filterMap BuildStep.pair ∧
    (∀ (recv : MsgBlock W) (pver : Nat) (enc : MessageEncoding),
      steps.length ≤ maxTxPerBlock W →
      (W.writeBlockHeader pver h).1 = none →
      (∀ s, W.readBlockHeader ((W.writeBlockHeader pver h).2 ++ s) pver recv.Header
        = (none, h, s)) →
      (∀ st ∈ steps, (W.txBtcEncode st.tx pver enc).1 = none ∧
        ∀ s, W.txBtcDecode W.zeroTx ((W.txBtcEncode st.tx pver enc).2 ++ s) pver enc
          = (none, st.tx, s)) →
      (∀ p ∈ (steps.filterMap BuildStep.pair).map Prod.snd, p.length ≤ MaxPosDataSize) →
      recv.BtcDecode ((buildBlock W h steps).BtcEncode pver enc).2 pver enc
        = ⟨none, buildBlock W h steps, []⟩) := by
  have hb : buildBlock W h steps
      = ⟨h, steps.map BuildStep.tx, (steps.filterMap BuildStep.pair).map Prod.snd⟩ := by
    simp [buildBlock, foldl_run, NewMsgBlock]
  have hf := filter_map_tx W steps hd
  have hlen : ((steps.filterMap BuildStep.pair).map Prod.snd).length
      = numWithData W (steps.map BuildStep.tx) := by
    rw [numWithData, List.countP_eq_length_filter, hf, List.length_map, List.length_map]
  rw [hb]
  refine ⟨rfl, rfl, rfl, hlen, ?_, ?_⟩
  · simp only [hf]
    exact zip_map_fst_snd _
  · intro recv pver enc hN hH1 hH2 hT hP
    exact BtcDecode_BtcEncode W recv _ pver enc (by simpa using hN) hH1 hH2
      (fun tx ht => by
        obtain ⟨st, hst, rfl⟩ := List.mem_map.mp ht
        exact hT st hst)
      hlen hP

/-- The witness of C12: adding tx1 with D1, plain tx2, tx3 with D3 gives
PosData = [D1, D3] of length 2, paired with tx1 and tx3, and the block survives
encode followed by decode. -/
theorem builder_positional_witness :
    (buildBlock specEnv headerH exampleSteps).Transactions = [helloTx, plainTx, levelZeroTx] ∧
    (buildBlock specEnv headerH exampleSteps).PosData = [helloData, worldData] ∧
    (buildBlock specEnv headerH exampleSteps).PosData.length = 2 ∧
    List.zip ((buildBlock specEnv headerH exampleSteps).Transactions.filter
        specEnv.HasAttachedData) (buildBlock specEnv headerH exampleSteps).PosData
      = [(helloTx, helloData), (levelZeroTx, worldData)] ∧
    emptyBlock.BtcDecode ((buildBlock specEnv headerH exampleSteps).BtcEncode 0
      .WitnessEncoding).2 0 .WitnessEncoding
      = ⟨none, ⟨headerH, [helloTx, plainTx, levelZeroTx], [helloData, worldData]⟩, []⟩ :=
  have h := builder_positional specEnv headerH exampleSteps (by decide)
  ⟨h.2.1, h.2.2.1, h.2.2.1 ▸ rfl, h.2.2.2.2.1,
    h.2.2.2.2.2 emptyBlock 0 .WitnessEncoding (by decide) rfl (fun _ => rfl)
      (fun st hst => by
        have e : st = .withData helloTx helloData ∨ st = .plain plainTx
            ∨ st = .withData levelZeroTx worldData := by
          simpa [exampleSteps] using hst
        rcases e with e | e | e <;> subst e <;> exact ⟨rfl, fun _ => rfl⟩)
      (by decide)⟩

/-- The witness of C15: the three transactions of the end-to-end block start
at offsets 81, 92 and 103 and take 11, 11 and 88 bytes; a stream with a wrong
payload count gives no locations. -/
theorem txLocs_exact_witness :
    (emptyBlock.DeserializeTxLoc (helloBlock.BtcEncode 0 .WitnessEncoding).2).txLocs
      = [⟨81, 11⟩, ⟨92, 11⟩, ⟨103, 88⟩] ∧
    (emptyBlock.DeserializeTxLoc badCountStream).txLocs = [] :=
  ⟨((txLocs_exact specEnv emptyBlock (helloBlock.BtcEncode 0 .WitnessEncoding).2).1
      (by decide)).2.1.trans (by decide),
    (txLocs_exact specEnv emptyBlock badCountStream).2 (by decide)⟩

/-- Claim C13: one payload entry per committed transaction, whatever the
protection level. BtcDecode tallies the transactions by HasAttachedData() alone:
on a stream whose transactions decode and include one with HasAttachedData()
true, a payload count of 0 is rejected with the count-mismatch error; a
successful decode has exactly as many payload entries as transactions with
HasAttachedData() true, so exactly one for a single committed transaction; and
entries of length 0 are accepted. -/
theorem one_payload_per_committed_tx (W : Env) (msg : MsgBlock W) (r r1 r2 r3 : List Byte)
    (pver : Nat) (enc : MessageEncoding) (h : W.BlockHeader) (txs : List W.MsgTx)
    (tx : W.MsgTx)
    (hH : W.readBlockHeader r pver msg.Header = (none, h, r1))
    (hN : ReadVarInt r1 pver = (txs.length, none, r2))
    (hmax : txs.length ≤ maxTxPerBlock W)
    (hT : DecodesTxs (fun s => W.txBtcDecode W.zeroTx s pver enc) r2 txs r3)
    (hmem : tx ∈ txs) (hA : W.HasAttachedData tx = true) :
    1 ≤ numWithData W txs ∧
    (txs = [tx] → numWithData W txs = 1) ∧
    (∀ r4, ReadVarInt r3 pver = (0, none, r4) →
      msg.BtcDecode r pver enc
        = ⟨some (messageError "MsgBlock.BtcDecode"
            (.dataCountMismatch 0 (numWithData W txs))), ⟨h, txs, msg.PosData⟩, r4⟩) ∧
    ((msg.BtcDecode r pver enc).err = none →
      (msg.BtcDecode r pver enc).msg.PosData.length = numWithData W txs ∧
      (ReadVarInt r3 pver).1 = numWithData W txs) ∧
    (∀ (rest : List Byte) (pver1 : Nat),
      ReadVarInt r3 pver = (numWithData W txs, none,
        MsgBlock.writePosDataLoop pver1 (List.replicate (numWithData W txs) []) ++ rest) →
      msg.BtcDecode r pver enc
        = ⟨none, ⟨h, txs, List.replicate (numWithData W txs) []⟩, rest⟩) := by
  have hpos : 1 ≤ numWithData W txs := List.countP_pos_iff.mpr ⟨tx, hmem, hA⟩
  have hB := BtcDecode_after_txs W msg r r1 r2 r3 pver enc h txs hH hN hmax hT
  refine ⟨hpos, ?_, ?_, ?_, ?_⟩
  · intro e
    subst e
    simp [numWithData, hA]
  · intro r4 hC
    rw [hB]
    simp only [hC]
    rw [if_pos (by omega)]
  · intro hok
    rw [hB] at hok ⊢
    rcases hC : ReadVarInt r3 pver with ⟨c, e, r4⟩
    rw [hC] at hok
    cases e with
    | some e => simp at hok
    | none =>
      simp only at hok ⊢
      by_cases hne : c ≠ numWithData W txs
      · rw [if_pos hne] at hok
        simp at hok
      · have hc : c = numWithData W txs := not_not.mp hne
        subst hc
        rw [if_neg hne] at hok ⊢
        rcases hD : MsgBlock.readPosDataLoop pver (numWithData W txs) [] r4 with ⟨e, ds, r5⟩
        rw [hD] at hok
        cases e with
        | some e => simp at hok
        | none =>
          obtain ⟨new, d1, d2, _⟩ := readPosDataLoop_ok pver _ [] ds r4 r5 hD
          rw [List.nil_append] at d1
          subst d1
          exact ⟨d2, rfl⟩
  · intro rest pver1 hC
    exact BtcDecode_accepts W msg r r1 r2 r3 rest pver pver1 enc h txs
      (List.replicate (numWithData W txs) []) hH hN hmax hT
      (by rw [List.length_replicate]; exact hC) (List.length_replicate _ _)
      (fun p hp => by rw [List.eq_of_mem_replicate hp]; exact Nat.zero_le _)

/-- The witness of C13: a block with one transaction whose commitment has
protection level 0 is rejected with a payload count of 0 and accepted with one
payload entry of length 0. -/
theorem one_payload_per_committed_tx_witness :
    (levelZeroTx.PosCommitment.map Commitmment.ProtectionLevel) = some 0 ∧
    emptyBlock.BtcDecode levelZeroNoPayloadStream 0 .WitnessEncoding
      = ⟨some (messageError "MsgBlock.BtcDecode" (.dataCountMismatch 0 1)),
          ⟨headerH, [levelZeroTx], []⟩, []⟩ ∧
    emptyBlock.BtcDecode levelZeroEmptyPayloadStream 0 .WitnessEncoding
      = ⟨none, ⟨headerH, [levelZeroTx], [[]]⟩, []⟩ :=
  have h := one_payload_per_committed_tx specEnv emptyBlock levelZeroNoPayloadStream
    ([0x01] ++ (SpecTx.BtcEncode levelZeroTx 0 .WitnessEncoding).2 ++ [0x00])
    ((SpecTx.BtcEncode levelZeroTx 0 .WitnessEncoding).2 ++ [0x00]) [0x00]
    0 .WitnessEncoding headerH [levelZeroTx] levelZeroTx
    (by decide) (by decide) (by decide) (by decide) (by decide) (by decide)
  have g := one_payload_per_committed_tx specEnv emptyBlock levelZeroEmptyPayloadStream
    ([0x01] ++ (SpecTx.BtcEncode levelZeroTx 0 .WitnessEncoding).2 ++ [0x01, 0x00])
    ((SpecTx.BtcEncode levelZeroTx 0 .WitnessEncoding).2 ++ [0x01, 0x00]) [0x01, 0x00]
    0 .WitnessEncoding headerH [levelZeroTx] levelZeroTx
    (by decide) (by decide) (by decide) (by decide) (by decide) (by decide)
  ⟨rfl, h.2.2.1 [] (by decide), g.2.2.2.2 [] 0 (by decide)⟩

/-! ## The commitment -/

theorem length_putUintBE (k v : Nat) : (putUintBE k v).length = k := by
  induction k with
  | zero => rfl
  | succ k ih => simp [putUintBE, ih]

theorem Sum256_length (data : List Byte) : (sha256.Sum256 data).length = 32 := by
  simp [sha256.Sum256, length_putUintBE]

theorem Sum256_hello : sha256.Sum256 helloData = helloHash := by decide

theorem Sum256_collision :
    ∃ P P1 : List Byte, P1 ≠ P ∧ P1.length = P.length ∧
      sha256.Sum256 P1 = sha256.Sum256 P := by
  let f : (Fin 33 → Byte) → (Fin 32 → Byte) :=
    fun v i => (sha256.Sum256 (List.ofFn v)).getD i.val 0
  have hcard : Fintype.card (Fin 32 → Byte) < Fintype.card (Fin 33 → Byte) := by
    simp only [Fintype.card_fun, Fintype.card_fin]
    norm_num
  obtain ⟨v, w, hne, hf⟩ := Fintype.exists_ne_map_eq_of_card_lt f hcard
  refine ⟨List.ofFn w, List.ofFn v, ?_, by simp, ?_⟩
  · intro h
    exact hne (List.ofFn_injective h)
  · apply List.ext_getElem (by simp [Sum256_length])
    intro i h1 h2
    have hi : i < 32 := by simpa [Sum256_length] using h1
    have := congrFun hf ⟨i, hi⟩
    simp only [f, List.getD_eq_getElem?_getD] at this
    rw [List.getElem?_eq_getElem h1, List.getElem?_eq_getElem h2] at this
    simpa using this

theorem BuildCommitment_level1 {tag P sig : List Byte} {nonce : Nat} {c : Commitmment}
    (hb : BuildCommitment tag 1 P nonce sig = some c) :
    c = ⟨tag, 1, P.length, sha256.Sum256 P, nonce, sig⟩ := by
  unfold BuildCommitment at hb
  by_cases h1 : tag.length ≠ TagSize ∨ sig.length > MaxPosSigSize
  · rw [if_pos h1] at hb
    exact absurd hb (by simp)
  · rw [if_neg h1, if_neg (by decide), if_pos rfl] at hb
    exact (Option.some.inj hb).symm

theorem Validate_level1 (tag P sig P1 : List Byte) (nonce : Nat) :
    Commitmment.Validate ⟨tag, 1, P.length, sha256.Sum256 P, nonce, sig⟩ (.payload P1) = true
      ↔ (P1.length = P.length ∧ sha256.Sum256 P1 = sha256.Sum256 P) := by
  simp [Commitmment.Validate, PayloadClaim.hash, PayloadClaim.size, and_comm]

/-- Level-1 validation compares length and digest only, so by counting it
cannot tell all payloads apart: SHA-256 maps the payloads of 33 bytes to 32
bytes, so two different payloads of 33 bytes have the same digest, and the
commitment built over one accepts the other. No such pair is exhibited. -/
theorem level1_validate_not_injective :
    ¬ ∀ (tag P sig : List Byte) (nonce : Nat) (c : Commitmment),
        BuildCommitment tag 1 P nonce sig = some c →
        ∀ P1 : List Byte, P1 ≠ P → c.Validate (.payload P1) = false := by
  intro hall
  obtain ⟨P, P1, hne, hlen, hh⟩ := Sum256_collision
  have hb : BuildCommitment (List.replicate 32 0) 1 P 0 []
      = some ⟨List.replicate 32 0, 1, P.length, sha256.Sum256 P, 0, []⟩ := by
    simp [BuildCommitment, TagSize, MaxPosSigSize]
  have hrej := hall _ P [] 0 _ hb P1 hne
  have hacc := (Validate_level1 (List.replicate 32 0) P [] P1 0).mpr ⟨hlen, hh⟩
  rw [hacc] at hrej
  exact Bool.noConfusion hrej

/-- Level-1 commitments, modelled from the spec: every commitment with
protection level 1 built over a payload P has DataSize equal to len(P) and
HashCommitment equal to SHA-256(P); validation of such a commitment accepts P,
accepts a payload exactly when its length is len(P) and its SHA-256 digest is
that of P, and so rejects every payload whose length or digest differs,
including one of equal length with a different digest. -/
theorem level1_commitment (tag P sig : List Byte) (nonce : Nat) (c : Commitmment)
    (hb : BuildCommitment tag 1 P nonce sig = some c) :
    c.ProtectionLevel = 1 ∧ c.DataSize = P.length ∧ c.HashCommitment = sha256.Sum256 P ∧
    c.Validate (.payload P) = true ∧
    (∀ P1 : List Byte, c.Validate (.payload P1) = true
      ↔ (P1.length = P.length ∧ sha256.Sum256 P1 = sha256.Sum256 P)) ∧
    (∀ P1 : List Byte, P1.length ≠ P.length ∨ sha256.Sum256 P1 ≠ sha256.Sum256 P →
      c.Validate (.payload P1) = false) ∧
    (∀ P1 : List Byte, P1.length = P.length → sha256.Sum256 P1 ≠ sha256.Sum256 P →
      c.Validate (.payload P1) = false) := by
  have hc := BuildCommitment_level1 hb
  subst hc
  have hiff := Validate_level1 tag P sig
  refine ⟨rfl, rfl, rfl, (hiff P nonce).mpr ⟨rfl, rfl⟩, fun P1 => hiff P1 nonce, ?_, ?_⟩
  · intro P1 h
    cases hv : Commitmment.Validate ⟨tag, 1, P.length, sha256.Sum256 P, nonce, sig⟩
        (.payload P1) with
    | false => rfl
    | true =>
      have := (hiff P1 nonce).mp hv
      rcases h with h | h
      · exact absurd this.1 h
      · exact absurd this.2 h
  · intro P1 _ h
    cases hv : Commitmment.Validate ⟨tag, 1, P.length, sha256.Sum256 P, nonce, sig⟩
        (.payload P1) with
    | false => rfl
    | true => exact absurd ((hiff P1 nonce).mp hv).2 h

/-- An instance: the commitment of the end-to-end scenario is the one
built over "hello"; validation accepts "hello" and rejects "world", a payload
of the same length with a different digest, and the shorter payload "hell". -/
theorem level1_commitment_witness :
    BuildCommitment (List.replicate 32 7) 1 helloData 0 [0xaa, 0xbb, 0xcc]
      = some helloCommitment ∧
    helloTx.PosCommitment = some helloCommitment ∧
    helloCommitment.DataSize = helloData.length ∧
    helloCommitment.HashCommitment = sha256.Sum256 helloData ∧
    helloCommitment.Validate (.payload helloData) = true ∧
    helloCommitment.Validate (.payload worldData) = false ∧
    helloCommitment.Validate (.payload [0x68, 0x65, 0x6c, 0x6c]) = false :=
  have hb : BuildCommitment (List.replicate 32 7) 1 helloData 0 [0xaa, 0xbb, 0xcc]
      = some helloCommitment := by decide
  have h := level1_commitment (List.replicate 32 7) helloData [0xaa, 0xbb, 0xcc] 0
    helloCommitment hb
  ⟨hb, rfl, h.2.1, h.2.2.1, h.2.2.2.1, h.2.2.2.2.2.2 worldData rfl (by decide),
    h.2.2.2.2.2.1 [0x68, 0x65, 0x6c, 0x6c] (Or.inl (by decide))⟩

/-! ## Serialization without witness data, and the receiver after an error -/

/-- Claim C16, the code at every input: SerializeNoWitness is BtcEncode at
protocol version 0 with WitnessEncoding, the same call as Serialize, so it
writes every transaction with the witness encoding, never with the base
encoding: when the header and the transactions encode without error, the bytes
it writes are the header, the transaction count, the witness encodings of the
transactions and the payload section. -/
theorem serializeNoWitness_keeps_witness (W : Env) (b : MsgBlock W) :
    b.SerializeNoWitness = b.BtcEncode 0 .WitnessEncoding ∧
    b.SerializeNoWitness = b.Serialize ∧
    ((W.writeBlockHeader 0 b.Header).1 = none →
      (∀ tx ∈ b.Transactions, (W.txBtcEncode tx 0 .WitnessEncoding).1 = none) →
      b.SerializeNoWitness
        = (none, (W.writeBlockHeader 0 b.Header).2 ++ WriteVarInt 0 b.Transactions.length
            ++ (b.Transactions.map
                (fun tx => (W.txBtcEncode tx 0 .WitnessEncoding).2)).flatten
            ++ WriteVarInt 0 b.PosData.length
            ++ (b.PosData.map (fun p => WriteVarInt 0 p.length ++ p)).flatten)) ∧
    ((W.writeBlockHeader 0 b.Header).1 = none
        ∧ (W.writeBlockHeader 0 b.Header).2.length = W.blockHeaderLen →
      (∀ tx ∈ b.Transactions, (W.txBtcEncode tx 0 .WitnessEncoding).1 = none
        ∧ (W.txBtcEncode tx 0 .WitnessEncoding).2.length = W.txSerializeSize tx) →
      b.SerializeNoWitness.2.length = b.SerializeSize) := by
  refine ⟨rfl, rfl, ?_, ?_⟩
  · intro hH hT
    exact BtcEncode_eq W b 0 .WitnessEncoding hH hT
  · intro hH hT
    have hE := BtcEncode_eq W b 0 .WitnessEncoding hH.1 (fun tx ht => (hT tx ht).1)
    have hmap : (b.Transactions.map
        (fun tx => (W.txBtcEncode tx 0 .WitnessEncoding).2.length))
        = b.Transactions.map W.txSerializeSize :=
      List.map_congr_left (fun tx ht => (hT tx ht).2)
    have h1 : (List.length ∘ fun tx => (W.txBtcEncode tx 0 .WitnessEncoding).2)
        = (fun tx => (W.txBtcEncode tx 0 .WitnessEncoding).2.length) := rfl
    have h2 : (List.length ∘ fun p : List Byte => WriteVarInt 0 p.length ++ p)
        = (fun p => VarIntSerializeSize p.length + p.length) := by
      funext p
      simp [length_WriteVarInt]
    simp only [MsgBlock.SerializeNoWitness, hE, List.length_append, List.length_flatten,
      List.map_map, length_WriteVarInt, hH.2, h1, h2, hmap]
    unfold MsgBlock.SerializeSize
    rw [foldl_add_eq_sum, Data_SerializeSize_eq]
    omega

theorem ReadVarBytes_err_nil {r r1 bs : List Byte} {pver maxAllowed : Nat} {fieldName : String}
    {e : WireError} (h : ReadVarBytes r pver maxAllowed fieldName = (bs, some e, r1)) :
    bs = [] := by
  unfold ReadVarBytes at h
  rcases hV : ReadVarInt r pver with ⟨count, e1, s⟩
  rw [hV] at h
  cases e1 with
  | some e1 =>
    simp only [Prod.mk.injEq] at h
    exact h.1.symm
  | none =>
    simp only at h
    split_ifs at h with hc
    · simp only [Prod.mk.injEq] at h
      exact h.1.symm
    · rcases hF : readFull count s with ⟨b, e2, s1⟩
      rw [hF] at h
      cases e2 with
      | some e2 =>
        simp only [Prod.mk.injEq] at h
        exact h.1.symm
      | none => simp at h

/-- The counterexample of C17: on a stream with a wrong payload count,
MsgBlock.BtcDecode returns an error and leaves the receiver, which had the
header of zeros and no transaction, with the decoded header and the three
decoded transactions; on a stream with an oversized payload,
MsgTxData.BtcDecode returns an error and leaves the receiver, which held the
empty transaction and the payload "hello", with the decoded transaction and a
nil Data. -/
theorem decode_atomic_counterexample :
    (emptyBlock.BtcDecode badCountStream 0 .WitnessEncoding).err
      = some (messageError "MsgBlock.BtcDecode" (.dataCountMismatch 2 1)) ∧
    emptyBlock.Transactions = [] ∧
    (emptyBlock.BtcDecode badCountStream 0 .WitnessEncoding).msg.Transactions
      = [noTx, plainTx, helloTx] ∧
    emptyBlock.Header.val = List.replicate 80 0 ∧
    (emptyBlock.BtcDecode badCountStream 0 .WitnessEncoding).msg.Header.val
      = List.replicate 80 9 ∧
    (MsgTxData.BtcDecode (W := specEnv) ⟨noTx, helloData⟩ bigRelayStream 0 .WitnessEncoding).err
      = some (messageError "ReadVarBytes" (.tooLarge "txdata data" 50001 50000)) ∧
    (MsgTxData.BtcDecode (W := specEnv) ⟨noTx, helloData⟩ bigRelayStream 0
      .WitnessEncoding).msg.Tx = helloTx ∧
    (MsgTxData.BtcDecode (W := specEnv) ⟨noTx, helloData⟩ bigRelayStream 0
      .WitnessEncoding).msg.Data = [] := by
  decide

/-- Claim C17, amended: decode returns its error to the caller but is not
atomic. When MsgBlock.BtcDecode fails on a count mismatch after the
transactions were read, the receiver holds the decoded Header and the decoded
Transactions and only its PosData is the same as before the call; when
MsgTxData.BtcDecode fails in the payload read after the transaction was read,
for example on an oversized payload, Tx holds the decoded transaction and Data
is nil; when it fails in the transaction, Data is the same as before the
call. -/
theorem decode_error_receiver (W : Env) :
    (∀ (msg : MsgBlock W) (r r1 r2 r3 r4 : List Byte) (pver : Nat) (enc : MessageEncoding)
      (h : W.BlockHeader) (txs : List W.MsgTx) (dataCount : Nat),
      W.readBlockHeader r pver msg.Header = (none, h, r1) →
      ReadVarInt r1 pver = (txs.length, none, r2) →
      txs.length ≤ maxTxPerBlock W →
      DecodesTxs (fun s => W.txBtcDecode W.zeroTx s pver enc) r2 txs r3 →
      ReadVarInt r3 pver = (dataCount, none, r4) →
      dataCount ≠ numWithData W txs →
      (msg.BtcDecode r pver enc).err
        = some (messageError "MsgBlock.BtcDecode"
            (.dataCountMismatch dataCount (numWithData W txs))) ∧
      (msg.BtcDecode r pver enc).msg = ⟨h, txs, msg.PosData⟩) ∧
    (∀ (msg : MsgTxData W) (r r1 : List Byte) (pver : Nat) (enc : MessageEncoding)
      (tx : W.MsgTx),
      W.txBtcDecode msg.Tx r pver enc = (none, tx, r1) →
      (msg.BtcDecode r pver enc).err ≠ none →
      (msg.BtcDecode r pver enc).msg = ⟨tx, []⟩) ∧
    (∀ (msg : MsgTxData W) (r r1 : List Byte) (pver : Nat) (enc : MessageEncoding)
      (tx : W.MsgTx) (e : WireError),
      W.txBtcDecode msg.Tx r pver enc = (some e, tx, r1) →
      (msg.BtcDecode r pver enc).err = some e ∧
      (msg.BtcDecode r pver enc).msg = ⟨tx, msg.Data⟩) := by
  refine ⟨?_, ?_, ?_⟩
  · intro msg r r1 r2 r3 r4 pver enc h txs dataCount hH hN hmax hT hC hne
    rw [BtcDecode_after_txs W msg r r1 r2 r3 pver enc h txs hH hN hmax hT]
    simp only [hC, if_pos hne, and_self]
  · intro msg r r1 pver enc tx htx herr
    rcases hR : ReadVarBytes r1 pver MaxPosDataSize "txdata data" with ⟨d, e, r2⟩
    simp only [MsgTxData.BtcDecode, htx, hR] at herr ⊢
    cases e with
    | none => exact absurd rfl herr
    | some e => rw [ReadVarBytes_err_nil hR]
  · intro msg r r1 pver enc tx e htx
    simp only [MsgTxData.BtcDecode, htx, and_self]

/-- The witness of C17: the receivers after the two failing calls. -/
theorem decode_error_receiver_witness :
    (emptyBlock.BtcDecode badCountStream 0 .WitnessEncoding).msg
      = ⟨headerH, [noTx, plainTx, helloTx], emptyBlock.PosData⟩ ∧
    (MsgTxData.BtcDecode (W := specEnv) ⟨noTx, helloData⟩ bigRelayStream 0
      .WitnessEncoding).msg = ⟨helloTx, []⟩ :=
  have h := decode_error_receiver specEnv
  ⟨(h.1 emptyBlock badCountStream
      ([0x03] ++ helloTxBytes ++ [0x02] ++ ([0x05] ++ helloData))
      (helloTxBytes ++ [0x02] ++ ([0x05] ++ helloData))
      ([0x02] ++ ([0x05] ++ helloData)) ([0x05] ++ helloData)
      0 .WitnessEncoding headerH [noTx, plainTx, helloTx] 2
      (by decide) (by decide) (by decide) (by decide) (by decide) (by decide)).2,
    h.2.1 ⟨noTx, helloData⟩ bigRelayStream [0xfd, 0x51, 0xc3] 0 .WitnessEncoding helloTx
      (by decide) (by decide)⟩

/-! ## The builders and the size of the payload section -/

/-- Claim C26: AddTransactionWithData does exactly one paired append and no
validation. For every block, transaction tx and payload d it returns nil, the
new Transactions is the old list with tx appended at the end, the new PosData
is the old list with d appended at the end, and Header is unchanged; the
difference len(PosData) minus the number of data-carrying transactions is
preserved if and only if tx.HasAttachedData() is true, and grows by one when tx
carries no commitment. -/
theorem addTransactionWithData_frame (W : Env) (msg : MsgBlock W) (tx : W.MsgTx)
    (d : List Byte) :
    (msg.AddTransactionWithData tx d).1 = none ∧
    (msg.AddTransactionWithData tx d).2.Transactions = msg.Transactions ++ [tx] ∧
    (msg.AddTransactionWithData tx d).2.PosData = msg.PosData ++ [d] ∧
    (msg.AddTransactionWithData tx d).2.Header = msg.Header ∧
    ((((msg.AddTransactionWithData tx d).2.PosData.length : Int)
        - (numWithData W (msg.AddTransactionWithData tx d).2.Transactions : Int)
      = (msg.PosData.length : Int) - (numWithData W msg.Transactions : Int))
      ↔ W.HasAttachedData tx = true) ∧
    (W.HasAttachedData tx = false →
      ((msg.AddTransactionWithData tx d).2.PosData.length : Int)
        - (numWithData W (msg.AddTransactionWithData tx d).2.Transactions : Int)
      = (msg.PosData.length : Int) - (numWithData W msg.Transactions : Int) + 1) := by
  refine ⟨rfl, rfl, rfl, rfl, ?_, ?_⟩
  · cases hA : W.HasAttachedData tx <;>
      simp [MsgBlock.AddTransactionWithData, numWithData, List.countP_append, hA]
  · intro hA
    simp [MsgBlock.AddTransactionWithData, numWithData, List.countP_append, hA]
    omega

/-- The witness of C26: on the end-to-end block, one payload for one committed
transaction, adding a plain transaction with a payload leaves two payloads for
one committed transaction. -/
theorem addTransactionWithData_frame_witness :
    ((helloBlock.AddTransactionWithData plainTx worldData).2.PosData.length : Int)
      - (numWithData specEnv (helloBlock.AddTransactionWithData plainTx worldData).2.Transactions
          : Int)
      = ((helloBlock.PosData.length : Int) - (numWithData specEnv helloBlock.Transactions : Int))
        + 1 ∧
    (helloBlock.AddTransactionWithData plainTx worldData).2.PosData = [helloData, worldData] :=
  ⟨(addTransactionWithData_frame specEnv helloBlock plainTx worldData).2.2.2.2.2 rfl,
    (addTransactionWithData_frame specEnv helloBlock plainTx worldData).2.2.1⟩

/-- Claim C27: the single-list builders touch only their own list.
AddTransaction(tx) returns nil, appends tx at the end of Transactions and leaves
PosData and Header unchanged; AddData(d) returns nil, appends d at the end of
PosData and leaves Transactions and Header unchanged; on a block that satisfies
the count invariant, AddTransaction preserves it exactly when tx carries no
commitment, and AddData never preserves it. -/
theorem single_list_builders (W : Env) (msg : MsgBlock W) (tx : W.MsgTx) (d : List Byte) :
    ((msg.AddTransaction tx).1 = none ∧
      (msg.AddTransaction tx).2.Transactions = msg.Transactions ++ [tx] ∧
      (msg.AddTransaction tx).2.PosData = msg.PosData ∧
      (msg.AddTransaction tx).2.Header = msg.Header) ∧
    ((msg.AddData d).1 = none ∧
      (msg.AddData d).2.PosData = msg.PosData ++ [d] ∧
      (msg.AddData d).2.Transactions = msg.Transactions ∧
      (msg.AddData d).2.Header = msg.Header) ∧
    (msg.PosData.length = numWithData W msg.Transactions →
      ((msg.AddTransaction tx).2.PosData.length
          = numWithData W (msg.AddTransaction tx).2.Transactions
        ↔ W.HasAttachedData tx = false) ∧
      (msg.AddData d).2.PosData.length ≠ numWithData W (msg.AddData d).2.Transactions) := by
  refine ⟨⟨rfl, rfl, rfl, rfl⟩, ⟨rfl, rfl, rfl, rfl⟩, ?_⟩
  intro hinv
  constructor
  · cases hA : W.HasAttachedData tx <;>
      simp [MsgBlock.AddTransaction, numWithData, List.countP_append, hA] <;>
      simp [numWithData] at hinv <;> omega
  · simp only [MsgBlock.AddData, List.length_append, List.length_singleton]
    omega

/-- The witness of C27: on the end-to-end block, adding a committed transaction
alone or a payload alone breaks the count invariant, adding a plain transaction
alone keeps it. -/
theorem single_list_builders_witness :
    (helloBlock.AddTransaction plainTx).2.PosData.length
      = numWithData specEnv (helloBlock.AddTransaction plainTx).2.Transactions ∧
    (helloBlock.AddTransaction levelZeroTx).2.PosData.length
      ≠ numWithData specEnv (helloBlock.AddTransaction levelZeroTx).2.Transactions ∧
    (helloBlock.AddData worldData).2.PosData.length
      ≠ numWithData specEnv (helloBlock.AddData worldData).2.Transactions :=
  ⟨((single_list_builders specEnv helloBlock plainTx worldData).2.2 (by decide)).1.mpr rfl,
    fun h => absurd
      (((single_list_builders specEnv helloBlock levelZeroTx worldData).2.2 (by decide)).1.mp h)
      (by decide),
    ((single_list_builders specEnv helloBlock plainTx worldData).2.2 (by decide)).2⟩

theorem length_writePosDataLoop (pver : Nat) (t : Data) :
    (MsgBlock.writePosDataLoop pver t).length
      = (t.map (fun p => VarIntSerializeSize p.length + p.length)).sum := by
  induction t with
  | nil => rfl
  | cons p t ih =>
    simp only [MsgBlock.writePosDataLoop, WriteVarBytes, List.length_append,
      length_WriteVarInt, ih, List.map_cons, List.sum_cons]

/-- Claim C24: Data.SerializeSize matches the payload section. For every
payload list t, t.SerializeSize() is VarIntSerializeSize(len(t)) plus the sum
over the elements p of VarIntSerializeSize(len(p)) + len(p), which is the
number of bytes that MsgBlock.BtcEncode writes for the payload count and the
payloads; for the empty list it is 1, and the prefix of a payload takes 1 byte
up to a length of 252 and 3 bytes from a length of 253. -/
theorem data_serialize_size (W : Env) (b : MsgBlock W) (pver : Nat) (enc : MessageEncoding) :
    Data.SerializeSize b.PosData
      = VarIntSerializeSize b.PosData.length
        + (b.PosData.map (fun p => VarIntSerializeSize p.length + p.length)).sum ∧
    (WriteVarInt pver b.PosData.length ++ MsgBlock.writePosDataLoop pver b.PosData).length
      = Data.SerializeSize b.PosData ∧
    ((W.writeBlockHeader pver b.Header).1 = none →
      (∀ tx ∈ b.Transactions, (W.txBtcEncode tx pver enc).1 = none) →
      (b.BtcEncode pver enc).2
        = ((W.writeBlockHeader pver b.Header).2 ++ WriteVarInt pver b.Transactions.length
            ++ (b.Transactions.map (fun tx => (W.txBtcEncode tx pver enc).2)).flatten)
          ++ (WriteVarInt pver b.PosData.length
            ++ MsgBlock.writePosDataLoop pver b.PosData)) ∧
    Data.SerializeSize [] = 1 ∧
    (∀ p : List Byte, p.length ≤ 252 → VarIntSerializeSize p.length = 1) ∧
    (∀ p : List Byte, 253 ≤ p.length → p.length ≤ 65535 → VarIntSerializeSize p.length = 3) := by
  have hs := Data_SerializeSize_eq b.PosData
  refine ⟨hs, ?_, ?_, by decide, ?_, ?_⟩
  · rw [hs, List.length_append, length_WriteVarInt, length_writePosDataLoop]
  · intro hH hT
    rw [BtcEncode_eq W b pver enc hH hT, writePosDataLoop_eq]
    simp only [List.append_assoc]
  · intro p hp
    unfold VarIntSerializeSize
    rw [if_pos (by omega)]
  · intro p h1 h2
    unfold VarIntSerializeSize
    rw [if_neg (by omega), if_pos (by omega)]

/-- The witness of C24: the payload section of the end-to-end block takes 7
bytes, and a payload of 253 bytes takes a prefix of 3 bytes. -/
theorem data_serialize_size_witness :
    Data.SerializeSize helloBlock.PosData = 7 ∧
    (WriteVarInt 0 helloBlock.PosData.length
      ++ MsgBlock.writePosDataLoop 0 helloBlock.PosData).length = 7 ∧
    Data.SerializeSize [List.replicate 252 0x5a] = 1 + (1 + 252) ∧
    Data.SerializeSize [List.replicate 253 0x5a] = 1 + (3 + 253) :=
  have h := data_serialize_size specEnv helloBlock 0 .WitnessEncoding
  ⟨h.1.trans (by decide), h.2.1.trans (h.1.trans (by decide)),
    by
      rw [Data_SerializeSize_eq]
      simp only [List.map_cons, List.map_nil, List.sum_cons, List.sum_nil,
        List.length_replicate, List.length_cons, List.length_nil]
      decide,
    by
      rw [Data_SerializeSize_eq]
      simp only [List.map_cons, List.map_nil, List.sum_cons, List.sum_nil,
        List.length_replicate, List.length_cons, List.length_nil]
      decide⟩

/-! ## What the codecs do not check -/

/-- Claim C28: ClearTransactions does not clear the payloads. After
ClearTransactions the Transactions list is empty while PosData and Header are
as before; so a block with a non-empty PosData, whether or not it satisfied the
count invariant before, does not satisfy it afterwards, and, when the header is
read back from its encoding, BtcDecode rejects the encoding of the cleared
block with the count-mismatch error. -/
theorem clearTransactions_keeps_payloads (W : Env) (recv b : MsgBlock W) (pver : Nat)
    (enc : MessageEncoding)
    (hne : b.PosData ≠ [])
    (hlen : b.PosData.length < 2 ^ 64)
    (hH1 : (W.writeBlockHeader pver b.Header).1 = none)
    (hH2 : ∀ s, W.readBlockHeader ((W.writeBlockHeader pver b.Header).2 ++ s) pver recv.Header
      = (none, b.Header, s)) :
    b.ClearTransactions.Transactions = [] ∧
    b.ClearTransactions.PosData = b.PosData ∧
    b.ClearTransactions.Header = b.Header ∧
    b.ClearTransactions.PosData.length ≠ numWithData W b.ClearTransactions.Transactions ∧
    (b.ClearTransactions.BtcEncode pver enc).1 = none ∧
    (recv.BtcDecode (b.ClearTransactions.BtcEncode pver enc).2 pver enc).err
      = some (messageError "MsgBlock.BtcDecode"
          (.dataCountMismatch b.PosData.length 0)) := by
  have hpos : b.PosData.length ≠ 0 := fun h => hne (List.length_eq_zero.mp h)
  have hE := BtcEncode_eq W b.ClearTransactions pver enc hH1
    (fun tx ht => absurd ht (List.not_mem_nil tx))
  have hS : (b.ClearTransactions.BtcEncode pver enc).2
      = (W.writeBlockHeader pver b.Header).2 ++ (WriteVarInt pver ([] : List W.MsgTx).length
          ++ (WriteVarInt pver b.PosData.length
            ++ (b.PosData.map (fun p => WriteVarInt pver p.length ++ p)).flatten)) := by
    rw [hE]
    simp [MsgBlock.ClearTransactions]
  refine ⟨rfl, rfl, rfl, ?_, by rw [hE], ?_⟩
  · simp only [MsgBlock.ClearTransactions, numWithData, List.countP_nil]
    exact hpos
  · rw [hS, BtcDecode_after_txs W recv _ _ _ _ pver enc b.Header [] (hH2 _)
      (ReadVarInt_WriteVarInt pver pver _ _ (by norm_num)) (Nat.zero_le _) rfl]
    simp only [ReadVarInt_WriteVarInt pver pver _ _ hlen, numWithData, List.countP_nil,
      ne_eq, hpos, not_false_eq_true, if_true]

/-- The witness of C28: the end-to-end block after ClearTransactions keeps its
payload "hello" and its encoding is rejected. -/
theorem clearTransactions_keeps_payloads_witness :
    helloBlock.ClearTransactions.Transactions = [] ∧
    helloBlock.ClearTransactions.PosData = [helloData] ∧
    (emptyBlock.BtcDecode (helloBlock.ClearTransactions.BtcEncode 0 .WitnessEncoding).2 0
      .WitnessEncoding).err
      = some (messageError "MsgBlock.BtcDecode" (.dataCountMismatch 1 0)) :=
  have h := clearTransactions_keeps_payloads specEnv emptyBlock helloBlock 0 .WitnessEncoding
    (by decide) (by decide) (by decide) (fun _ => rfl)
  ⟨h.1, h.2.1, h.2.2.2.2.2⟩

theorem BtcDecode_BtcEncode_oversized (W : Env) (recv b : MsgBlock W) (pver : Nat)
    (enc : MessageEncoding) (ps qs : Data) (p : List Byte)
    (hN : b.Transactions.length ≤ maxTxPerBlock W)
    (hH1 : (W.writeBlockHeader pver b.Header).1 = none)
    (hH2 : ∀ s, W.readBlockHeader ((W.writeBlockHeader pver b.Header).2 ++ s) pver recv.Header
      = (none, b.Header, s))
    (hT : ∀ tx ∈ b.Transactions, (W.txBtcEncode tx pver enc).1 = none ∧
      ∀ s, W.txBtcDecode W.zeroTx ((W.txBtcEncode tx pver enc).2 ++ s) pver enc = (none, tx, s))
    (hK : b.PosData.length = numWithData W b.Transactions)
    (hS : b.PosData = ps ++ p :: qs)
    (hP : ∀ q ∈ ps, q.length ≤ MaxPosDataSize)
    (hbig : p.length > MaxPosDataSize) (hlt : p.length < 2 ^ 64) :
    recv.BtcDecode (b.BtcEncode pver enc).2 pver enc
      = ⟨some (messageError "ReadVarBytes"
            (.tooLarge "block pos data" p.length MaxPosDataSize)),
          ⟨b.Header, b.Transactions, ps⟩, p ++ MsgBlock.writePosDataLoop pver qs⟩ := by
  have hE := BtcEncode_eq W b pver enc hH1 (fun tx ht => (hT tx ht).1)
  have hmax := maxTxPerBlock_lt W
  have hcount : numWithData W b.Transactions ≤ b.Transactions.length := List.countP_le_length _
  have hW : MsgBlock.writePosDataLoop pver b.PosData
      = MsgBlock.writePosDataLoop pver ps
        ++ (WriteVarInt pver p.length ++ (p ++ MsgBlock.writePosDataLoop pver qs)) := by
    rw [hS]
    simp only [writePosDataLoop_eq, List.map_append, List.map_cons, List.flatten_append,
      List.flatten_cons, List.append_assoc]
  have hS1 : (b.BtcEncode pver enc).2
      = (W.writeBlockHeader pver b.Header).2 ++ (WriteVarInt pver b.Transactions.length
          ++ ((b.Transactions.map (fun tx => (W.txBtcEncode tx pver enc).2)).flatten
          ++ (WriteVarInt pver (numWithData W b.Transactions)
          ++ (MsgBlock.writePosDataLoop pver ps
            ++ (WriteVarInt pver p.length ++ (p ++ MsgBlock.writePosDataLoop pver qs)))))) := by
    rw [← hW, ← hK, hE]
    simp only [writePosDataLoop_eq, List.append_assoc]
  have hk : numWithData W b.Transactions = ps.length + (qs.length + 1) := by
    rw [← hK, hS, List.length_append, List.length_cons]
  have h5 := readPosDataLoop_oversized pver pver qs.length p.length ps []
    (WriteVarInt pver p.length ++ (p ++ MsgBlock.writePosDataLoop pver qs)) _ hP
    (ReadVarInt_WriteVarInt pver pver _ _ hlt) hbig
  rw [List.nil_append, ← hk] at h5
  rw [hS1, BtcDecode_after_txs W recv _ _ _ _ pver enc b.Header b.Transactions
    (hH2 _) (ReadVarInt_WriteVarInt pver pver _ _ (by omega)) hN
    (decodesTxs_encoded W pver enc b.Transactions _ hT)]
  simp only [ReadVarInt_WriteVarInt pver pver _ _
    (show numWithData W b.Transactions < 2 ^ 64 by omega), ne_eq, not_true_eq_false,
    if_false, h5]

/-- Claim C29: the relay codec does not couple the payload to the commitment.
For every transaction, with or without a commitment, that the transaction
codec encodes and reads back, and every payload of at most 50000 bytes,
BtcEncode succeeds, writing the transaction and then the payload, and
BtcDecode of those bytes succeeds with that transaction and that payload: no
condition relates the payload to the commitment. -/
theorem relay_payload_not_coupled (W : Env) (recv : MsgTxData W) (tx : W.MsgTx)
    (d txBytes : List Byte) (pver : Nat) (enc : MessageEncoding)
    (henc : W.txBtcEncode tx pver enc = (none, txBytes))
    (hdec : W.txBtcDecode recv.Tx (txBytes ++ WriteVarBytes pver d) pver enc
      = (none, tx, WriteVarBytes pver d))
    (hd : d.length ≤ MaxPosDataSize) :
    (NewMsgTxData W tx d).BtcEncode pver enc = (none, txBytes ++ WriteVarBytes pver d) ∧
    recv.BtcDecode (txBytes ++ WriteVarBytes pver d) pver enc = ⟨none, ⟨tx, d⟩, [], []⟩ := by
  have hd1 : ¬ d.length > MaxPosDataSize := by omega
  have hlen : d.length < 2 ^ 64 := by
    have : MaxPosDataSize = 50000 := rfl
    omega
  have hR := ReadVarBytes_WriteVarBytes pver pver MaxPosDataSize "txdata data" d [] hd hlen
  rw [List.append_nil] at hR
  constructor
  · simp only [MsgTxData.BtcEncode, NewMsgTxData, henc, if_neg hd1]
  · simp only [MsgTxData.BtcDecode, hdec, hR]

/-- The witness of C29: a message whose transaction has no commitment and whose
payload is "hello", and a message whose commitment declares DataSize 5 and
whose payload has 3 bytes, both encode and decode. -/
theorem relay_payload_not_coupled_witness :
    specEnv.HasAttachedData noTx = false ∧
    MsgTxData.BtcDecode (W := specEnv) ⟨specEnv.zeroTx, []⟩
      ((NewMsgTxData specEnv noTx helloData).BtcEncode 0 .WitnessEncoding).2 0 .WitnessEncoding
      = ⟨none, ⟨noTx, helloData⟩, [], []⟩ ∧
    helloTx.PosCommitment.map Commitmment.DataSize = some 5 ∧
    MsgTxData.BtcDecode (W := specEnv) ⟨specEnv.zeroTx, []⟩
      ((NewMsgTxData specEnv helloTx [0x01, 0x02, 0x03]).BtcEncode 0 .WitnessEncoding).2 0
      .WitnessEncoding
      = ⟨none, ⟨helloTx, [0x01, 0x02, 0x03]⟩, [], []⟩ :=
  have h := relay_payload_not_coupled specEnv ⟨specEnv.zeroTx, []⟩ noTx helloData
    (SpecTx.BtcEncode noTx 0 .WitnessEncoding).2 0 .WitnessEncoding
    (by decide) (by decide) (by decide)
  have g := relay_payload_not_coupled specEnv ⟨specEnv.zeroTx, []⟩ helloTx [0x01, 0x02, 0x03]
    (SpecTx.BtcEncode helloTx 0 .WitnessEncoding).2 0 .WitnessEncoding
    (by decide) (by decide) (by decide)
  ⟨rfl, h.1 ▸ h.2, rfl, g.1 ▸ g.2⟩

/-- Claim C30: block encode checks neither the count invariant nor the payload
size. For every block whose header and transactions encode without error,
MsgBlock.BtcEncode returns nil; hence there are blocks, one with len(PosData)
different from the number of data-carrying transactions and one with a payload
of 50001 bytes, that BtcEncode serializes without error and whose serialization
BtcDecode rejects. -/
theorem block_encode_unchecked (W : Env) (b : MsgBlock W) (pver : Nat) (enc : MessageEncoding)
    (hH : (W.writeBlockHeader pver b.Header).1 = none)
    (hT : ∀ tx ∈ b.Transactions, (W.txBtcEncode tx pver enc).1 = none) :
    (b.BtcEncode pver enc).1 = none ∧
    (∃ b1 : MsgBlock specEnv,
      b1.PosData.length ≠ numWithData specEnv b1.Transactions ∧
      (b1.BtcEncode 0 .WitnessEncoding).1 = none ∧
      (emptyBlock.BtcDecode (b1.BtcEncode 0 .WitnessEncoding).2 0 .WitnessEncoding).err
        = some (messageError "MsgBlock.BtcDecode" (.dataCountMismatch 1 0))) ∧
    (∃ b2 : MsgBlock specEnv,
      b2.PosData.length = numWithData specEnv b2.Transactions ∧
      (∃ p ∈ b2.PosData, p.length = 50001) ∧
      (b2.BtcEncode 0 .WitnessEncoding).1 = none ∧
      (emptyBlock.BtcDecode (b2.BtcEncode 0 .WitnessEncoding).2 0 .WitnessEncoding).err
        = some (messageError "ReadVarBytes"
            (.tooLarge "block pos data" 50001 MaxPosDataSize))) := by
  refine ⟨?_, ⟨strayPayloadBlock, by decide, by decide, by decide⟩,
    ⟨oversizedPayloadBlock, by decide, ⟨List.replicate 50001 0x5a, ?_, ?_⟩, by decide, ?_⟩⟩
  · rw [BtcEncode_eq W b pver enc hH hT]
  · exact List.mem_singleton.mpr rfl
  · exact List.length_replicate _ _
  · have h5 := BtcDecode_BtcEncode_oversized specEnv emptyBlock oversizedPayloadBlock 0
      .WitnessEncoding [] [] (List.replicate 50001 0x5a) (by decide) (by decide)
      (fun _ => rfl)
      (fun tx ht => (List.mem_singleton.mp ht) ▸ ⟨rfl, fun _ => rfl⟩)
      (by decide) rfl (fun q hq => absurd hq (List.not_mem_nil q))
      (by rw [List.length_replicate]; decide) (by rw [List.length_replicate]; decide)
    rw [h5, List.length_replicate]

/-- The witness of C30: the end-to-end block, like every block whose parts
encode, is serialized without error. -/
theorem block_encode_unchecked_witness :
    (strayPayloadBlock.BtcEncode 0 .WitnessEncoding).1 = none ∧
    (oversizedPayloadBlock.BtcEncode 0 .WitnessEncoding).1 = none :=
  ⟨(block_encode_unchecked specEnv strayPayloadBlock 0 .WitnessEncoding
      (by decide) (by decide)).1,
    (block_encode_unchecked specEnv oversizedPayloadBlock 0 .WitnessEncoding
      (by decide) (by decide)).1⟩

theorem deserializeTxLoopChecked_eq (W : Env) (fullLen n i : Nat) (txs : List W.MsgTx)
    (txLocs : List TxLoc) (num : Nat) (r : List Byte) (hlen : txLocs.length = i + n) :
    MsgBlock.deserializeTxLoopChecked W fullLen n i txs txLocs num r
      = some (MsgBlock.deserializeTxLoop W fullLen n i txs txLocs num r) := by
  induction n generalizing i txs txLocs num r with
  | zero => rfl
  | succ n ih =>
    have hi : i < txLocs.length := by omega
    simp only [MsgBlock.deserializeTxLoopChecked, MsgBlock.deserializeTxLoop, if_pos hi]
    rcases hD : W.txDeserialize W.zeroTx r with ⟨e, t, s⟩
    cases e with
    | some e => rfl
    | none =>
      simp only []
      exact ih _ _ _ _ _ (by rw [List.length_set]; omega)

theorem decodeAllocs_reached (W : Env) (msg : MsgBlock W) (r : List Byte) (pver : Nat)
    (enc : MessageEncoding) (a c : Nat) (hA : msg.decodeAllocs r pver enc = [a, c]) :
    (msg.BtcDecode r pver enc).msg.Transactions.length = a ∧
    numWithData W (msg.BtcDecode r pver enc).msg.Transactions = c ∧
    a ≤ maxTxPerBlock W := by
  rcases hH : W.readBlockHeader r pver msg.Header with ⟨e, h, r1⟩
  cases e with
  | some e => simp [MsgBlock.decodeAllocs, hH] at hA
  | none =>
    rcases hN : ReadVarInt r1 pver with ⟨n, e, r2⟩
    cases e with
    | some e => simp [MsgBlock.decodeAllocs, hH, hN] at hA
    | none =>
      by_cases hmax : n > maxTxPerBlock W
      · simp [MsgBlock.decodeAllocs, hH, hN, hmax] at hA
      · rcases hL : MsgBlock.decodeTxLoop W pver enc n [] 0 r2 with ⟨e, txs, num, r3⟩
        cases e with
        | some e => simp [MsgBlock.decodeAllocs, hH, hN, hmax, hL] at hA
        | none =>
          rcases hC : ReadVarInt r3 pver with ⟨d, e, r4⟩
          cases e with
          | some e => simp [MsgBlock.decodeAllocs, hH, hN, hmax, hL, hC] at hA
          | none =>
            by_cases hne : d ≠ num
            · simp [MsgBlock.decodeAllocs, hH, hN, hmax, hL, hC, hne] at hA
            · have hd : d = num := not_not.mp hne
              subst hd
              simp only [MsgBlock.decodeAllocs, hH, hN, hmax, hL, hC, ne_eq,
                not_true_eq_false, if_false, List.cons.injEq, and_true] at hA
              obtain ⟨new, h1, h2, h3⟩ := decodeTxLoop_ok W pver enc n [] txs 0 d r2 r3 hL
              rw [List.nil_append] at h1
              rw [Nat.zero_add] at h3
              subst h1
              have hT : (msg.BtcDecode r pver enc).msg.Transactions = txs := by
                simp only [MsgBlock.BtcDecode, hH, hN, hmax, hL, hC, ne_eq,
                  not_true_eq_false, if_false]
                rcases MsgBlock.readPosDataLoop pver d [] r4 with ⟨e, ds, r5⟩
                cases e <;> rfl
              rw [hT]
              exact ⟨by omega, by omega, by omega⟩

theorem decodeAllocs_le (W : Env) (msg : MsgBlock W) (r : List Byte) (pver : Nat)
    (enc : MessageEncoding) : ∀ c ∈ msg.decodeAllocs r pver enc, c ≤ maxTxPerBlock W := by
  rcases hH : W.readBlockHeader r pver msg.Header with ⟨e, h, r1⟩
  cases e with
  | some e => simp [MsgBlock.decodeAllocs, hH]
  | none =>
    rcases hN : ReadVarInt r1 pver with ⟨n, e, r2⟩
    cases e with
    | some e => simp [MsgBlock.decodeAllocs, hH, hN]
    | none =>
      by_cases hmax : n > maxTxPerBlock W
      · simp [MsgBlock.decodeAllocs, hH, hN, hmax]
      · have hn := Nat.not_lt.mp hmax
        rcases hL : MsgBlock.decodeTxLoop W pver enc n [] 0 r2 with ⟨e, txs, num, r3⟩
        cases e with
        | some e => simp [MsgBlock.decodeAllocs, hH, hN, hmax, hL, hn]
        | none =>
          rcases hC : ReadVarInt r3 pver with ⟨d, e, r4⟩
          cases e with
          | some e => simp [MsgBlock.decodeAllocs, hH, hN, hmax, hL, hC, hn]
          | none =>
            by_cases hne : d ≠ num
            · simp [MsgBlock.decodeAllocs, hH, hN, hmax, hL, hC, hne, hn]
            · have hd : d = num := not_not.mp hne
              subst hd
              obtain ⟨new, h1, h2, h3⟩ := decodeTxLoop_ok W pver enc n [] txs 0 d r2 r3 hL
              have h4 : numWithData W new ≤ new.length := List.countP_le_length _
              simp only [MsgBlock.decodeAllocs, hH, hN, hmax, hL, hC, ne_eq,
                not_true_eq_false, if_false, List.mem_cons, List.mem_singleton,
                List.not_mem_nil, or_false]
              intro c hc
              rcases hc with hc | hc <;> omega

theorem deserializeAllocs_reached (W : Env) (msg : MsgBlock W) (r : List Byte)
    (a b c : Nat) (hA : msg.deserializeAllocs r = [a, b, c]) :
    (msg.DeserializeTxLoc r).msg.Transactions.length = a ∧ b = a ∧
    numWithData W (msg.DeserializeTxLoc r).msg.Transactions = c ∧
    a ≤ maxTxPerBlock W := by
  rcases hH : W.readBlockHeader r 0 msg.Header with ⟨e, h, r1⟩
  cases e with
  | some e => simp [MsgBlock.deserializeAllocs, hH] at hA
  | none =>
    rcases hN : ReadVarInt r1 0 with ⟨n, e, r2⟩
    cases e with
    | some e => simp [MsgBlock.deserializeAllocs, hH, hN] at hA
    | none =>
      by_cases hmax : n > maxTxPerBlock W
      · simp [MsgBlock.deserializeAllocs, hH, hN, hmax] at hA
      · rcases hL : MsgBlock.deserializeTxLoop W r.length n 0 [] (List.replicate n ⟨0, 0⟩) 0 r2
          with ⟨e, txs, locs, num, r3⟩
        cases e with
        | some e => simp [MsgBlock.deserializeAllocs, hH, hN, hmax, hL] at hA
        | none =>
          rcases hC : ReadVarInt r3 0 with ⟨d, e, r4⟩
          cases e with
          | some e => simp [MsgBlock.deserializeAllocs, hH, hN, hmax, hL, hC] at hA
          | none =>
            by_cases hne : d ≠ num
            · simp [MsgBlock.deserializeAllocs, hH, hN, hmax, hL, hC, hne] at hA
            · have hd : d = num := not_not.mp hne
              subst hd
              simp only [MsgBlock.deserializeAllocs, hH, hN, hmax, hL, hC, ne_eq,
                not_true_eq_false, if_false, List.cons.injEq, and_true] at hA
              obtain ⟨new, h1, h2, h3⟩ :=
                deserializeTxLoop_ok W r.length n [] txs 0 0 d _ locs r2 r3 hL
              rw [List.nil_append] at h1
              rw [Nat.zero_add] at h3
              subst h1
              have hT : (msg.DeserializeTxLoc r).msg.Transactions = txs := by
                simp only [MsgBlock.DeserializeTxLoc, hH, hN, hmax, hL, hC, ne_eq,
                  not_true_eq_false, if_false]
                rcases MsgBlock.readPosDataLoop 0 d [] r4 with ⟨e, ds, r5⟩
                cases e <;> rfl
              rw [hT]
              exact ⟨by omega, by omega, by omega, by omega⟩

theorem deserializeAllocs_le (W : Env) (msg : MsgBlock W) (r : List Byte) :
    ∀ c ∈ msg.deserializeAllocs r, c ≤ maxTxPerBlock W := by
  rcases hH : W.readBlockHeader r 0 msg.Header with ⟨e, h, r1⟩
  cases e with
  | some e => simp [MsgBlock.deserializeAllocs, hH]
  | none =>
    rcases hN : ReadVarInt r1 0 with ⟨n, e, r2⟩
    cases e with
    | some e => simp [MsgBlock.deserializeAllocs, hH, hN]
    | none =>
      by_cases hmax : n > maxTxPerBlock W
      · simp [MsgBlock.deserializeAllocs, hH, hN, hmax]
      · have hn := Nat.not_lt.mp hmax
        rcases hL : MsgBlock.deserializeTxLoop W r.length n 0 [] (List.replicate n ⟨0, 0⟩) 0 r2
          with ⟨e, txs, locs, num, r3⟩
        cases e with
        | some e => simp [MsgBlock.deserializeAllocs, hH, hN, hmax, hL, hn]
        | none =>
          rcases hC : ReadVarInt r3 0 with ⟨d, e, r4⟩
          cases e with
          | some e => simp [MsgBlock.deserializeAllocs, hH, hN, hmax, hL, hC, hn]
          | none =>
            by_cases hne : d ≠ num
            · simp [MsgBlock.deserializeAllocs, hH, hN, hmax, hL, hC, hne, hn]
            · have hd : d = num := not_not.mp hne
              subst hd
              obtain ⟨new, h1, h2, h3⟩ :=
                deserializeTxLoop_ok W r.length n [] txs 0 0 d _ locs r2 r3 hL
              have h4 : numWithData W new ≤ new.length := List.countP_le_length _
              simp only [MsgBlock.deserializeAllocs, hH, hN, hmax, hL, hC, ne_eq,
                not_true_eq_false, if_false, List.mem_cons, List.mem_singleton,
                List.not_mem_nil, or_false]
              intro c hc
              rcases hc with hc | hc | hc <;> omega

/-- Claim C25: the payload count is bounded before it is used to allocate. On
every execution of MsgBlock.BtcDecode or DeserializeTxLoc that reaches the
allocation of PosData, dataCount equals the tally of data-carrying
transactions, which is at most txCount, which is at most maxTxPerBlock; every
size passed to make is at most maxTxPerBlock; a successful decode has passed
both allocations; and with txLocs of length txCount the loop of
DeserializeTxLoc never indexes txLocs out of range. -/
theorem payload_count_bounded (W : Env) (msg : MsgBlock W) (r : List Byte) (pver : Nat)
    (enc : MessageEncoding) :
    (∀ txCount dataCount, msg.decodeAllocs r pver enc = [txCount, dataCount] →
      dataCount = numWithData W (msg.BtcDecode r pver enc).msg.Transactions ∧
      txCount = (msg.BtcDecode r pver enc).msg.Transactions.length ∧
      dataCount ≤ txCount ∧ txCount ≤ maxTxPerBlock W) ∧
    (∀ c ∈ msg.decodeAllocs r pver enc, c ≤ maxTxPerBlock W) ∧
    ((msg.BtcDecode r pver enc).err = none →
      msg.decodeAllocs r pver enc
        = [(msg.BtcDecode r pver enc).msg.Transactions.length,
            (msg.BtcDecode r pver enc).msg.PosData.length]) ∧
    (∀ txCount locCount dataCount,
      msg.deserializeAllocs r = [txCount, locCount, dataCount] →
      dataCount = numWithData W (msg.DeserializeTxLoc r).msg.Transactions ∧
      txCount = (msg.DeserializeTxLoc r).msg.Transactions.length ∧ locCount = txCount ∧
      dataCount ≤ txCount ∧ txCount ≤ maxTxPerBlock W) ∧
    (∀ c ∈ msg.deserializeAllocs r, c ≤ maxTxPerBlock W) ∧
    (∀ (fullLen txCount : Nat) (s : List Byte),
      MsgBlock.deserializeTxLoopChecked W fullLen txCount 0 []
          (List.replicate txCount ⟨0, 0⟩) 0 s
        = some (MsgBlock.deserializeTxLoop W fullLen txCount 0 []
            (List.replicate txCount ⟨0, 0⟩) 0 s)) := by
  refine ⟨?_, decodeAllocs_le W msg r pver enc, ?_, ?_, deserializeAllocs_le W msg r, ?_⟩
  · intro a c hA
    obtain ⟨h1, h2, h3⟩ := decodeAllocs_reached W msg r pver enc a c hA
    have h4 : numWithData W (msg.BtcDecode r pver enc).msg.Transactions
        ≤ (msg.BtcDecode r pver enc).msg.Transactions.length := List.countP_le_length _
    exact ⟨h2.symm, h1.symm, by omega, h3⟩
  · intro hok
    obtain ⟨h, r1, n, r2, txs, num, r3, r4, ds, r5, hH, hN, hmax, hL, hC, hD, hR⟩ :=
      BtcDecode_ok W msg r pver enc hok
    obtain ⟨new, h1, h2, _⟩ := decodeTxLoop_ok W pver enc n [] txs 0 num r2 r3 hL
    obtain ⟨newd, d1, d2, _⟩ := readPosDataLoop_ok pver num [] ds r4 r5 hD
    rw [List.nil_append] at h1 d1
    subst h1 d1
    rw [hR]
    simp only [MsgBlock.decodeAllocs, hH, hN, if_neg (Nat.not_lt.mpr hmax), hL, hC, ne_eq,
      not_true_eq_false, if_false, h2, d2]
  · intro a b c hA
    obtain ⟨h1, h2, h3, h4⟩ := deserializeAllocs_reached W msg r a b c hA
    have h5 : numWithData W (msg.DeserializeTxLoc r).msg.Transactions
        ≤ (msg.DeserializeTxLoc r).msg.Transactions.length := List.countP_le_length _
    exact ⟨h3.symm, h1.symm, h2, by omega, h4⟩
  · intro fullLen txCount s
    exact deserializeTxLoopChecked_eq W fullLen txCount 0 [] _ 0 s
      (by rw [List.length_replicate, Nat.zero_add])

/-- The witness of C25: decoding the end-to-end block allocates for 3
transactions and 1 payload, and 1 is the number of data-carrying transactions
among the 3 decoded. -/
theorem payload_count_bounded_witness :
    emptyBlock.decodeAllocs (helloBlock.BtcEncode 0 .WitnessEncoding).2 0 .WitnessEncoding
      = [3, 1] ∧
    emptyBlock.deserializeAllocs (helloBlock.BtcEncode 0 .WitnessEncoding).2 = [3, 3, 1] ∧
    (1 = numWithData specEnv (emptyBlock.BtcDecode (helloBlock.BtcEncode 0 .WitnessEncoding).2
        0 .WitnessEncoding).msg.Transactions ∧
      3 = (emptyBlock.BtcDecode (helloBlock.BtcEncode 0 .WitnessEncoding).2
        0 .WitnessEncoding).msg.Transactions.length ∧
      1 ≤ 3 ∧ 3 ≤ maxTxPerBlock specEnv) :=
  ⟨by decide, by decide,
    (payload_count_bounded specEnv emptyBlock (helloBlock.BtcEncode 0 .WitnessEncoding).2 0
      .WitnessEncoding).1 3 1 (by decide)⟩

/-- Claim C23, which the code does not meet: MsgTxData.BtcDecode writes to the
standard output. On every execution on which the transaction fails to decode
it prints the line "Err decoding tx" before it returns the error, and on every
other execution it prints nothing; decoding the empty stream into a fresh
message is such a failing execution. -/
theorem relay_decode_prints (W : Env) (msg : MsgTxData W) (r : List Byte) (pver : Nat)
    (enc : MessageEncoding) :
    ((W.txBtcDecode msg.Tx r pver enc).1 ≠ none →
      (msg.BtcDecode r pver enc).stdout = ["Err decoding tx"] ∧
      (msg.BtcDecode r pver enc).err = (W.txBtcDecode msg.Tx r pver enc).1) ∧
    ((W.txBtcDecode msg.Tx r pver enc).1 = none → (msg.BtcDecode r pver enc).stdout = []) ∧
    (MsgTxData.BtcDecode (W := specEnv) ⟨specEnv.zeroTx, []⟩ [] 0 .WitnessEncoding).err
      ≠ none ∧
    (MsgTxData.BtcDecode (W := specEnv) ⟨specEnv.zeroTx, []⟩ [] 0 .WitnessEncoding).stdout
      = ["Err decoding tx"] := by
  refine ⟨?_, ?_, by decide, by decide⟩
  · intro h
    rcases hD : W.txBtcDecode msg.Tx r pver enc with ⟨e, tx, r1⟩
    rw [hD] at h
    cases e with
    | none => exact absurd rfl h
    | some e => simp only [MsgTxData.BtcDecode, hD, and_self]
  · intro h
    rcases hD : W.txBtcDecode msg.Tx r pver enc with ⟨e, tx, r1⟩
    rw [hD] at h
    simp only at h
    subst h
    simp only [MsgTxData.BtcDecode, hD]

theorem SpecTx_decode_no_commitment (recv : SpecTx) (v l pver : Nat) (enc : MessageEncoding)
    (rest : List Byte) (hv : v < 2 ^ 32) (hl : l < 2 ^ 32) :
    SpecTx.BtcDecode recv ((SpecTx.BtcEncode ⟨v, l, none⟩ pver enc).2 ++ rest) pver enc
      = (none, ⟨v, l, none⟩, rest) := by
  have e4 : ∀ x, x < 2 ^ 32 → uintLE (putUintLE 4 x) = x := fun x hx => by
    rw [uintLE_putUintLE]
    exact Nat.mod_eq_of_lt (by norm_num at hx ⊢; omega)
  have e1 : uintLE (putUintLE 1 0) = 0 := rfl
  simp only [SpecTx.BtcEncode, List.append_assoc, SpecTx.BtcDecode, readFull_putUintLE,
    ReadVarInt_WriteVarInt pver pver 0 _ (by norm_num), e4 v hv, e4 l hl, e1, ne_eq,
    not_true_eq_false, if_false, if_true]

theorem SpecTx_BtcDecode_layout (msg : SpecTx) (r : List Byte) (pver : Nat)
    (enc : MessageEncoding) :
    SpecTx.BtcDecode msg r pver enc
      = ((TxWithCommit.BtcDecode msg.toLayout r pver enc).1,
          ⟨(TxWithCommit.BtcDecode msg.toLayout r pver enc).2.1.Std.Version,
            (TxWithCommit.BtcDecode msg.toLayout r pver enc).2.1.Std.LockTime,
            (TxWithCommit.BtcDecode msg.toLayout r pver enc).2.1.PosCommitment⟩,
          (TxWithCommit.BtcDecode msg.toLayout r pver enc).2.2) := by
  simp only [SpecTx.BtcDecode, TxWithCommit.BtcDecode, specCore, SpecTx.toLayout]
  rcases readFull 4 r with ⟨v, e, r1⟩
  cases e with
  | some e => rfl
  | none =>
    simp only []
    rcases ReadVarInt r1 pver with ⟨n, e, r2⟩
    cases e with
    | some e => rfl
    | none =>
      simp only []
      by_cases hn : n ≠ 0
      · simp only [if_pos hn]
      · simp only [if_neg hn]
        rcases ReadVarInt r2 pver with ⟨m, e, r3⟩
        cases e with
        | some e => rfl
        | none =>
          simp only []
          by_cases hm : m ≠ 0
          · simp only [if_pos hm]
          · simp only [if_neg hm]
            rcases readFull 4 r3 with ⟨l, e, r4⟩
            cases e with
            | some e => rfl
            | none =>
              simp only []
              rcases readFull 1 r4 with ⟨f, e, r5⟩
              cases e with
              | some e => rfl
              | none =>
                simp only []
                by_cases h0 : uintLE f = 0
                · simp only [if_pos h0]
                · simp only [if_neg h0]
                  by_cases h1 : uintLE f = 1
                  · simp only [if_pos h1]
                    rcases Commitmment.decode r5 pver with ⟨c, e, r6⟩
                    cases e <;> rfl
                  · simp only [if_neg h1]

/-- Claim C22: a transaction without a commitment decodes. Modelled from the
spec: in the transaction layout of section 6 over any codec of the standard
transaction fields and any encoding, whenever the standard fields decode and
the byte that follows them is the zero presence byte, the transaction is
decoded without error, with those fields, no commitment and
HasAttachedData() false, the reader standing right after the presence byte;
the encoding of a transaction without a commitment is the standard fields
followed by the single zero byte; and when a payload of at most 50000 bytes
follows, MsgTxData.BtcDecode succeeds with that transaction and that payload
and prints nothing. -/
theorem tx_without_commitment_decodes (S : StdCodec) (recv : MsgTxData (layoutEnv S))
    (std : S.Fields) (r r1 : List Byte) (pver : Nat) (enc : MessageEncoding)
    (hr : S.read recv.Tx.Std r pver enc = (none, std, 0x00 :: r1)) :
    TxWithCommit.BtcDecode recv.Tx r pver enc = (none, ⟨std, none⟩, r1) ∧
    TxWithCommit.HasAttachedData (TxWithCommit.BtcDecode recv.Tx r pver enc).2.1 = false ∧
    (∀ out : List Byte, S.write std pver enc = (none, out) →
      TxWithCommit.BtcEncode (⟨std, none⟩ : TxWithCommit S) pver enc = (none, out ++ [0x00])) ∧
    (∀ d : List Byte, d.length ≤ MaxPosDataSize → r1 = WriteVarBytes pver d →
      recv.BtcDecode r pver enc = ⟨none, ⟨⟨std, none⟩, d⟩, [], []⟩) := by
  have hT : TxWithCommit.BtcDecode recv.Tx r pver enc = (none, ⟨std, none⟩, r1) := by
    have e0 : uintLE [(0x00 : Byte)] = 0 := rfl
    simp only [TxWithCommit.BtcDecode, hr, readFull_one, e0, if_true]
  refine ⟨hT, by rw [hT]; rfl, ?_, ?_⟩
  · intro out hw
    simp only [TxWithCommit.BtcEncode, hw]
    rfl
  · intro d hd hr1
    have hlen : d.length < 2 ^ 64 := by
      have : MaxPosDataSize = 50000 := rfl
      omega
    have hR := ReadVarBytes_WriteVarBytes pver pver MaxPosDataSize "txdata data" d [] hd hlen
    rw [List.append_nil] at hR
    subst hr1
    simp only [MsgTxData.BtcDecode, hT, hR]

/-- The witness of C22: the 11 bytes 01000000 00 00 00000000 00 of the
transaction NewMsgTx(1) of TestTxDataWireTooLargeData decode without error to
the transaction of version 1 with no commitment, and followed by the payload
"hello" they decode as a relay message; the transactions of specEnv are the
same layout. -/
theorem tx_without_commitment_decodes_witness :
    TxWithCommit.BtcDecode (S := specCore) ⟨specCore.zero, none⟩
      (noTxEncoded ++ WriteVarBytes 0 helloData) 0 .WitnessEncoding
      = (none, ⟨⟨1, 0⟩, none⟩, WriteVarBytes 0 helloData) ∧
    TxWithCommit.BtcEncode (S := specCore) ⟨⟨1, 0⟩, none⟩ 0 .WitnessEncoding
      = (none, noTxEncoded) ∧
    MsgTxData.BtcDecode (W := layoutEnv specCore) ⟨⟨specCore.zero, none⟩, []⟩
      (noTxEncoded ++ WriteVarBytes 0 helloData) 0 .WitnessEncoding
      = ⟨none, ⟨⟨⟨1, 0⟩, none⟩, helloData⟩, [], []⟩ ∧
    SpecTx.toLayout noTx = ⟨⟨1, 0⟩, none⟩ :=
  have h := tx_without_commitment_decodes specCore ⟨⟨specCore.zero, none⟩, []⟩ ⟨1, 0⟩
    (noTxEncoded ++ WriteVarBytes 0 helloData) (WriteVarBytes 0 helloData) 0 .WitnessEncoding rfl
  ⟨h.1, h.2.2.1 _ rfl, h.2.2.2 helloData (by decide) rfl, rfl⟩

theorem BuildCommitment_level0 {tag H sig : List Byte} {nonce : Nat} {c : Commitmment}
    (hb : BuildCommitment tag 0 H nonce sig = some c) :
    c = ⟨tag, 0, 0, H, nonce, sig⟩ := by
  unfold BuildCommitment at hb
  by_cases h1 : tag.length ≠ TagSize ∨ sig.length > MaxPosSigSize
  · rw [if_pos h1] at hb
    exact absurd hb (by simp)
  · rw [if_neg h1, if_pos rfl] at hb
    by_cases h2 : H.length = 32
    · rw [if_pos h2] at hb
      exact (Option.some.inj hb).symm
    · rw [if_neg h2] at hb
      exact absurd hb (by simp)

/-- Claim C21: level-0 commitment. Modelled from the spec: every commitment
built with protection level 0 over a caller-supplied hash H has
ProtectionLevel 0, DataSize 0 and HashCommitment equal to H as supplied; and
for every commitment with protection level 0, validation accepts the claim
(hash H1, length 0) exactly when H1 equals HashCommitment, and rejects every
claim whose size is not 0. -/
theorem level0_commitment (tag H sig : List Byte) (nonce : Nat) (c : Commitmment)
    (hb : BuildCommitment tag 0 H nonce sig = some c) :
    c.ProtectionLevel = 0 ∧ c.DataSize = 0 ∧ c.HashCommitment = H ∧
    (∀ c1 : Commitmment, c1.ProtectionLevel = 0 →
      (∀ H1 : List Byte, c1.Validate (.hashAndSize H1 0) = true ↔ H1 = c1.HashCommitment) ∧
      (∀ claim : PayloadClaim, claim.size ≠ 0 → c1.Validate claim = false)) := by
  have hc := BuildCommitment_level0 hb
  subst hc
  refine ⟨rfl, rfl, rfl, ?_⟩
  intro c1 h0
  constructor
  · intro H1
    simp [Commitmment.Validate, h0, PayloadClaim.hash, PayloadClaim.size]
  · intro claim hs
    simp [Commitmment.Validate, h0, hs]

/-- The witness of C21: the level-0 commitment built over the digest of "hello"
is the one of levelZeroTx; it keeps the digest as supplied, accepts the claim
(that digest, 0) and rejects the claims (that digest, 5), (another hash, 0) and
the explicit payload "hello". -/
theorem level0_commitment_witness :
    BuildCommitment (List.replicate 32 3) 0 helloHash 7 [0xdd] = levelZeroTx.PosCommitment ∧
    (∀ c ∈ levelZeroTx.PosCommitment,
      c.DataSize = 0 ∧ c.HashCommitment = helloHash ∧
      c.Validate (.hashAndSize helloHash 0) = true ∧
      c.Validate (.hashAndSize helloHash 5) = false ∧
      c.Validate (.hashAndSize (List.replicate 32 0) 0) = false ∧
      c.Validate (.payload helloData) = false) :=
  have hb : BuildCommitment (List.replicate 32 3) 0 helloHash 7 [0xdd]
      = some ⟨List.replicate 32 3, 0, 0, helloHash, 7, [0xdd]⟩ := by decide
  have h := level0_commitment (List.replicate 32 3) helloHash [0xdd] 7 _ hb
  ⟨hb, fun c hc => by
    have e : c = ⟨List.replicate 32 3, 0, 0, helloHash, 7, [0xdd]⟩ :=
      (Option.some.inj (Option.mem_def.mp hc)).symm
    subst e
    exact ⟨h.2.1, h.2.2.1, ((h.2.2.2 _ rfl).1 helloHash).mpr rfl,
      (h.2.2.2 _ rfl).2 _ (by decide), by decide, (h.2.2.2 _ rfl).2 _ (by decide)⟩⟩

end wire
